import Mathlib

/-!
# MMG2 Core API: a shallow embedding of `MMG2CoreAPI.js`

The JavaScript source is single threaded: every function body runs to its end
before the next event is taken from the event loop.  Each function of the
source is therefore embedded as a pure function from the state before the call
to the state after it, calls of user supplied callbacks are recorded in logs,
and `setTimeout` callbacks are kept in an explicit list of pending timers.
-/

namespace MMG2

/-! ## JobQueue -/

/-- Token standing for a JavaScript value the queue never inspects
(a job function, a job context, a callback, an abort reason). -/
abbrev Token := Nat

/-- Reference to a job object: its position in the heap of job objects, which
is also the number of jobs that were enqueued before it. -/
abbrev JobRef := Nat

/-- The job object `{context, run, completed}` that `enqueue` pushes. -/
structure Job where
  context : Token
  run : Token
  completed : Bool
deriving DecidableEq, Repr

/-- JavaScript values that may be handed to `setLimit`: `undefined`, `NaN`, or
a finite number. -/
inductive JSNumber where
  | undefined
  | nan
  | num (q : ℚ)
deriving DecidableEq

/-- Exceptions raised by the embedded functions. -/
inductive JSError where
  /-- `throw new Error(msg)` -/
  | error (msg : String)
  /-- a member access on `undefined` -/
  | typeError
  /-- an identifier that is bound nowhere -/
  | referenceError (name : String)
  /-- the trace names a closure that has not been created (no JavaScript
  counterpart: such a call cannot be written) -/
  | noSuchClosure
deriving DecidableEq, Repr

/-- The private variables of a `JobQueue` (`this._private`) together with the
part of the JavaScript heap and event loop they interact with. -/
structure JobQueue where
  /-- `pVars.activeJobs` -/
  activeJobs : Int
  /-- `pVars.queueLength` -/
  queueLength : Int
  /-- `pVars.enqueued` -/
  enqueued : Int
  /-- `pVars.completed` -/
  completed : Int
  /-- `pVars.queue`, as references into `jobs` -/
  queue : List JobRef
  /-- `pVars.aborted` -/
  aborted : Bool
  /-- `pVars.started` -/
  started : Bool
  /-- `pVars.concurrentLimit` -/
  concurrentLimit : ℚ
  /-- `pVars.onCompleteQueue` (`none` for a falsy value) -/
  onCompleteQueue : Option Token
  /-- `pVars.onAbortQueue` (`none` for a falsy value) -/
  onAbortQueue : Option Token
  /-- heap of job objects, in allocation order -/
  jobs : List Job
  /-- pending `setTimeout(..., 0)` callbacks, oldest first; each holds the
  value of `pVars.queue[pVars.activeJobs]` it was created with -/
  timers : List (Option JobRef)
  /-- log of the values handed to `setTimeout`, oldest first -/
  scheduledLog : List (Option JobRef)
  /-- log of the jobs whose `run` was called, oldest first -/
  runLog : List JobRef
  /-- number of calls of `pVars.onCompleteQueue()` so far -/
  drainCalls : Nat
  /-- log of the calls `pVars.onAbortQueue(about)`, oldest first -/
  abortCalls : List Token

namespace JobQueue

/-- The state built by `constructor()`. -/
def new : JobQueue where
  activeJobs := 0
  queueLength := 0
  enqueued := 0
  completed := 0
  queue := []
  aborted := false
  started := false
  concurrentLimit := 0
  onCompleteQueue := none
  onAbortQueue := none
  jobs := []
  timers := []
  scheduledLog := []
  runLog := []
  drainCalls := 0
  abortCalls := []

/-- JavaScript array read `arr[i]`: `undefined` outside the array. -/
def arrayGet {α : Type} (arr : List α) (i : Int) : Option α :=
  if 0 ≤ i then arr[i.toNat]? else none

/-- JavaScript `arr.indexOf(x)`: the first position of `x`, or `-1`. -/
def arrayIndexOf {α : Type} [DecidableEq α] (arr : List α) (x : α) : Int :=
  if x ∈ arr then (arr.indexOf x : Int) else -1

/-- JavaScript `arr.splice(start, 1)`: a negative `start` counts from the end,
and nothing is removed when the position is outside the array. -/
def spliceOne {α : Type} (arr : List α) (start : Int) : List α :=
  arr.eraseIdx (if start < 0 then ((arr.length : Int) + start).toNat else start.toNat)

/-- The `completed` flag of the job object behind a reference. -/
def flag (s : JobQueue) (j : JobRef) : Option Bool :=
  s.jobs[j]?.map Job.completed

/-- The `while` loop of `JQ_beginJob`; `fuel` bounds the number of iterations. -/
def beginLoop : Nat → JobQueue → JobQueue
  | 0, s => s
  | fuel + 1, s =>
    if s.started = true ∧ s.aborted = false ∧ (s.activeJobs : ℚ) < s.concurrentLimit
        ∧ s.activeJobs < s.queueLength then
      beginLoop fuel
        { s with
          timers := s.timers ++ [arrayGet s.queue s.activeJobs]
          scheduledLog := s.scheduledLog ++ [arrayGet s.queue s.activeJobs]
          activeJobs := s.activeJobs + 1 }
    else s

/-- `JQ_beginJob(pVars)`.  Each iteration raises `activeJobs` by one while it is
below `queueLength`, so `queueLength - activeJobs` iterations always suffice. -/
def JQ_beginJob (s : JobQueue) : JobQueue :=
  beginLoop (s.queueLength - s.activeJobs).toNat s

/-- State of `enqueue` after its assignments and before the scheduling loop. -/
def pushed (s : JobQueue) (job context : Token) : JobQueue :=
  { s with
    jobs := s.jobs ++ [{ context := context, run := job, completed := false }]
    queue := s.queue ++ [s.jobs.length]
    enqueued := s.enqueued + 1
    queueLength := s.queueLength + 1 }

/-- `enqueue(job, context)`. -/
def enqueue (s : JobQueue) (job context : Token) : JobQueue :=
  if (s.pushed job context).started = true then JQ_beginJob (s.pushed job context)
  else s.pushed job context

/-- `setLimit(newValue)`. -/
def setLimit (s : JobQueue) (newValue : JSNumber) : Except JSError JobQueue :=
  match newValue with
  | .undefined => .error (.error "JobQueue: Invalid value for limit.")
  | .nan => .error (.error "JobQueue: Invalid value for limit.")
  | .num q =>
    if q < 1 then .error (.error "JobQueue: Invalid value for limit.")
    else .ok { s with concurrentLimit := q }

/-- `start()`. -/
def start (s : JobQueue) : Except JSError JobQueue :=
  if s.started = true then
    .error (.error "JobQueue: Cannot start a job queue that is already running.")
  else
    let s1 : JobQueue := { s with started := true }
    if 0 < s1.queueLength then .ok (JQ_beginJob s1)
    else if s1.onCompleteQueue.isSome then .ok { s1 with drainCalls := s1.drainCalls + 1 }
    else .ok s1

/-- `onAbort(newValue)`. -/
def onAbort (s : JobQueue) (newValue : Option Token) : JobQueue :=
  { s with onAbortQueue := newValue }

/-- `onComplete(newValue)`. -/
def onComplete (s : JobQueue) (newValue : Option Token) : JobQueue :=
  { s with onCompleteQueue := newValue }

/-- State of a completion function after its assignments and before the
notification or the scheduling loop. -/
def finished (s : JobQueue) (j : JobRef) (job : Job) : JobQueue :=
  { s with
    jobs := s.jobs.set j { job with completed := true }
    queue := spliceOne s.queue (arrayIndexOf s.queue j)
    activeJobs := s.activeJobs - 1
    queueLength := s.queueLength - 1
    completed := s.completed + 1 }

/-- The function returned by `getCompleteFunction(j)`, called once. -/
def complete (s : JobQueue) (j : JobRef) : Except JSError JobQueue :=
  match s.jobs[j]? with
  | none => .error .noSuchClosure
  | some job =>
    if job.completed = true then .error (.error "Job completed multiple times.")
    else if (s.finished j job).queueLength = 0 ∧ (s.finished j job).activeJobs = 0 then
      if (s.finished j job).onCompleteQueue.isSome then
        .ok { s.finished j job with drainCalls := (s.finished j job).drainCalls + 1 }
      else .ok (s.finished j job)
    else .ok (JQ_beginJob (s.finished j job))

/-- The function returned by `getAbortFunction()`, called with `about`. -/
def abort (s : JobQueue) (about : Token) : JobQueue :=
  if s.aborted = false then
    let s1 : JobQueue := { s with aborted := true }
    if s1.onAbortQueue.isSome then { s1 with abortCalls := s1.abortCalls ++ [about] }
    else s1
  else s

/-- The oldest pending timer fires: the callback built by
`h_startWithoutCallStack(job)` calls `job.run(job.context, complete, abort)`,
which fails when `job` is `undefined`. -/
def tick (s : JobQueue) : Except JSError JobQueue :=
  match s.timers with
  | [] => .error .noSuchClosure
  | none :: _ => .error .typeError
  | some j :: rest => .ok { s with timers := rest, runLog := s.runLog ++ [j] }

end JobQueue

/-- Events a `JobQueue` can receive: the calls of its public methods, the
firing of a pending timer, and the calls a running job makes on the completion
and abort functions it was given. -/
inductive JQOp where
  | enqueue (job context : Token)
  | setLimit (newValue : JSNumber)
  | start
  | onAbort (newValue : Option Token)
  | onComplete (newValue : Option Token)
  | tick
  | complete (j : JobRef)
  | abort (about : Token)
deriving DecidableEq

namespace JobQueue

/-- One event.  A completion function exists only for a job whose `run` was
called, an abort function only once some job was run. -/
def step (s : JobQueue) : JQOp → Except JSError JobQueue
  | .enqueue job context => .ok (s.enqueue job context)
  | .setLimit v => s.setLimit v
  | .start => s.start
  | .onAbort h => .ok (s.onAbort h)
  | .onComplete h => .ok (s.onComplete h)
  | .tick => s.tick
  | .complete j => if j ∈ s.runLog then s.complete j else .error .noSuchClosure
  | .abort about => if s.runLog = [] then .error .noSuchClosure else .ok (s.abort about)

/-- State after one event; an event that throws leaves the state as it was
(every `throw` of the queue precedes its first assignment). -/
def next (s : JobQueue) (op : JQOp) : JobQueue :=
  match s.step op with
  | .ok s1 => s1
  | .error _ => s

/-- State after a sequence of events. -/
def run (s : JobQueue) (ops : List JQOp) : JobQueue :=
  ops.foldl next s

/-- The jobs whose `run` was called and whose completion function has not been
called yet. -/
def running (s : JobQueue) : List JobRef :=
  s.runLog.filter (fun j => decide (s.flag j = some false))

/-- The `(run, context)` pairs handed to `enqueue` by a sequence of events, in
call order. -/
def enqueuedJobs (ops : List JQOp) : List (Token × Token) :=
  ops.filterMap fun op =>
    match op with
    | .enqueue job context => some (job, context)
    | _ => none

/-- The `(run, context)` pairs of the jobs handed to `setTimeout` for starting,
oldest first (`none` where `undefined` was handed over). -/
def startedJobs (s : JobQueue) : List (Option (Token × Token)) :=
  s.scheduledLog.map fun r => r.bind fun j => s.jobs[j]?.map fun o => (o.run, o.context)

end JobQueue

namespace JobQueue

/-- Bound kept by every operation when `L` is the only limit ever set. -/
def Bounded (L : ℕ) (s : JobQueue) : Prop :=
  s.activeJobs ≤ L ∧ (s.concurrentLimit = 0 ∨ s.concurrentLimit = L)

/-- Shape of every reachable state: the queue is the list of scheduled and not
yet completed jobs followed by the jobs never scheduled, the latter being
exactly the references from `scheduledLog.length` on, in allocation order. -/
structure Inv (s : JobQueue) : Prop where
  len : s.queueLength = s.queue.length
  sched : s.scheduledLog = (List.range s.scheduledLog.length).map some
  fifo : s.scheduledLog = s.runLog.map some ++ s.timers
  schedLe : s.scheduledLog.length ≤ s.jobs.length
  done : ∀ j : Nat, s.flag j = some true → j ∈ s.runLog
  split : ∃ act : List Nat,
    s.queue = act ++ List.range' s.scheduledLog.length (s.jobs.length - s.scheduledLog.length) ∧
    s.activeJobs = act.length ∧ act.Nodup ∧ (∀ j : Nat, j ∈ act → j < s.scheduledLog.length) ∧
    (∀ j : Nat, j < s.scheduledLog.length → s.flag j = some false → j ∈ act)

end JobQueue

/-! ## Request correlator: contexts, fail handler, timeout sweep, inbound messages -/

/-- Result of a function body that may throw after it has already changed the
state or called somebody: the state at the moment the function was left, and
the exception if it was left by `throw`. -/
structure Outcome (σ : Type) where
  state : σ
  thrown : Option JSError

/-- The `context` object handed to `request`. -/
structure Context where
  /-- `context.resource` -/
  resource : String
  /-- `context.params` -/
  params : Token
  /-- `context.onSuccess` (`none` when missing) -/
  onSuccess : Option Token
  /-- `context.onFailure` (`none` when missing or falsy) -/
  onFailure : Option Token
  /-- `context.timeout` in milliseconds (`none` when missing) -/
  timeout : Option Nat
  /-- `context.critical` (`none` for `undefined`) -/
  critical : Option Bool
  /-- `context.useHTTP` -/
  useHTTP : Bool
  /-- whether `context.self` has been assigned -/
  self : Bool
deriving DecidableEq, Repr

/-- An entry of `sentWebSocketRequests`: `{id, context, complete, ts}`; `ts` is
`ts.getTime()` and `complete` the completion function of the job that sent it. -/
structure SentRequest where
  id : Nat
  context : Context
  complete : JobRef
  ts : Nat
deriving DecidableEq, Repr

/-- The `data` member of an inbound message: an opaque value and, when it is
an object, its own `additional` member. -/
structure Payload where
  value : Token
  additional : Option String
deriving DecidableEq, Repr

/-- Calls the correlator makes on functions it was handed, and the events it
emits. -/
inductive Call where
  /-- `context.onSuccess(data)` -/
  | onSuccess (context : Context) (data : Option Payload)
  /-- `context.onFailure(status, additional)` -/
  | onFailure (context : Context) (status : Option Int) (additional : Option String)
  /-- `complete()` of the job behind a request -/
  | complete (job : JobRef)
  /-- `lo.logOff()` -/
  | logOff
  /-- `self.emit("error", new Error(msg))`; an `error` listener is taken to be
  registered -/
  | emitError (msg : String)
  /-- a push handler called with the published data -/
  | push (handler : Token) (data : Option Payload)
  /-- `console.log` of a fixed text -/
  | log (text : String)
  /-- `self.emit(name)` for an event other than `error` -/
  | emitEvent (name : String)
deriving DecidableEq, Repr

/-- Bindings the module finds in the global scope.  `MMG2CoreAPI.js` declares
no identifier `lo`; it is bound only if the host program defines a global of
that name. -/
structure Globals where
  lo : Bool
deriving DecidableEq, Repr

/-- Global scope of the module on its own: `lo` is bound nowhere. -/
def moduleGlobals : Globals := { lo := false }

/-- JavaScript `"" + status` for a status that is a whole number or `undefined`. -/
def statusString : Option Int → String
  | some n => toString n
  | none => "undefined"

/-- The `status` object handed to a fail handler: `{status, additional,
statusText}`. -/
structure Status where
  status : Option Int
  additional : Option String
  statusText : Option String
deriving DecidableEq, Repr

/-- The calls `if (context.onFailure) context.onFailure(status, additional)`. -/
def callOnFailure (context : Context) (status : Option Int) (additional : Option String) :
    List Call :=
  if context.onFailure.isSome then [.onFailure context status additional] else []

/-- The function returned by `COREgetFailHandler(context, complete)`, applied to
`status`: the calls it makes, in order, and the error it throws if any. -/
def COREgetFailHandler (g : Globals) (context : Context) (complete : JobRef)
    (status : Status) : Outcome (List Call) :=
  if status.status = some 401 then
    if g.lo = true then
      { state := [.logOff] ++ callOnFailure context status.status status.additional
          ++ [.complete complete],
        thrown := none }
    else { state := [], thrown := some (.referenceError "lo") }
  else if context.critical = some true then
    if status.status = some (-1) ∨ status.status = some 0 then
      { state := callOnFailure context status.status status.additional ++ [.complete complete],
        thrown := none }
    else if status.status = some 400 then
      { state := [],
        thrown := some (.error ("400 - Bad Request (" ++ context.resource ++ ")")) }
    else if status.status = some 403 then
      { state := [],
        thrown := some (.error ("403 - Forbidden (" ++ context.resource ++ ")")) }
    else if status.status = some 404 then
      { state := [],
        thrown := some (.error ("404 - File not found (" ++ context.resource ++ ")")) }
    else if status.status = some 405 then
      { state := [],
        thrown := some (.error ("405 - Method not allowed (" ++ context.resource ++ ")")) }
    else if status.status = some 429 then
      { state := callOnFailure context status.status status.additional ++ [.complete complete],
        thrown := none }
    else if status.status = some 500 then
      { state := [],
        thrown := some (.error ("500 - Internal server error in " ++ context.resource)) }
    else
      { state := [],
        thrown := some (.error ("Unrecognised error condition (" ++ statusString status.status
          ++ ") while retrieving " ++ context.resource ++ "\n\n"
          ++ (match status.statusText with
              | some t => if t = "" then "" else t
              | none => ""))) }
  else
    { state := callOnFailure context status.status status.additional ++ [.complete complete],
      thrown := none }

/-- Text `sub` occurs in text `s`. -/
def Occurs (sub s : String) : Prop :=
  ∃ before after : String, s = before ++ sub ++ after

/-- States of the primary web socket (`WS_STATE`). -/
inductive WSState where
  | CLOSED
  | CLOSING
  | OPEN
  | OPENING
  | RECONN
deriving DecidableEq, Repr

/-- Messages the client writes to the socket. -/
inductive WireMsg where
  | req (id : Nat) (resource : String) (params : Token)
  | sub (topic : String)
  | unsub (topics : List String)
  | ping
deriving DecidableEq, Repr

/-- The functions the client enqueues as jobs. -/
inductive JobKind where
  | COREmakeHttpRequest
  | COREmakeWsRequest
  | COREmakeWebSocketConnection
deriving DecidableEq, Repr

/-- Token under which a job function is handed to the queue. -/
def JobKind.token : JobKind → Token
  | .COREmakeHttpRequest => 0
  | .COREmakeWsRequest => 1
  | .COREmakeWebSocketConnection => 2

/-- An entry of `webSocketPushHandlers`: `{topic, handler}`. -/
structure PushHandler where
  topic : String
  handler : Token
deriving DecidableEq, Repr

/-- The fields of an `MMG2CoreAPI` instance the correlator works on. -/
structure Client where
  /-- `this.myJobQueue` -/
  myJobQueue : JobQueue
  /-- contexts handed to `myJobQueue.enqueue`, in call order: the job with
  reference `j` was enqueued with `jobContexts[j]` (`none` for the context of a
  connection attempt) -/
  jobContexts : List (JobKind × Option Context)
  /-- `this.queueStarted` -/
  queueStarted : Bool
  /-- `readyState` of `this.primaryWebSocket` is `OPEN`, when there is a socket;
  `none` when `this.primaryWebSocket` is `null` or `undefined` -/
  primaryWebSocket : Option Bool
  /-- `this.primaryWebSocketState` -/
  primaryWebSocketState : WSState
  /-- `this.webSocketPushHandlers` -/
  webSocketPushHandlers : List PushHandler
  /-- `this.sentWebSocketRequests` -/
  sentWebSocketRequests : List SentRequest
  /-- `this.pendingWebSocketRequests` -/
  pendingWebSocketRequests : List Context
  /-- `this.lastIDRequest` -/
  lastIDRequest : Nat
  /-- `this.timeout` -/
  timeout : Nat
  /-- `this.timer`: the time at which the pending sweep fires, if one is pending -/
  timer : Option Nat
  /-- `this.authenticated` -/
  authenticated : Bool
  /-- `this.useKey` -/
  useKey : Bool
  /-- `this.reconnectAttempts` -/
  reconnectAttempts : Nat
  /-- messages written to the socket, oldest first -/
  wire : List WireMsg
  /-- calls made and events emitted, oldest first -/
  calls : List Call

namespace Client

/-- The fields set by the constructor of `MMG2CoreAPI`. -/
def new : Client where
  myJobQueue := JobQueue.new
  jobContexts := []
  queueStarted := false
  primaryWebSocket := none
  primaryWebSocketState := .CLOSED
  webSocketPushHandlers := []
  sentWebSocketRequests := []
  pendingWebSocketRequests := []
  lastIDRequest := 0
  timeout := 30000
  timer := none
  authenticated := false
  useKey := false
  reconnectAttempts := 0
  wire := []
  calls := []

end Client

/-- The timeout the sweep applies to a request: `request.context.timeout` when
it is truthy, `self.timeout` otherwise. -/
def timeoutAfter (selfTimeout : Nat) (request : SentRequest) : Nat :=
  match request.context.timeout with
  | some t => if t ≠ 0 then t else selfTimeout
  | none => selfTimeout

/-- Loop state of `COREcheckTimer`: the array, the calls made so far, the
locals `nextTimeout` and `runAgain`, and for every call made so far the array
as it is at the moment of the call. -/
structure SweepState where
  sent : List SentRequest
  calls : List Call
  nextTimeout : Nat
  runAgain : Bool
  observed : List (Call × List SentRequest)
deriving DecidableEq, Repr

/-- One iteration of the `for` loop of `COREcheckTimer`, at index `a`. -/
def sweepAt (selfTimeout timeNow : Nat) (st : SweepState) (a : Nat) : SweepState :=
  match st.sent[a]? with
  | none => st
  | some request =>
    if request.ts + timeoutAfter selfTimeout request < timeNow then
      { st with
        sent := st.sent.eraseIdx a
        calls := st.calls
          ++ (if request.context.onFailure.isSome then
                [Call.onFailure request.context (some 0) none] else [])
          ++ [Call.complete request.complete]
        observed := st.observed
          ++ ((if request.context.onFailure.isSome then
                [Call.onFailure request.context (some 0) none] else [])
              ++ [Call.complete request.complete]).map fun c => (c, st.sent.eraseIdx a) }
    else if request.ts + timeoutAfter selfTimeout request < st.nextTimeout then
      { st with
        nextTimeout := request.ts + timeoutAfter selfTimeout request
        runAgain := true }
    else st

/-- The `for` loop of `COREcheckTimer`: `a` runs from `length - 1` down to 0. -/
def sweepLoop (selfTimeout timeNow : Nat) (sent : List SentRequest) : SweepState :=
  (List.range sent.length).reverse.foldl (sweepAt selfTimeout timeNow)
    { sent := sent, calls := [], nextTimeout := timeNow + 24 * 60 * 60 * 1000, runAgain := false,
      observed := [] }

/-- `COREcheckTimer(self)` run at time `timeNow = Date.now()`. -/
def COREcheckTimer (self : Client) (timeNow : Nat) : Client :=
  let st := sweepLoop self.timeout timeNow self.sentWebSocketRequests
  { self with
    sentWebSocketRequests := st.sent
    calls := self.calls ++ st.calls
    timer := if st.runAgain = true then some st.nextTimeout else none }

/-- The deadline the specification gives a request: `sentAt + timeout`, the
timeout being the request's own when it has one and the client-wide default
otherwise. -/
def specDeadline (selfTimeout : Nat) (request : SentRequest) : Nat :=
  match request.context.timeout with
  | some t => request.ts + t
  | none => request.ts + selfTimeout

/-- The deadline the sweep works with: a request's own timeout counts only when
it is not zero. -/
def deadline (selfTimeout : Nat) (request : SentRequest) : Nat :=
  request.ts + timeoutAfter selfTimeout request

/-- The calls a sweep makes for one evicted request. -/
def evictionCalls (request : SentRequest) : List Call :=
  (if request.context.onFailure.isSome then
    [Call.onFailure request.context (some 0) none] else [])
  ++ [Call.complete request.complete]

/-- A context with a handler for either outcome and no setting of its own. -/
def plainContext : Context where
  resource := "/API/monitor/getStatus"
  params := 0
  onSuccess := some 1
  onFailure := some 2
  timeout := none
  critical := some false
  useHTTP := false
  self := true

/-- A context without `onFailure`, critical by default. -/
def criticalContext : Context where
  resource := "/API/monitor/getStatus"
  params := 0
  onSuccess := some 1
  onFailure := none
  timeout := none
  critical := some true
  useHTTP := false
  self := true

/-- A pending request sent at time 1000 whose own timeout is 0. -/
def zeroTimeoutRequest : SentRequest where
  id := 1
  context := { plainContext with timeout := some 0 }
  complete := 0
  ts := 1000

/-- An inbound message after `JSON.parse`: the members `onMessage` reads. -/
structure Message where
  /-- `msg.type` (`none` when missing) -/
  type : Option String
  /-- `msg.data` (`none` for `undefined`) -/
  data : Option Payload
  /-- `msg.state` -/
  state : Option String
  /-- `msg.additional`, when it is a string -/
  additional : Option String
  /-- `msg.id` -/
  id : Option Nat
  /-- `msg.code` -/
  code : Option Int
  /-- `msg.topic` -/
  topic : Option String
deriving DecidableEq, Repr

/-- JavaScript `text.indexOf(sub) > -1` on the characters of two strings. -/
def indexOfFound (sub text : List Char) : Bool :=
  match text with
  | [] => sub.isEmpty
  | c :: rest => sub.isPrefixOf (c :: rest) || indexOfFound sub rest

/-- The test `(msg.state === "ERROR") && (typeof msg.additional === "string")
&& (msg.additional.indexOf("Not logged in") > -1)`. -/
def notLoggedInNotice (msg : Message) : Bool :=
  decide (msg.state = some "ERROR") &&
    (match msg.additional with
     | some text => indexOfFound "Not logged in".toList text.toList
     | none => false)

/-- The test `!msg.type || ((msg.type !== "PONG") && (msg.data === undefined))`. -/
def unrecognisedFormat (msg : Message) : Bool :=
  (match msg.type with
   | none => true
   | some t => decide (t = "")) ||
  (decide (msg.type ≠ some "PONG") && msg.data.isNone)

/-- The value `msg.additional || (msg.data ? msg.data.additional : undefined)`. -/
def additionalOf (msg : Message) : Option String :=
  match msg.additional with
  | some text => if text ≠ "" then some text else
      (match msg.data with
       | some d => d.additional
       | none => none)
  | none =>
      match msg.data with
      | some d => d.additional
      | none => none

/-- Position of the entry the `RES` loop stops at: the last entry of the array
whose `id` is `msg.id`. -/
def lastIndexOfId (sent : List SentRequest) (id : Option Nat) : Option Nat :=
  ((List.range sent.length).reverse.find? fun a =>
    match sent[a]? with
    | some r => decide (some r.id = id)
    | none => false)

/-- The `RES` branch of `onMessage`. -/
def onResponse (g : Globals) (self : Client) (msg : Message) : Outcome Client :=
  match lastIndexOfId self.sentWebSocketRequests msg.id with
  | none => { state := self, thrown := none }
  | some a =>
    match self.sentWebSocketRequests[a]? with
    | none => { state := self, thrown := none }
    | some r =>
      if (match msg.code with
          | some c => decide (c < 300)
          | none => false) = true then
        if r.context.onSuccess.isSome then
          { state :=
              { self with
                calls := self.calls ++ [.onSuccess r.context msg.data, .complete r.complete]
                sentWebSocketRequests := self.sentWebSocketRequests.eraseIdx a },
            thrown := none }
        else { state := self, thrown := some .typeError }
      else
        let out := COREgetFailHandler g r.context r.complete
          { status := msg.code, additional := additionalOf msg, statusText := none }
        match out.thrown with
        | some e => { state := { self with calls := self.calls ++ out.state }, thrown := some e }
        | none =>
          { state :=
              { self with
                calls := self.calls ++ out.state
                sentWebSocketRequests := self.sentWebSocketRequests.eraseIdx a },
            thrown := none }

/-- The `PUB` branch of `onMessage`: the handlers registered for the topic are
called from the last registration to the first. -/
def onPublication (self : Client) (msg : Message) : Client :=
  { self with
    calls := self.calls ++
      (self.webSocketPushHandlers.reverse.filter fun h => decide (some h.topic = msg.topic)).map
        fun h => Call.push h.handler msg.data }

/-- The `onMessage` handler of the primary web socket.  `parsed` is the value of
`JSON.parse(message)`, `none` when parsing throws or does not yield an object. -/
def onMessage (g : Globals) (self : Client) (parsed : Option Message) : Outcome Client :=
  match parsed with
  | none =>
    { state :=
        { self with
          calls := self.calls ++ [.emitError "Unable to understand message from server."] },
      thrown := none }
  | some msg =>
    if unrecognisedFormat msg = true ∧ notLoggedInNotice msg = true then
      { state :=
          if self.authenticated = true then { self with calls := self.calls ++ [.log "wut?"] }
          else self,
        thrown := none }
    else
      let self1 : Client :=
        if unrecognisedFormat msg = true then
          { self with
            calls := self.calls ++ [.emitError "Received message in unrecognised format."] }
        else self
      if msg.type = some "RES" then onResponse g self1 msg
      else if msg.type = some "PUB" then { state := onPublication self1 msg, thrown := none }
      else if msg.type = some "PONG" then
        { state := { self1 with calls := self1.calls ++ [.log "PONG message received."] },
          thrown := none }
      else
        { state := { self1 with calls := self1.calls ++ [.log "Message type not recognised:"] },
          thrown := none }

/-- The assignment `if (context.critical === undefined) context.critical =
(context.onFailure ? false : true)` at the head of `request`. -/
def defaultCritical (context : Context) : Context :=
  match context.critical with
  | none => { context with critical := some (if context.onFailure.isSome then false else true) }
  | some _ => context

namespace Client

/-- The call `this.myJobQueue.enqueue(job, context)`. -/
def enqueueJob (self : Client) (kind : JobKind) (context : Option Context) : Client :=
  { self with
    myJobQueue := self.myJobQueue.enqueue kind.token self.jobContexts.length
    jobContexts := self.jobContexts ++ [(kind, context)] }

/-- `COREopenPrimaryWebSocket(self)`: the state becomes `OPENING` and a
connection attempt is enqueued. -/
def COREopenPrimaryWebSocket (self : Client) : Client :=
  ({ self with primaryWebSocketState := .OPENING }).enqueueJob .COREmakeWebSocketConnection none

/-- The part of `request` that routes the context: to the job queue, or to the
list of requests waiting for the socket. -/
def route (self : Client) (context : Context) : Client × Context :=
  if context.useHTTP = true then (self.enqueueJob .COREmakeHttpRequest (some context), context)
  else
    match self.primaryWebSocket with
    | some true =>
      (self.enqueueJob .COREmakeWsRequest (some { context with self := true }),
        { context with self := true })
    | some false =>
      ({ self with pendingWebSocketRequests := self.pendingWebSocketRequests ++ [context] },
        context)
    | none =>
      let self1 : Client :=
        { self with pendingWebSocketRequests := self.pendingWebSocketRequests ++ [context] }
      (if self1.primaryWebSocketState = .CLOSED then self1.COREopenPrimaryWebSocket else self1,
        context)

/-- Result of `request`: the client, the context object as the call leaves it,
and the exception if one was thrown. -/
structure RequestResult where
  client : Client
  context : Context
  thrown : Option JSError

/-- `request(context)`. -/
def request (self : Client) (context : Context) : RequestResult :=
  let routed := self.route (defaultCritical context)
  if routed.1.queueStarted = false then
    let self2 : Client := { routed.1 with queueStarted := true }
    match self2.myJobQueue.setLimit (.num 3) with
    | .error e => { client := self2, context := routed.2, thrown := some e }
    | .ok q1 =>
      match q1.start with
      | .error e =>
        { client := { self2 with myJobQueue := q1 }, context := routed.2, thrown := some e }
      | .ok q2 =>
        { client := { self2 with myJobQueue := q2 }, context := routed.2, thrown := none }
  else { client := routed.1, context := routed.2, thrown := none }

end Client

/-- The error event `onMessage` emits for a message in unrecognised format. -/
def formatCalls (msg : Message) : List Call :=
  if unrecognisedFormat msg = true then
    [.emitError "Received message in unrecognised format."] else []

/-- A pending request with identifier 1 on the critical example context. -/
def criticalRequest : SentRequest where
  id := 1
  context := criticalContext
  complete := 0
  ts := 1000

/-- A `RES` message for request 1 with a `data` member and the given code. -/
def responseWithCode (code : Int) : Message where
  type := some "RES"
  data := some { value := 0, additional := none }
  state := none
  additional := none
  id := some 1
  code := some code
  topic := none

/-! ## LiveDataManager -/

/-- Values of the members of a record. -/
inductive Value where
  | int (n : Int)
  | str (s : String)
deriving DecidableEq, Repr

/-- A JavaScript object used as a record: its own members in key order. -/
abbrev Record := List (String × Value)

namespace Record

/-- Member read `r[key]`; `none` for `undefined`. -/
def get : Record → String → Option Value
  | [], _ => none
  | (k, v) :: rest, key => if k = key then some v else get rest key

/-- Member write `r[key] = v`: an existing member keeps its place, a new one is
added at the end. -/
def set : Record → String → Value → Record
  | [], key, v => [(key, v)]
  | (k, w) :: rest, key, v => if k = key then (key, v) :: rest else (k, w) :: set rest key v

/-- The list `Object.keys(r)`. -/
def keys (r : Record) : List String :=
  r.map Prod.fst

end Record

/-- The statement `Object.keys(row).forEach(inplaceUpdate)`: every member of
`row` is written into `target`. -/
def mergeInto (target row : Record) : Record :=
  row.keys.foldl
    (fun t key =>
      match row.get key with
      | some v => t.set key v
      | none => t)
    target

/-- The inner loop of `LDMinsertWithoutDuplication` together with its `break`:
the last element that passes `p` is replaced by its image under `f`; `none`
when no element passes (`found` stays `false`). -/
def updateLast (p : Record → Bool) (f : Record → Record) : List Record → Option (List Record)
  | [] => none
  | x :: rest =>
    match updateLast p f rest with
    | some rest1 => some (x :: rest1)
    | none => if p x = true then some (f x :: rest) else none

/-- One iteration of the outer loop of `LDMinsertWithoutDuplication`: `row` is
merged into the last element with the same identity, or pushed. -/
def insertRow (idField : String) (insertInto : List Record) (row : Record) : List Record :=
  match updateLast (fun t => decide (t.get idField = row.get idField))
      (fun t => mergeInto t row) insertInto with
  | some merged => merged
  | none => insertInto ++ [row]

/-- The outer loop of `LDMinsertWithoutDuplication`: the rows of `newData` are
taken from the last to the first. -/
def insertRows (idField : String) (insertInto newData : List Record) : List Record :=
  newData.foldr (fun row acc => insertRow idField acc row) insertInto

/-- `MMG2CoreAPI.CRUD_TYPES`. -/
def CRUD_CREATE : Value := .int 1

/-- `MMG2CoreAPI.CRUD_TYPES.UPDATE`. -/
def CRUD_UPDATE : Value := .int 3

/-- `MMG2CoreAPI.CRUD_TYPES.DELETE`. -/
def CRUD_DELETE : Value := .int 4

/-- The function `noop`. -/
def noop : Token := 0

/-- The `options` object of a `LiveDataManager` as the constructor leaves it. -/
structure LDMOptions where
  idField : String
  subscribeTopics : List String
  readAPI : String
  readAPIArrayField : String
  createAPI : Option String
  updateAPI : Option String
  deleteAPI : Option String
  params : Token
  critical : Option Bool
  onUpdate : Option Token
  onSuccess : Option Token
  onFailure : Option Token
deriving DecidableEq, Repr

/-- Events a `LiveDataManager` emits. -/
inductive Notice where
  | beforeUpdate (before after : Record)
  | beforeCreate (target : Record)
  | beforeDelete (target : Record)
  | init (data : Option (List Record))
deriving DecidableEq, Repr

/-- Calls a `LiveDataManager` makes on its client and on the functions of its
options. -/
inductive LDMCall where
  /-- `hrq.registerPushHandler(topic, publicationHandler)` -/
  | register (topic : String)
  /-- `hrq.unregisterPushHandler(topic, publicationHandler)` -/
  | unregister (topic : String)
  /-- `hrq.request` of the bulk read; `rc` is the value of `requestCount` the
  callbacks of the request were built with -/
  | requestEverything (resource : String) (params : Token) (critical : Option Bool) (rc : Nat)
  /-- `self.emit(...)` -/
  | emit (notice : Notice)
  /-- `self.options.onUpdate(self.data, self.changes)` -/
  | onUpdate (data : Option (List Record)) (changes : List Record)
  /-- `self.options.onFailure(arg)` with a text or a status code -/
  | onFailure (text : Option String) (code : Option Int)
  /-- `hrq.request` of `create`, `update` or `delete`: the members `resource`,
  `params`, `critical`, `onSuccess` and `onFailure` of the context -/
  | request (resource : Option String) (params : Token) (critical : Option Bool)
      (onSuccess onFailure : Token)
deriving DecidableEq, Repr

/-- The fields of a `LiveDataManager`. -/
structure LDM where
  /-- `this.changes` -/
  changes : List Record
  /-- `this.options` (`none` once `die()` has set it to `undefined`) -/
  options : Option LDMOptions
  /-- `this.slain` -/
  slain : Bool
  /-- `this.data` (`none` for `undefined`) -/
  data : Option (List Record)
  /-- whether `this.updateTimer` holds a pending timer -/
  updateTimer : Bool
  /-- `this.requestCount` -/
  requestCount : Nat
  /-- calls made and events emitted, oldest first -/
  calls : List LDMCall
deriving DecidableEq, Repr

/-- The message handed to the `onSuccess` callback of the bulk read: `msg.state`,
`msg.data` with, inside it, `msg.data[readAPIArrayField]`, and `msg.additional`. -/
structure BulkResponse where
  state : Option String
  data : Option (Option (List Record))
  additional : Option String
deriving DecidableEq, Repr

/-- `LDMcallUpdate(self)`: a timer of 10 ms is set unless one is pending. -/
def LDMcallUpdate (self : LDM) : LDM :=
  if self.updateTimer = false then { self with updateTimer := true } else self

/-- The callback of the timer set by `LDMcallUpdate`. -/
def LDMupdateTimerFires (self : LDM) : Outcome LDM :=
  if self.slain = true then { state := self, thrown := none }
  else
    match self.options with
    | none => { state := self, thrown := some .typeError }
    | some opts =>
      if opts.onUpdate.isSome then
        { state :=
            { self with
              calls := self.calls ++ [.onUpdate self.data self.changes]
              changes := []
              updateTimer := false },
          thrown := none }
      else { state := self, thrown := some .typeError }

/-- `LDMinsertWithoutDuplication(self, insertInto, newData)` on arrays that may
be `undefined`, with `idField` the value of `self.options.idField`; the second
component is the array `insertInto` after the call. -/
def LDMinsertWithoutDuplication (self : LDM) (idField : String)
    (insertInto newData : Option (List Record)) : Outcome LDM × Option (List Record) :=
  match newData with
  | none => ({ state := self, thrown := some .typeError }, insertInto)
  | some [] => ({ state := LDMcallUpdate self, thrown := none }, insertInto)
  | some (row :: rest) =>
    match insertInto with
    | some target =>
      ({ state := LDMcallUpdate self, thrown := none },
        some (insertRows idField target (row :: rest)))
    | none => ({ state := self, thrown := some .typeError }, insertInto)

/-- The function `getIndex` of `LDMonNewMessage`: the first position of the
cache whose identity is that of `entity`. -/
def getIndex (idField : String) (data : List Record) (entity : Record) : Option Nat :=
  let i := data.findIdx fun row => decide (entity.get idField = row.get idField)
  if i < data.length then some i else none

/-- `LDMonNewMessage(self, entity)`.  `cancels` tells for each notice whether a
listener calls its `preventDefault`. -/
def LDMonNewMessage (self : LDM) (entity : Record) (cancels : Notice → Bool) : Outcome LDM :=
  match self.data, self.options with
  | some data, some opts =>
    if entity.get "crud" = some CRUD_UPDATE ∧
        (getIndex opts.idField data entity).isSome = true then
      let before := (getIndex opts.idField data entity).bind fun i => data[i]?
      let notice := Notice.beforeUpdate (before.getD []) entity
      let self1 : LDM :=
        { self with changes := self.changes ++ [entity], calls := self.calls ++ [.emit notice] }
      if cancels notice = true then { state := self1, thrown := none }
      else
        { state :=
            { LDMcallUpdate self1 with data := some (insertRows opts.idField data [entity]) },
          thrown := none }
    else if entity.get "crud" = some CRUD_UPDATE ∨ entity.get "crud" = some CRUD_CREATE then
      let created := if entity.get "crud" = some CRUD_UPDATE then entity.set "crud" CRUD_CREATE
        else entity
      let notice := Notice.beforeCreate created
      let self1 : LDM :=
        { self with changes := self.changes ++ [created], calls := self.calls ++ [.emit notice] }
      if cancels notice = true then { state := self1, thrown := none }
      else
        { state :=
            { LDMcallUpdate self1 with data := some (insertRows opts.idField data [created]) },
          thrown := none }
    else if entity.get "crud" = some CRUD_DELETE then
      match getIndex opts.idField data entity with
      | none => { state := { self with changes := self.changes ++ [entity] }, thrown := none }
      | some index =>
        let notice := Notice.beforeDelete entity
        let self1 : LDM :=
          { self with changes := self.changes ++ [entity], calls := self.calls ++ [.emit notice] }
        if cancels notice = true then { state := self1, thrown := none }
        else
          { state := { LDMcallUpdate self1 with data := some (data.eraseIdx index) },
            thrown := none }
    else { state := { self with changes := self.changes ++ [entity] }, thrown := none }
  | _, _ =>
    let self0 : LDM := { self with changes := self.changes ++ [entity] }
    if entity.get "crud" = some CRUD_UPDATE ∨ entity.get "crud" = some CRUD_DELETE then
      { state := self0, thrown := some .typeError }
    else if entity.get "crud" = some CRUD_CREATE then
      let notice := Notice.beforeCreate entity
      let self1 : LDM := { self0 with calls := self0.calls ++ [.emit notice] }
      if cancels notice = true then { state := self1, thrown := none }
      else { state := self1, thrown := some .typeError }
    else { state := self0, thrown := none }

/-- `LDMrequestEverything(self)`: the counter is raised and the bulk read is
requested with callbacks that remember the new value. -/
def LDMrequestEverything (self : LDM) : Outcome LDM :=
  match self.options with
  | none => { state := { self with requestCount := self.requestCount + 1 },
              thrown := some .typeError }
  | some opts =>
    { state :=
        { self with
          requestCount := self.requestCount + 1
          calls := self.calls ++
            [.requestEverything opts.readAPI opts.params opts.critical (self.requestCount + 1)] },
      thrown := none }

/-- The `onSuccess` callback of the bulk read built with the counter value
`rc`, called with `msg`. -/
def bulkOnSuccess (self : LDM) (rc : Nat) (msg : BulkResponse) : Outcome LDM :=
  if rc ≠ self.requestCount ∨ self.slain = true then { state := self, thrown := none }
  else if msg.state = some "OK" then
    match msg.data, self.options with
    | some rows, some opts =>
      let merged := LDMinsertWithoutDuplication self opts.idField rows self.data
      match merged.1.thrown with
      | some e => { state := merged.1.state, thrown := some e }
      | none =>
        { state :=
            { merged.1.state with
              data := merged.2
              calls := merged.1.state.calls ++ [.emit (.init merged.2)] },
          thrown := none }
    | _, _ => { state := self, thrown := some .typeError }
  else
    match self.options with
    | none => { state := self, thrown := some .typeError }
    | some opts =>
      if opts.onFailure.isSome then
        { state := { self with calls := self.calls ++ [.onFailure msg.additional none] },
          thrown := none }
      else { state := self, thrown := none }

/-- The `onFailure` callback of the bulk read built with the counter value
`rc`, called with `errCode`. -/
def bulkOnFailure (self : LDM) (rc : Nat) (errCode : Option Int) : Outcome LDM :=
  if rc ≠ self.requestCount ∨ self.slain = true then { state := self, thrown := none }
  else
    match self.options with
    | none => { state := self, thrown := some .typeError }
    | some opts =>
      if opts.onFailure.isSome then
        { state := { self with calls := self.calls ++ [.onFailure none errCode] },
          thrown := none }
      else { state := self, thrown := none }

namespace LDM

/-- The constructor of `LiveDataManager`, for a client and an options object
that has the four required members: defaults are filled in, every topic is
registered, and the bulk read is requested. -/
def construct (options : LDMOptions) : LDM :=
  let opts : LDMOptions :=
    { options with
      onUpdate := some (options.onUpdate.getD noop)
      onSuccess := some (options.onSuccess.getD noop)
      onFailure := some (options.onFailure.getD noop) }
  (LDMrequestEverything
    { changes := []
      options := some opts
      slain := false
      data := some []
      updateTimer := false
      requestCount := 0
      calls := opts.subscribeTopics.map LDMCall.register }).state

/-- `reset(params, newTopics)`: the cache is emptied in place, the topics are
changed when `newTopics` is given, and the bulk read is requested again. -/
def reset (self : LDM) (params : Token) (newTopics : Option (List String)) : Outcome LDM :=
  match self.data, self.options with
  | some _, some opts =>
    let topicCalls : List LDMCall :=
      match newTopics with
      | some topics =>
        ((opts.subscribeTopics.filter fun t => decide (t ∉ topics)).map LDMCall.unregister)
          ++ ((topics.filter fun t => decide (t ∉ opts.subscribeTopics)).map LDMCall.register)
      | none => []
    LDMrequestEverything
      { self with
        data := some []
        calls := self.calls ++ topicCalls
        options := some
          { opts with
            subscribeTopics := newTopics.getD opts.subscribeTopics
            params := params } }
  | _, _ => { state := self, thrown := some .typeError }

end LDM

/-- A streamed message together with the decisions of the listeners on the
notices it leads to. -/
structure Streamed where
  entity : Record
  cancels : Notice → Bool

/-- The cache manager after a sequence of streamed messages. -/
def stream (self : LDM) (messages : List Streamed) : LDM :=
  messages.foldl (fun s m => (LDMonNewMessage s m.entity m.cancels).state) self

/-- Options of the scenario of the specification: identity `locationID`, topic
`SRV/sites`. -/
def sitesOptions : LDMOptions where
  idField := "locationID"
  subscribeTopics := ["SRV/sites"]
  readAPI := "/API/setup/getSites"
  readAPIArrayField := "sites"
  createAPI := none
  updateAPI := none
  deleteAPI := none
  params := 0
  critical := none
  onUpdate := none
  onSuccess := none
  onFailure := none

/-- The streamed creation of the scenario; the tag `crud` is a member of the
record. -/
def scenarioCreation : Record :=
  [("locationID", .int 5), ("name", .str "A"), ("crud", CRUD_CREATE)]

/-- The bulk result of the scenario. -/
def scenarioBulk : List Record :=
  [[("locationID", .int 5), ("name", .str "OLD")], [("locationID", .int 6), ("name", .str "B")]]

/-- The cache the specification gives for the scenario. -/
def scenarioClaimedCache : List Record :=
  [[("locationID", .int 5), ("name", .str "A")], [("locationID", .int 6), ("name", .str "B")]]

/-- State of a manager that is alive, in generation `n`, with options `o` and a
cache whose identities are pairwise distinct. -/
def Streaming (o : LDMOptions) (n : Nat) (s : LDM) : Prop :=
  s.slain = false ∧ s.requestCount = n ∧ s.options = some o ∧
    ∃ d, s.data = some d ∧ (d.map fun r => r.get o.idField).Nodup

/-- Outcome of the bulk read of the current generation completing with state
`OK` and the array `bulk` in state `s`: the call returns, and the cache holds a
record for every identity of `bulk` and for every identity of the cache that
was built from the stream, the latter with every member of the streamed
record. -/
def BulkMerged (idField : String) (s : LDM) (bulk : List Record)
    (additional : Option String) : Prop :=
  ∃ streamed cache : List Record,
    s.data = some streamed ∧
    (bulkOnSuccess s s.requestCount
      { state := some "OK", data := some (some bulk), additional := additional }).thrown
        = none ∧
    (bulkOnSuccess s s.requestCount
      { state := some "OK", data := some (some bulk), additional := additional }).state.data
        = some cache ∧
    (∀ r ∈ bulk, ∃ c ∈ cache, c.get idField = r.get idField) ∧
    (∀ r ∈ streamed, ∃ c ∈ cache, c.get idField = r.get idField ∧
      ∀ k v, r.get k = some v → c.get k = some v)

/-! ## Further definitions for the job queue, the sweep and the cache manager -/

namespace JobQueue

/-- The number 1.5, which is no whole number. -/
def threeHalves : ℚ := ⟨3, 2, by decide, by decide⟩

/-- A call of `setLimit` that keeps the running jobs within the limit: it
throws, or it sets a whole number that is not below `activeJobs`.  Every other
event passes. -/
def limitRespected (s : JobQueue) (op : JQOp) : Bool :=
  match op with
  | .setLimit (.num q) => decide (q < 1) || (decide (q.den = 1) && decide ((s.activeJobs : ℚ) ≤ q))
  | _ => true

/-- Every `setLimit` of a sequence of events keeps the running jobs within the
limit, in the state in which it is called. -/
def limitsRespected : JobQueue → List JQOp → Bool
  | _, [] => true
  | s, op :: rest => limitRespected s op && limitsRespected (s.next op) rest

/-- The event is a call of `enqueue`. -/
def isEnqueue : JQOp → Bool
  | .enqueue _ _ => true
  | _ => false

/-- State of a queue that has not been started: nothing was scheduled, run or
notified. -/
def Unstarted (s : JobQueue) : Prop :=
  s.started = false → s.scheduledLog = [] ∧ s.timers = [] ∧ s.runLog = [] ∧ s.drainCalls = 0 ∧
    s.activeJobs = 0

/-- State of a started queue that holds no job and has notified `n` drains. -/
def Idle (n : Nat) (s : JobQueue) : Prop :=
  s.started = true ∧ s.queue = [] ∧ s.queueLength = 0 ∧ s.activeJobs = 0 ∧ s.runLog = [] ∧
    s.timers = [] ∧ s.drainCalls = n

/-- The limit is a whole number and `activeJobs` is within it. -/
def WithinLimit (s : JobQueue) : Prop :=
  s.concurrentLimit.den = 1 ∧ (s.activeJobs : ℚ) ≤ s.concurrentLimit

end JobQueue

namespace LDM

/-- `die()`: a second call throws; the first one unregisters every topic, marks
the instance as slain and sets `data` and `options` to `undefined`. -/
def die (self : LDM) : Outcome LDM :=
  if self.slain = true then
    { state := self,
      thrown := some (.error
        "LiveDataManager.die(): Called multiple times. I can only get so dead.") }
  else
    match self.options with
    | none => { state := self, thrown := some .typeError }
    | some opts =>
      { state :=
          { self with
            calls := self.calls ++ opts.subscribeTopics.map LDMCall.unregister
            slain := true
            data := none
            options := none },
        thrown := none }

end LDM

/-- A streamed update of the scenario record, for an identity unknown so far. -/
def scenarioUpdate : Record :=
  [("locationID", .int 5), ("name", .str "A"), ("crud", CRUD_UPDATE)]

/-- A pending request sent at time 1000 with a timeout of two days. -/
def twoDayRequest : SentRequest where
  id := 1
  context := { plainContext with timeout := some 172800000 }
  complete := 0
  ts := 1000

/-- A pending request sent at time 1000 with the client-wide timeout. -/
def plainRequest : SentRequest where
  id := 2
  context := plainContext
  complete := 1
  ts := 1000

/-- What can happen to a `LiveDataManager` once it is built: a streamed
message arrives, `reset` or `die` is called, the timer of `LDMcallUpdate`
fires, or a bulk read built with the counter value `rc` completes. -/
inductive LDMEvent where
  | message (entity : Record) (cancels : Notice → Bool)
  | reset (params : Token) (newTopics : Option (List String))
  | die
  | updateTimer
  | bulkSuccess (rc : Nat) (msg : BulkResponse)
  | bulkFailure (rc : Nat) (errCode : Option Int)

namespace LDM

/-- The manager handles one event; the timer fires only when one is pending. -/
def handle (self : LDM) : LDMEvent → Outcome LDM
  | .message entity cancels => LDMonNewMessage self entity cancels
  | .reset params newTopics => self.reset params newTopics
  | .die => self.die
  | .updateTimer =>
    if self.updateTimer = true then LDMupdateTimerFires self
    else { state := self, thrown := none }
  | .bulkSuccess rc msg => bulkOnSuccess self rc msg
  | .bulkFailure rc errCode => bulkOnFailure self rc errCode

/-- The manager after a sequence of events; an event whose handler throws
leaves the state the handler had reached. -/
def after (self : LDM) (events : List LDMEvent) : LDM :=
  events.foldl (fun s e => (s.handle e).state) self

end LDM

/-- A record of the scenario as the bulk read delivers it. -/
def scenarioRow : Record :=
  [("locationID", .int 5), ("name", .str "OLD")]

/-- A streamed deletion of the scenario, for identity 7. -/
def scenarioDeletion : Record :=
  [("locationID", .int 7), ("crud", CRUD_DELETE)]

/-- A cached record of the scenario with identity 6. -/
def scenarioOther : Record :=
  [("locationID", .int 6), ("name", .str "B")]

/-! ## Operations of the cache manager, the registry of push handlers, the opening of the socket -/

/-- What the free identifier `options` in the body of `create` refers to.  The
class declares no such identifier, so it is bound only if the host program
defines a global of that name: to something that is no object, or to an object
whose member `createAPI` is given. -/
inductive FreeOptions where
  | unbound
  | notAnObject
  | object (createAPI : Option String)
deriving DecidableEq, Repr

/-- JavaScript `!value` for a text that may be `undefined`. -/
def falsy : Option String → Bool
  | none => true
  | some text => decide (text = "")

/-- The error `LDMsanityCheck` throws for the function `funcName`. -/
def teardownError (funcName : String) : JSError :=
  .error ("LiveDataManager." ++ funcName ++
    "(): You cannot ask me to do something after my brutal murder. It's just not cricket, old boy.")

/-- `LDMsanityCheck(self, funcName)`: `slain` is the value of `self.slain`
(`none` for `undefined`), and the result is the error thrown, if any. -/
def LDMsanityCheck (slain : Option Bool) (funcName : String) : Option JSError :=
  if slain = some true then some (teardownError funcName) else none

/-- The value `onSuccess || this.options.onSuccess || noop`. -/
def callbackOr (given fromOptions : Option Token) : Token :=
  match given with
  | some f => f
  | none => fromOptions.getD noop

namespace LDM

/-- The call of `this.hrq.request` shared by `create`, `update` and `delete`. -/
def submit (self : LDM) (opts : LDMOptions) (resource : Option String) (newData : Token)
    (onSuccess onFailure : Option Token) : LDM :=
  { self with
    calls := self.calls ++
      [.request resource newData opts.critical (callbackOr onSuccess opts.onSuccess)
        (callbackOr onFailure opts.onFailure)] }

/-- `create(newData, onSuccess, onFailure)`.  The endpoint is tested on the
free identifier `options`, not on `this.options`. -/
def create (self : LDM) (scope : FreeOptions) (newData : Token)
    (onSuccess onFailure : Option Token) : Outcome LDM :=
  match scope with
  | .unbound => { state := self, thrown := some (.referenceError "options") }
  | .notAnObject => { state := self, thrown := some .typeError }
  | .object createAPI =>
    if falsy createAPI = true then
      { state := self,
        thrown := some (.error
          "LiveDataManager.createAPI(): You have not defined a create API.") }
    else
      match LDMsanityCheck (some self.slain) "create" with
      | some e => { state := self, thrown := some e }
      | none =>
        match self.options with
        | none => { state := self, thrown := some .typeError }
        | some opts =>
          { state := self.submit opts opts.createAPI newData onSuccess onFailure,
            thrown := none }

/-- `update(newData, onSuccess, onFailure)`.  The check is called as
`LDMsanityCheck.bind(this)("update")`: `LDMsanityCheck` is an arrow function,
so its parameter `self` is the text `"update"`, whose member `slain` is
`undefined`, and `funcName` is `undefined`. -/
def update (self : LDM) (newData : Token) (onSuccess onFailure : Option Token) :
    Outcome LDM :=
  match self.options with
  | none => { state := self, thrown := some .typeError }
  | some opts =>
    if falsy opts.updateAPI = true then
      { state := self,
        thrown := some (.error
          "LiveDataManager.update(): You have not defined an update API.") }
    else
      match LDMsanityCheck none "undefined" with
      | some e => { state := self, thrown := some e }
      | none =>
        { state := self.submit opts opts.updateAPI newData onSuccess onFailure,
          thrown := none }

/-- `delete(newData, onSuccess, onFailure)`, with the check called as in
`update`. -/
def delete (self : LDM) (newData : Token) (onSuccess onFailure : Option Token) :
    Outcome LDM :=
  match self.options with
  | none => { state := self, thrown := some .typeError }
  | some opts =>
    if falsy opts.deleteAPI = true then
      { state := self,
        thrown := some (.error
          "LiveDataManager.delete(): You have not defined a delete API.") }
    else
      match LDMsanityCheck none "undefined" with
      | some e => { state := self, thrown := some e }
      | none =>
        { state := self.submit opts opts.deleteAPI newData onSuccess onFailure,
          thrown := none }

end LDM

/-- An event that brings no duplicate identity from outside: when it is the
successful completion of a bulk read, the identities of the array delivered
are pairwise distinct. -/
def LDMEvent.distinctIds (idField : String) : LDMEvent → Prop
  | .bulkSuccess _ msg =>
    ∀ bulk, msg.data = some (some bulk) → (bulk.map fun r => r.get idField).Nodup
  | _ => True

/-- The identities of the cache, when there is one, are pairwise distinct, and
the options, when there are any, name `idField` as the identity. -/
def DistinctIds (idField : String) (s : LDM) : Prop :=
  (∀ o, s.options = some o → o.idField = idField) ∧
    ∀ d, s.data = some d → (d.map fun r => r.get idField).Nodup

/-- The first argument of `registerPushHandler` and `unregisterPushHandler`: a
topic or an array of topics. -/
inductive Topics where
  | one (topic : String)
  | many (topics : List String)
deriving DecidableEq, Repr

/-- The function `removeHandler` of `unregisterPushHandler` on the registry:
the value it returns (`keep`: the topic has an entry with another handler) and
the registry it leaves. -/
def removeHandler (handlers : List PushHandler) (handler : Token) (topic : String) :
    Bool × List PushHandler :=
  (handlers.any fun e => decide (e.topic = topic) && !decide (e.handler = handler),
    handlers.filter fun e => !(decide (e.topic = topic) && decide (e.handler = handler)))

/-- The statement `topics.forEach((myTopic, idx) => ...)` of
`unregisterPushHandler`: `forEach` visits the positions `k`, `k + 1`, ... below
the length the array had at the start, and skips a position the array no
longer has; the callback removes position `idx` from the array when
`removeHandler` returns `true`. -/
def unregisterEach (handler : Token) :
    Nat → Nat → List String → List PushHandler → List String × List PushHandler
  | 0, _, topics, handlers => (topics, handlers)
  | fuel + 1, k, topics, handlers =>
    match topics[k]? with
    | none => unregisterEach handler fuel (k + 1) topics handlers
    | some myTopic =>
      if (removeHandler handlers handler myTopic).1 = true then
        unregisterEach handler fuel (k + 1) (topics.eraseIdx k)
          (removeHandler handlers handler myTopic).2
      else
        unregisterEach handler fuel (k + 1) topics (removeHandler handlers handler myTopic).2

namespace Client

/-- `registerPushHandler(topic, handler)`.  `globalA` is the value of the
global variable `a`, which the class does not declare: it exists once
`getIndex` of `LDMonNewMessage`, a function outside the class bodies, has
assigned to it.  The identifier `thisTopic` is bound nowhere.  For an array
the first test of the loop, at `b = topic.length`, is
`this.webSocketPushHandlers[a].handler === handler`. -/
def registerPushHandler (self : Client) (globalA : Option Nat) (topic : Topics)
    (handler : Token) : Outcome Client :=
  match topic with
  | .many _ =>
    match globalA with
    | none => { state := self, thrown := some (.referenceError "a") }
    | some a =>
      match self.webSocketPushHandlers[a]? with
      | none => { state := self, thrown := some .typeError }
      | some entry =>
        if entry.handler = handler then { state := self, thrown := some .typeError }
        else { state := self, thrown := some (.referenceError "thisTopic") }
  | .one thisTopic =>
    if (self.webSocketPushHandlers.any fun e =>
        decide (e.handler = handler) && decide (thisTopic = e.topic)) = true then
      { state :=
          { self with
            calls := self.calls ++
              [.log "Dupliacate topic/handler combination ignored. Topic: "] },
        thrown := none }
    else
      let self1 : Client :=
        { self with
          calls := self.calls ++ [.log ("Subscribing to " ++ thisTopic)]
          webSocketPushHandlers :=
            self.webSocketPushHandlers ++ [{ topic := thisTopic, handler := handler }] }
      if self1.authenticated = true ∨ self1.useKey = true then
        if self1.primaryWebSocket = some true then
          { state := { self1 with wire := self1.wire ++ [.sub thisTopic] }, thrown := none }
        else if self1.primaryWebSocketState = .CLOSED then
          { state := self1.COREopenPrimaryWebSocket, thrown := none }
        else { state := self1, thrown := none }
      else { state := self1, thrown := none }

/-- The end of `unregisterPushHandler`: the `UNSUB` message for `topics` is
sent when there is a socket and the state is `OPEN`. -/
def sendUnsub (self : Client) (topics : List String) : Client :=
  if self.primaryWebSocket.isSome = true ∧ self.primaryWebSocketState = .OPEN then
    { self with
      calls := self.calls ++ topics.map fun t => Call.log ("Unsubscribing from " ++ t)
      wire := self.wire ++ [.unsub topics] }
  else self

/-- `unregisterPushHandler(topics, handler)`; the message for a single topic
is written as the message for the array of that topic. -/
def unregisterPushHandler (self : Client) (topics : Topics) (handler : Token) : Client :=
  match topics with
  | .one topic =>
    if (removeHandler self.webSocketPushHandlers handler topic).1 = true then
      { self with
        webSocketPushHandlers := (removeHandler self.webSocketPushHandlers handler topic).2 }
    else
      sendUnsub
        { self with
          webSocketPushHandlers := (removeHandler self.webSocketPushHandlers handler topic).2 }
        [topic]
  | .many list =>
    if list = [] then self
    else
      sendUnsub
        { self with
          webSocketPushHandlers :=
            (unregisterEach handler list.length 0 list self.webSocketPushHandlers).2 }
        (unregisterEach handler list.length 0 list self.webSocketPushHandlers).1

/-- The statement `self.pendingWebSocketRequests.forEach((request) =>
self.request(request))` of `onOpen`, on the elements the array has when the
statement starts; a call that throws ends it. -/
def flush (self : Client) : List Context → Outcome Client
  | [] => { state := self, thrown := none }
  | context :: rest =>
    match (self.request context).thrown with
    | some e => { state := (self.request context).client, thrown := some e }
    | none => flush (self.request context).client rest

/-- The handler `onOpen(null, socket)` of a connection attempt that succeeded;
`readyStateOpen` tells whether `readyState` of the socket is `OPEN`. -/
def onOpen (self : Client) (readyStateOpen : Bool) : Outcome Client :=
  let self1 : Client :=
    { self with
      calls := self.calls ++ [.emitEvent "connectionRestore"]
        ++ self.webSocketPushHandlers.map fun h => Call.log ("Subscribing to " ++ h.topic)
      primaryWebSocket := some readyStateOpen
      primaryWebSocketState := .OPEN
      reconnectAttempts := 0
      wire := self.wire ++ self.webSocketPushHandlers.map fun h => WireMsg.sub h.topic }
  match (self1.flush self1.pendingWebSocketRequests).thrown with
  | some e => { state := (self1.flush self1.pendingWebSocketRequests).state, thrown := some e }
  | none =>
    { state :=
        { (self1.flush self1.pendingWebSocketRequests).state with
          pendingWebSocketRequests := [] },
      thrown := none }

/-- The calls `request(context)` for a list of contexts, one after the other. -/
def requestAll (self : Client) (contexts : List Context) : Client :=
  contexts.foldl (fun c context => (c.request context).client) self

end Client

/-- A call of `registerPushHandler` or `unregisterPushHandler`. -/
inductive RegistryOp where
  | register (globalA : Option Nat) (topic : Topics) (handler : Token)
  | unregister (topics : Topics) (handler : Token)
deriving DecidableEq, Repr

namespace Client

/-- The client after a call on the registry; a call that throws leaves the
state it had reached. -/
def registry (self : Client) : RegistryOp → Client
  | .register globalA topic handler => (self.registerPushHandler globalA topic handler).state
  | .unregister topics handler => self.unregisterPushHandler topics handler

/-- The client after a sequence of calls on the registry. -/
def registryRun (self : Client) (ops : List RegistryOp) : Client :=
  ops.foldl registry self

end Client

/-- A registry in which topic `A` has the handlers 1 and 2 and topic `B` the
handler 1. -/
def sharedRegistry : List PushHandler :=
  [{ topic := "A", handler := 1 }, { topic := "A", handler := 2 },
    { topic := "B", handler := 1 }]

/-- A client with the registry `sharedRegistry` whose socket is open. -/
def sharedClient : Client :=
  { Client.new with
    webSocketPushHandlers := sharedRegistry
    primaryWebSocket := some true
    primaryWebSocketState := .OPEN
    authenticated := true }

/-- A `RES` message for request 1 with code 200 and no `data` member. -/
def responseWithoutData : Message where
  type := some "RES"
  data := none
  state := none
  additional := none
  id := some 1
  code := some 200
  topic := none

/-- A `PUB` message for topic `A` with no `data` member. -/
def publicationWithoutData : Message where
  type := some "PUB"
  data := none
  state := none
  additional := none
  id := none
  code := none
  topic := some "A"

/-- The server's notice `Not logged in`: no `type`, state `ERROR`. -/
def notLoggedIn : Message where
  type := none
  data := none
  state := some "ERROR"
  additional := some "Not logged in"
  id := none
  code := none
  topic := none

/-- A bulk result in which two records have identity 5. -/
def duplicateBulk : List Record :=
  [[("locationID", .int 5), ("name", .str "OLD")], [("locationID", .int 5), ("name", .str "B")]]

/-- Options of the collection of locations (`DATA_SETS.LOCATIONS`), with every
endpoint. -/
def locationsOptions : LDMOptions where
  idField := "locationID"
  subscribeTopics := ["SRV/locations/1"]
  readAPI := "/API/setup/getLocations"
  readAPIArrayField := "locations"
  createAPI := some "/API/setup/createLocation"
  updateAPI := some "/API/setup/updateLocation"
  deleteAPI := some "/API/setup/deleteLocation"
  params := 0
  critical := none
  onUpdate := none
  onSuccess := none
  onFailure := none

/-! ## The close of the socket, the probing loop, and a queue with a fixed limit -/

/-- Rounding of a rational number to the nearest whole number, a tie going to
the even one. -/
def roundHalfEven (q : ℚ) : ℤ :=
  if q - ⌊q⌋ < 1 / 2 then ⌊q⌋
  else if 1 / 2 < q - ⌊q⌋ then ⌊q⌋ + 1
  else if ⌊q⌋ % 2 = 0 then ⌊q⌋
  else ⌊q⌋ + 1

/-- Exponent `e` of the binary64 numbers around a positive number `x`: the
one with `2 ^ e ≤ x < 2 ^ (e + 1)`, and -1022 for the subnormal range. -/
def binade (x : ℚ) : ℤ := max (Int.log 2 x) (-1022)

/-- The value a JavaScript number takes for the exact result `x` of an
arithmetic operation: the binary64 number (IEEE double) nearest to `x`, a
multiple of `2 ^ (e - 52)` for the exponent `e` of `x`, ties going to the even
multiple.  Results beyond the largest double, which become `Infinity`, are not
modelled. -/
def toDouble (x : ℚ) : ℚ :=
  if x < 0 then
    -((roundHalfEven (-x / 2 ^ (binade (-x) - 52)) : ℚ) * 2 ^ (binade (-x) - 52))
  else (roundHalfEven (x / 2 ^ (binade x - 52)) : ℚ) * 2 ^ (binade x - 52)

/-- The delay `Math.min(1000 * self.reconnectAttempts, 10000) + (Math.random() *
2000)` handed to `setTimeout` by `pingCycle`, in milliseconds; `random` is the
value of `Math.random()`.  Each product and the sum are numbers of
JavaScript, that is, doubles. -/
def probeDelay (reconnectAttempts : Nat) (random : ℚ) : ℚ :=
  toDouble (min (toDouble (1000 * (reconnectAttempts : ℚ))) 10000 + toDouble (random * 2000))

namespace Client

/-- The handler of the event `close` that `onOpen` registers on the socket. -/
def onClose (self : Client) : Client :=
  if self.primaryWebSocketState = .CLOSING then
    { self with primaryWebSocket := none, primaryWebSocketState := .CLOSED }
  else
    ({ self with primaryWebSocket := none, primaryWebSocketState := .RECONN }).enqueueJob
      .COREmakeWebSocketConnection none

/-- The function `pingCycle` of `onOpen` up to its call of `setTimeout`: the
client it leaves and the delay of the timer. -/
def pingCycle (self : Client) (random : ℚ) : Client × ℚ :=
  ({ self with reconnectAttempts := self.reconnectAttempts + 1 },
    probeDelay (self.reconnectAttempts + 1) random)

/-- The handler `onOpen(err)` of a connection attempt that failed: the error
is written to the console, the state becomes `RECONN` and `pingCycle` is
called. -/
def onOpenError (self : Client) (random : ℚ) : Client × ℚ :=
  pingCycle
    { self with
      calls := self.calls ++ [.log "The websocket connection encountered an error."]
      primaryWebSocketState := .RECONN }
    random

end Client

namespace JobQueue

/-- The event is neither a call of `setLimit` nor a call of an abort
function. -/
def keepsLimit : JQOp → Bool
  | .setLimit _ => false
  | .abort _ => false
  | _ => true

end JobQueue

/-! ## JobQueue: invariants and claims C1, C9, C10 -/

namespace JobQueue

/-- Fields the scheduling loop never assigns. -/
theorem beginLoop_frame (fuel : Nat) (s : JobQueue) :
    (beginLoop fuel s).queue = s.queue ∧ (beginLoop fuel s).queueLength = s.queueLength ∧
    (beginLoop fuel s).jobs = s.jobs ∧ (beginLoop fuel s).runLog = s.runLog ∧
    (beginLoop fuel s).concurrentLimit = s.concurrentLimit ∧
    (beginLoop fuel s).started = s.started ∧ (beginLoop fuel s).aborted = s.aborted ∧
    (beginLoop fuel s).enqueued = s.enqueued ∧ (beginLoop fuel s).completed = s.completed ∧
    (beginLoop fuel s).onCompleteQueue = s.onCompleteQueue ∧
    (beginLoop fuel s).onAbortQueue = s.onAbortQueue ∧
    (beginLoop fuel s).drainCalls = s.drainCalls ∧ (beginLoop fuel s).abortCalls = s.abortCalls := by
  induction fuel generalizing s with
  | zero => simp [beginLoop]
  | succ k ih =>
    unfold beginLoop
    split
    · have h := ih { s with
          timers := s.timers ++ [arrayGet s.queue s.activeJobs]
          scheduledLog := s.scheduledLog ++ [arrayGet s.queue s.activeJobs]
          activeJobs := s.activeJobs + 1 }
      simpa using h
    · simp

/-- The scheduling loop is left through its condition, not for lack of fuel:
when the fuel covers `queueLength - activeJobs`, the condition is false in the
state the loop returns. -/
theorem beginLoop_exits (fuel : Nat) (s : JobQueue)
    (hfuel : s.queueLength - s.activeJobs ≤ fuel) :
    ¬ ((beginLoop fuel s).started = true ∧ (beginLoop fuel s).aborted = false ∧
      ((beginLoop fuel s).activeJobs : ℚ) < (beginLoop fuel s).concurrentLimit ∧
      (beginLoop fuel s).activeJobs < (beginLoop fuel s).queueLength) := by
  induction fuel generalizing s with
  | zero =>
    simp only [beginLoop]
    intro h
    have := h.2.2.2
    simp only [Nat.cast_zero] at hfuel
    omega
  | succ k ih =>
    unfold beginLoop
    split
    · apply ih
      show s.queueLength - (s.activeJobs + 1) ≤ (k : Int)
      push_cast at hfuel
      omega
    · assumption

theorem JQ_beginJob_exits (s : JobQueue) :
    ¬ ((JQ_beginJob s).started = true ∧ (JQ_beginJob s).aborted = false ∧
      ((JQ_beginJob s).activeJobs : ℚ) < (JQ_beginJob s).concurrentLimit ∧
      (JQ_beginJob s).activeJobs < (JQ_beginJob s).queueLength) :=
  beginLoop_exits _ s (Int.self_le_toNat _)

/-- A property of the state survives an event as soon as it survives the
event's successful outcome. -/
theorem next_of_step (P : JobQueue → Prop) (s : JobQueue) (op : JQOp) (hs : P s)
    (h : ∀ s1, s.step op = .ok s1 → P s1) : P (s.next op) := by
  unfold next
  split
  · rename_i s1 heq
    exact h s1 heq
  · exact hs

/-- A property kept by every event is kept by every sequence of events. -/
theorem run_of_next (P : JobQueue → Prop) (Q : JQOp → Prop)
    (h : ∀ s op, Q op → P s → P (s.next op)) (ops : List JQOp) (s : JobQueue)
    (hops : ∀ op ∈ ops, Q op) (hs : P s) : P (s.run ops) := by
  induction ops generalizing s with
  | nil => exact hs
  | cons op rest ih =>
    simp only [run, List.foldl_cons]
    exact ih (s.next op) (fun o ho => hops o (List.mem_cons_of_mem _ ho))
      (h s op (hops op (List.mem_cons_self _ _)) hs)

theorem beginLoop_bounded (L : ℕ) (fuel : Nat) (s : JobQueue) (h : Bounded L s) :
    Bounded L (beginLoop fuel s) := by
  induction fuel generalizing s with
  | zero => simpa [beginLoop] using h
  | succ k ih =>
    unfold beginLoop
    split
    · rename_i hc
      apply ih
      obtain ⟨h1, h2⟩ := h
      refine ⟨?_, h2⟩
      show s.activeJobs + 1 ≤ (L : Int)
      have hlt : (s.activeJobs : ℚ) < s.concurrentLimit := hc.2.2.1
      rcases h2 with h0 | hL
      · rw [h0] at hlt
        have : s.activeJobs < 0 := by exact_mod_cast hlt
        omega
      · rw [hL] at hlt
        have : s.activeJobs < (L : Int) := by exact_mod_cast hlt
        omega
    · exact h

theorem step_bounded (L : ℕ) (s s1 : JobQueue) (op : JQOp)
    (hop : ∀ v, op = JQOp.setLimit v → v = JSNumber.num L) (h : Bounded L s)
    (hstep : s.step op = .ok s1) : Bounded L s1 := by
  cases op with
  | enqueue job context =>
    simp only [step, Except.ok.injEq] at hstep
    subst hstep
    unfold enqueue
    split
    · exact beginLoop_bounded L _ _ h
    · exact h
  | setLimit v =>
    have hv := hop v rfl
    subst hv
    simp only [step, setLimit] at hstep
    split at hstep
    · cases hstep
    · simp only [Except.ok.injEq] at hstep
      subst hstep
      exact ⟨h.1, Or.inr rfl⟩
  | start =>
    simp only [step, start] at hstep
    split at hstep
    · cases hstep
    · split at hstep
      · simp only [Except.ok.injEq] at hstep
        subst hstep
        exact beginLoop_bounded L _ _ h
      · split at hstep <;>
        · simp only [Except.ok.injEq] at hstep
          subst hstep
          exact h
  | onAbort v =>
    simp only [step, Except.ok.injEq] at hstep
    subst hstep
    exact h
  | onComplete v =>
    simp only [step, Except.ok.injEq] at hstep
    subst hstep
    exact h
  | tick =>
    simp only [step, tick] at hstep
    split at hstep
    · cases hstep
    · cases hstep
    · simp only [Except.ok.injEq] at hstep
      subst hstep
      exact h
  | complete j =>
    simp only [step] at hstep
    split at hstep
    · simp only [complete] at hstep
      split at hstep
      · cases hstep
      · rename_i job hjob
        have hb : Bounded L (s.finished j job) :=
          ⟨by show s.activeJobs - 1 ≤ (L : Int); have := h.1; omega, h.2⟩
        split at hstep
        · cases hstep
        · split at hstep
          · split at hstep <;>
            · simp only [Except.ok.injEq] at hstep
              subst hstep
              exact hb
          · simp only [Except.ok.injEq] at hstep
            subst hstep
            exact beginLoop_bounded L _ _ hb
    · cases hstep
  | abort about =>
    simp only [step, abort] at hstep
    split at hstep
    · cases hstep
    · simp only [Except.ok.injEq] at hstep
      subst hstep
      split
      · split <;> exact h
      · exact h

theorem run_bounded (L : ℕ) (ops : List JQOp) (s : JobQueue)
    (hops : ∀ v, JQOp.setLimit v ∈ ops → v = JSNumber.num L) (h : Bounded L s) :
    Bounded L (s.run ops) := by
  refine run_of_next (Bounded L) (fun op => ∀ v, op = JQOp.setLimit v → v = JSNumber.num L)
    ?_ ops s ?_ h
  · intro s op hq hs
    exact next_of_step _ s op hs (fun s1 h1 => step_bounded L s s1 op hq hs h1)
  · intro op hop v hv
    subst hv
    exact hops v hop

theorem inv_new : Inv new := by
  refine ⟨rfl, rfl, rfl, Nat.le_refl _, ?_, [], rfl, rfl, List.nodup_nil, ?_, ?_⟩
  · intro j h
    simp [flag, new] at h
  · intro j h
    simp at h
  · intro j h
    simp [new] at h

theorem beginLoop_inv (fuel : Nat) (s : JobQueue) (h : Inv s) : Inv (beginLoop fuel s) := by
  induction fuel generalizing s with
  | zero => simpa [beginLoop] using h
  | succ k ih =>
    unfold beginLoop
    split
    · rename_i hc
      apply ih
      obtain ⟨hlen, hsched, hfifo, hle, hdone, act, hq, ha, hnd, hlt, hact⟩ := h
      have hcl : s.activeJobs < s.queueLength := hc.2.2.2
      have hm : 0 < s.jobs.length - s.scheduledLog.length := by
        have hl := congrArg List.length hq
        simp only [List.length_append, List.length_range'] at hl
        omega
      obtain ⟨m, hmeq⟩ : ∃ m, s.jobs.length - s.scheduledLog.length = m + 1 :=
        ⟨s.jobs.length - s.scheduledLog.length - 1, by omega⟩
      have hget : arrayGet s.queue s.activeJobs = some s.scheduledLog.length := by
        unfold arrayGet
        rw [if_pos (by omega), ha, hq, hmeq, List.range'_succ]
        simp only [Int.toNat_ofNat]
        rw [List.getElem?_append_right (Nat.le_refl _)]
        simp
      have hq2 : s.queue = (act ++ [s.scheduledLog.length]) ++
          List.range' (s.scheduledLog.length + 1) m := by
        rw [hq, hmeq, List.range'_succ]
        simp
      refine ⟨hlen, ?_, ?_, ?_, hdone, act ++ [s.scheduledLog.length], ?_, ?_, ?_, ?_, ?_⟩
      · show s.scheduledLog ++ [arrayGet s.queue s.activeJobs] = _
        rw [hget]
        simp only [List.length_append, List.length_singleton, List.range_succ, List.map_append,
          List.map_cons, List.map_nil]
        rw [← hsched]
      · show s.scheduledLog ++ [arrayGet s.queue s.activeJobs] = _
        rw [hfifo]
        simp
      · show (s.scheduledLog ++ [arrayGet s.queue s.activeJobs]).length ≤ s.jobs.length
        simp only [List.length_append, List.length_singleton]
        omega
      · show s.queue = _ ++ List.range' (s.scheduledLog ++ [arrayGet s.queue s.activeJobs]).length
          (s.jobs.length - (s.scheduledLog ++ [arrayGet s.queue s.activeJobs]).length)
        simp only [List.length_append, List.length_singleton]
        have : s.jobs.length - (s.scheduledLog.length + 1) = m := by omega
        rw [this]
        exact hq2
      · show s.activeJobs + 1 = _
        simp only [List.length_append, List.length_singleton]
        omega
      · rw [List.nodup_append]
        refine ⟨hnd, List.nodup_singleton _, ?_⟩
        intro a ha1 ha2
        have := hlt a ha1
        simp only [List.mem_singleton] at ha2
        omega
      · intro j hj
        show j < (s.scheduledLog ++ [arrayGet s.queue s.activeJobs]).length
        simp only [List.length_append, List.length_singleton]
        rcases List.mem_append.1 hj with h1 | h1
        · have := hlt j h1
          omega
        · simp only [List.mem_singleton] at h1
          omega
      · intro j hj hf
        have hj2 : j < s.scheduledLog.length + 1 := by
          simpa only [List.length_append, List.length_singleton] using hj
        rcases Nat.lt_succ_iff_lt_or_eq.1 hj2 with h1 | h1
        · exact List.mem_append_left _ (hact j h1 hf)
        · simp [h1]
    · exact h

theorem pushed_inv (s : JobQueue) (job context : Token) (h : Inv s) :
    Inv (s.pushed job context) := by
  obtain ⟨hlen, hsched, hfifo, hle, hdone, act, hq, ha, hnd, hlt, hact⟩ := h
  have hflag : ∀ j : Nat, j < s.jobs.length → (s.pushed job context).flag j = s.flag j := by
    intro j hj
    simp only [flag, pushed]
    rw [List.getElem?_append_left hj]
  have hflagNew : (s.pushed job context).flag s.jobs.length = some false := by
    simp [flag, pushed]
  have hflagOut : ∀ j : Nat, s.jobs.length < j → (s.pushed job context).flag j = none := by
    intro j hj
    simp only [flag, pushed, Option.map_eq_none']
    rw [List.getElem?_eq_none]
    simp only [List.length_append, List.length_singleton]
    omega
  refine ⟨?_, hsched, hfifo, ?_, ?_, act, ?_, ha, hnd, hlt, ?_⟩
  · show s.queueLength + 1 = ((s.queue ++ [s.jobs.length]).length : Int)
    simp only [List.length_append, List.length_singleton]
    omega
  · show s.scheduledLog.length ≤ (s.pushed job context).jobs.length
    simp only [pushed, List.length_append, List.length_singleton]
    omega
  · intro j hj
    rcases Nat.lt_trichotomy j s.jobs.length with h1 | h1 | h1
    · rw [hflag j h1] at hj
      exact hdone j hj
    · rw [h1, hflagNew] at hj
      cases hj
    · rw [hflagOut j h1] at hj
      cases hj
  · show s.queue ++ [s.jobs.length] = act ++ List.range' s.scheduledLog.length
      ((s.pushed job context).jobs.length - s.scheduledLog.length)
    simp only [pushed, List.length_append, List.length_singleton]
    have e : s.jobs.length + 1 - s.scheduledLog.length =
        (s.jobs.length - s.scheduledLog.length) + 1 := by omega
    rw [e, List.range'_concat, hq]
    simp only [List.append_assoc, Nat.one_mul]
    congr 3
    omega
  · intro j hj hf
    have hj2 : j < s.scheduledLog.length := hj
    rw [hflag j (by omega)] at hf
    exact hact j hj2 hf

theorem complete_eq (s : JobQueue) (j : JobRef) (job : Job) (hjob : s.jobs[j]? = some job)
    (hc : job.completed = false) :
    s.complete j =
      if (s.finished j job).queueLength = 0 ∧ (s.finished j job).activeJobs = 0 then
        if (s.finished j job).onCompleteQueue.isSome then
          .ok { s.finished j job with drainCalls := (s.finished j job).drainCalls + 1 }
        else .ok (s.finished j job)
      else .ok (JQ_beginJob (s.finished j job)) := by
  unfold complete
  rw [hjob]
  simp only [hc, Bool.false_eq_true, if_false]

/-- Removing a present element with `indexOf` and `splice` erases it. -/
theorem spliceOne_indexOf (l : List Nat) (j : Nat) (h : j ∈ l) :
    spliceOne l (arrayIndexOf l j) = l.erase j := by
  unfold spliceOne arrayIndexOf
  rw [if_pos h, if_neg (by omega)]
  simp

/-- A job that has run was scheduled. -/
theorem Inv.lt_of_mem_runLog {s : JobQueue} (h : Inv s) {j : Nat} (hj : j ∈ s.runLog) :
    j < s.scheduledLog.length := by
  have h1 : some j ∈ s.scheduledLog := by
    rw [h.fifo]
    exact List.mem_append_left _ (List.mem_map_of_mem _ hj)
  rw [h.sched] at h1
  simp only [List.mem_map, List.mem_range, Option.some.injEq, exists_eq_right] at h1
  exact h1

theorem finished_props (s : JobQueue) (j : Nat) (job : Job) (h : Inv s) (hj : j ∈ s.runLog)
    (hjob : s.jobs[j]? = some job) (hc : job.completed = false) :
    Inv (s.finished j job) ∧ j ∈ s.queue ∧ (s.finished j job).queue = s.queue.erase j ∧
      j ∉ (s.finished j job).queue := by
  have hjn := h.lt_of_mem_runLog hj
  obtain ⟨hlen, hsched, hfifo, hle, hdone, act, hq, ha, hnd, hlt, hact⟩ := h
  have hjl : j < s.jobs.length := by omega
  have hfj : s.flag j = some false := by simp only [flag, hjob, Option.map_some', hc]
  have hjact : j ∈ act := hact j hjn hfj
  have hjq : j ∈ s.queue := by rw [hq]; exact List.mem_append_left _ hjact
  have hqe : (s.finished j job).queue = s.queue.erase j := spliceOne_indexOf _ _ hjq
  have hqe2 : s.queue.erase j = act.erase j ++
      List.range' s.scheduledLog.length (s.jobs.length - s.scheduledLog.length) := by
    rw [hq, List.erase_append_left _ hjact]
  have hflag : ∀ k : Nat, k ≠ j → (s.finished j job).flag k = s.flag k := by
    intro k hk
    simp only [flag, finished]
    rw [List.getElem?_set_ne (Ne.symm hk)]
  have hflagj : (s.finished j job).flag j = some true := by
    simp only [flag, finished]
    rw [List.getElem?_set_self hjl]
    rfl
  have hqnd : s.queue.Nodup := by
    rw [hq, List.nodup_append]
    refine ⟨hnd, List.nodup_range' _ _, ?_⟩
    intro a ha1 ha2
    have := hlt a ha1
    simp only [List.mem_range'_1] at ha2
    omega
  have hal : 0 < act.length := List.length_pos_of_mem hjact
  refine ⟨⟨?_, hsched, hfifo, ?_, ?_, act.erase j, ?_, ?_, hnd.erase j, ?_, ?_⟩, hjq, hqe, ?_⟩
  · show s.queueLength - 1 = (((s.finished j job).queue).length : Int)
    rw [hqe, List.length_erase_of_mem hjq]
    have := List.length_pos_of_mem hjq
    omega
  · show s.scheduledLog.length ≤ (s.finished j job).jobs.length
    simpa [finished] using hle
  · intro k hk
    by_cases hkj : k = j
    · rw [hkj]; exact hj
    · rw [hflag k hkj] at hk
      exact hdone k hk
  · show (s.finished j job).queue = act.erase j ++
      List.range' s.scheduledLog.length ((s.finished j job).jobs.length - s.scheduledLog.length)
    rw [hqe, hqe2]
    simp [finished]
  · show s.activeJobs - 1 = ((act.erase j).length : Int)
    rw [List.length_erase_of_mem hjact]
    omega
  · intro k hk
    exact hlt k (List.mem_of_mem_erase hk)
  · intro k hk hf
    have hkj : k ≠ j := by
      intro e
      rw [e, hflagj] at hf
      cases hf
    rw [hflag k hkj] at hf
    exact (List.mem_erase_of_ne hkj).2 (hact k hk hf)
  · rw [hqe]
    exact fun hmem => (List.Nodup.mem_erase_iff hqnd).1 hmem |>.1 rfl

theorem step_inv (s s1 : JobQueue) (op : JQOp) (h : Inv s) (hstep : s.step op = .ok s1) :
    Inv s1 := by
  cases op with
  | enqueue job context =>
    simp only [step, Except.ok.injEq] at hstep
    subst hstep
    unfold enqueue
    split
    · exact beginLoop_inv _ _ (pushed_inv s job context h)
    · exact pushed_inv s job context h
  | setLimit v =>
    simp only [step, setLimit] at hstep
    split at hstep
    · cases hstep
    · cases hstep
    · split at hstep
      · cases hstep
      · simp only [Except.ok.injEq] at hstep
        subst hstep
        exact ⟨h.len, h.sched, h.fifo, h.schedLe, h.done, h.split⟩
  | start =>
    simp only [step, start] at hstep
    split at hstep
    · cases hstep
    · have h1 : Inv { s with started := true } :=
        ⟨h.len, h.sched, h.fifo, h.schedLe, h.done, h.split⟩
      split at hstep
      · simp only [Except.ok.injEq] at hstep
        subst hstep
        exact beginLoop_inv _ _ h1
      · split at hstep <;>
        · simp only [Except.ok.injEq] at hstep
          subst hstep
          exact ⟨h.len, h.sched, h.fifo, h.schedLe, h.done, h.split⟩
  | onAbort v =>
    simp only [step, Except.ok.injEq] at hstep
    subst hstep
    exact ⟨h.len, h.sched, h.fifo, h.schedLe, h.done, h.split⟩
  | onComplete v =>
    simp only [step, Except.ok.injEq] at hstep
    subst hstep
    exact ⟨h.len, h.sched, h.fifo, h.schedLe, h.done, h.split⟩
  | tick =>
    simp only [step, tick] at hstep
    split at hstep
    · cases hstep
    · cases hstep
    · rename_i j rest heq
      simp only [Except.ok.injEq] at hstep
      subst hstep
      refine ⟨h.len, h.sched, ?_, h.schedLe, ?_, h.split⟩
      · show s.scheduledLog = (s.runLog ++ [j]).map some ++ rest
        rw [h.fifo, heq]
        simp
      · intro k hk
        exact List.mem_append_left _ (h.done k hk)
  | complete j =>
    simp only [step] at hstep
    split at hstep
    · rename_i hj
      cases hjob : s.jobs[j]? with
      | none => simp [complete, hjob] at hstep
      | some job =>
        cases hc : job.completed with
        | true => simp [complete, hjob, hc] at hstep
        | false =>
          have hf := (finished_props s j job h hj hjob hc).1
          rw [complete_eq s j job hjob hc] at hstep
          split at hstep
          · split at hstep <;>
            · simp only [Except.ok.injEq] at hstep
              subst hstep
              exact ⟨hf.len, hf.sched, hf.fifo, hf.schedLe, hf.done, hf.split⟩
          · simp only [Except.ok.injEq] at hstep
            subst hstep
            exact beginLoop_inv _ _ hf
    · cases hstep
  | abort about =>
    simp only [step, abort] at hstep
    split at hstep
    · cases hstep
    · simp only [Except.ok.injEq] at hstep
      subst hstep
      split
      · split <;> exact ⟨h.len, h.sched, h.fifo, h.schedLe, h.done, h.split⟩
      · exact h

/-- Every state reached from a fresh queue has the shape `Inv`. -/
theorem run_inv (ops : List JQOp) : Inv (new.run ops) :=
  run_of_next Inv (fun _ => True)
    (fun s op _ hs => next_of_step _ s op hs (fun s1 h1 => step_inv s s1 op hs h1))
    ops new (fun _ _ => trivial) inv_new

theorem JQ_beginJob_inv (s : JobQueue) (h : Inv s) : Inv (JQ_beginJob s) :=
  beginLoop_inv _ s h

/-- No job is run twice. -/
theorem Inv.runLog_nodup {s : JobQueue} (h : Inv s) : s.runLog.Nodup := by
  have h1 : s.scheduledLog.Nodup := by
    rw [h.sched]
    exact (List.nodup_range _).map (Option.some_injective _)
  rw [h.fifo] at h1
  exact (List.nodup_append.1 h1).1.of_map _

/-- The jobs that were run and have not completed are counted in `activeJobs`. -/
theorem Inv.running_le {s : JobQueue} (h : Inv s) :
    ((running s).length : Int) ≤ s.activeJobs := by
  have hnd : (running s).Nodup := h.runLog_nodup.filter _
  obtain ⟨act, -, ha, -, -, hact⟩ := h.split
  have hsub : running s ⊆ act := by
    intro j hj
    simp only [running, List.mem_filter, decide_eq_true_eq] at hj
    exact hact j (h.lt_of_mem_runLog hj.1) hj.2
  have := (List.subperm_of_subset hnd hsub).length_le
  omega

/-- The `(run, context)` pair of a job object. -/
theorem payload_set (jobs : List Job) (j : Nat) (job : Job) (h : jobs[j]? = some job) :
    (jobs.set j { job with completed := true }).map (fun o => (o.run, o.context)) =
      jobs.map (fun o => (o.run, o.context)) := by
  apply List.ext_getElem?
  intro i
  simp only [List.getElem?_map]
  by_cases hij : j = i
  · subst hij
    have hl : j < jobs.length := by
      by_contra hn
      rw [List.getElem?_eq_none (by omega)] at h
      cases h
    rw [List.getElem?_set_self hl, h]
    rfl
  · rw [List.getElem?_set_ne hij]

/-- Only `enqueue` allocates job objects, and no event changes the function or
the context stored in one. -/
theorem step_payload (s s1 : JobQueue) (op : JQOp) (hstep : s.step op = .ok s1) :
    s1.jobs.map (fun o => (o.run, o.context)) =
      s.jobs.map (fun o => (o.run, o.context)) ++ enqueuedJobs [op] := by
  cases op with
  | enqueue job context =>
    simp only [step, Except.ok.injEq] at hstep
    subst hstep
    unfold enqueue
    split
    · rw [JQ_beginJob, (beginLoop_frame _ _).2.2.1]
      simp [pushed, enqueuedJobs]
    · simp [pushed, enqueuedJobs]
  | setLimit v =>
    simp only [step, setLimit] at hstep
    split at hstep
    · cases hstep
    · cases hstep
    · split at hstep
      · cases hstep
      · simp only [Except.ok.injEq] at hstep
        subst hstep
        simp [enqueuedJobs]
  | start =>
    simp only [step, start] at hstep
    split at hstep
    · cases hstep
    · split at hstep
      · simp only [Except.ok.injEq] at hstep
        subst hstep
        rw [JQ_beginJob, (beginLoop_frame _ _).2.2.1]
        simp [enqueuedJobs]
      · split at hstep <;>
        · simp only [Except.ok.injEq] at hstep
          subst hstep
          simp [enqueuedJobs]
  | onAbort v =>
    simp only [step, Except.ok.injEq] at hstep
    subst hstep
    simp [enqueuedJobs, onAbort]
  | onComplete v =>
    simp only [step, Except.ok.injEq] at hstep
    subst hstep
    simp [enqueuedJobs, onComplete]
  | tick =>
    simp only [step, tick] at hstep
    split at hstep
    · cases hstep
    · cases hstep
    · simp only [Except.ok.injEq] at hstep
      subst hstep
      simp [enqueuedJobs]
  | complete j =>
    simp only [step] at hstep
    split at hstep
    · cases hjob : s.jobs[j]? with
      | none => simp [complete, hjob] at hstep
      | some job =>
        cases hc : job.completed with
        | true => simp [complete, hjob, hc] at hstep
        | false =>
          have hp := payload_set s.jobs j job hjob
          rw [complete_eq s j job hjob hc] at hstep
          split at hstep
          · split at hstep <;>
            · simp only [Except.ok.injEq] at hstep
              subst hstep
              simpa [enqueuedJobs, finished] using hp
          · simp only [Except.ok.injEq] at hstep
            subst hstep
            rw [JQ_beginJob, (beginLoop_frame _ _).2.2.1]
            simpa [enqueuedJobs, finished] using hp
    · cases hstep
  | abort about =>
    simp only [step, abort] at hstep
    split at hstep
    · cases hstep
    · simp only [Except.ok.injEq] at hstep
      subst hstep
      split
      · split <;> simp [enqueuedJobs]
      · simp [enqueuedJobs]

theorem next_payload (s : JobQueue) (op : JQOp) :
    (s.next op).jobs.map (fun o => (o.run, o.context)) =
      s.jobs.map (fun o => (o.run, o.context)) ++ enqueuedJobs [op] := by
  unfold next
  split
  · rename_i s1 heq
    exact step_payload s s1 op heq
  · rename_i e heq
    cases op with
    | enqueue job context => simp [step] at heq
    | _ => simp [enqueuedJobs]

/-- The heap of job objects lists the enqueued jobs in the order of the
`enqueue` calls. -/
theorem run_payload (ops : List JQOp) (s : JobQueue) :
    (s.run ops).jobs.map (fun o => (o.run, o.context)) =
      s.jobs.map (fun o => (o.run, o.context)) ++ enqueuedJobs ops := by
  induction ops generalizing s with
  | nil => simp [run, enqueuedJobs]
  | cons op rest ih =>
    have h1 : (s.run (op :: rest)) = (s.next op).run rest := rfl
    have h2 : enqueuedJobs (op :: rest) = enqueuedJobs [op] ++ enqueuedJobs rest := by
      simp only [enqueuedJobs]
      rw [← List.filterMap_append]
      rfl
    rw [h1, ih, next_payload, h2, List.append_assoc]

/-- A completed job that was run stays so: no event clears a `completed` flag
or removes an entry of the run log. -/
theorem step_completed (s s1 : JobQueue) (op : JQOp) (j : Nat)
    (h : s.flag j = some true ∧ j ∈ s.runLog) (hstep : s.step op = .ok s1) :
    s1.flag j = some true ∧ j ∈ s1.runLog := by
  obtain ⟨hf, hr⟩ := h
  have hjl : j < s.jobs.length := by
    by_contra hn
    simp only [flag] at hf
    rw [List.getElem?_eq_none (by omega)] at hf
    cases hf
  have hloop : ∀ (fuel : Nat) (t : JobQueue), (t.flag j = some true ∧ j ∈ t.runLog) →
      ((beginLoop fuel t).flag j = some true ∧ j ∈ (beginLoop fuel t).runLog) := by
    intro fuel t ht
    have hfr := beginLoop_frame fuel t
    simp only [flag] at ht ⊢
    rw [hfr.2.2.1, hfr.2.2.2.1]
    exact ht
  cases op with
  | enqueue job context =>
    simp only [step, Except.ok.injEq] at hstep
    subst hstep
    have hp : (s.pushed job context).flag j = some true ∧ j ∈ (s.pushed job context).runLog := by
      refine ⟨?_, hr⟩
      simp only [flag, pushed]
      rw [List.getElem?_append_left hjl]
      exact hf
    unfold enqueue
    split
    · exact hloop _ _ hp
    · exact hp
  | setLimit v =>
    simp only [step, setLimit] at hstep
    split at hstep
    · cases hstep
    · cases hstep
    · split at hstep
      · cases hstep
      · simp only [Except.ok.injEq] at hstep
        subst hstep
        exact ⟨hf, hr⟩
  | start =>
    simp only [step, start] at hstep
    split at hstep
    · cases hstep
    · split at hstep
      · simp only [Except.ok.injEq] at hstep
        subst hstep
        exact hloop _ _ ⟨hf, hr⟩
      · split at hstep <;>
        · simp only [Except.ok.injEq] at hstep
          subst hstep
          exact ⟨hf, hr⟩
  | onAbort v =>
    simp only [step, Except.ok.injEq] at hstep
    subst hstep
    exact ⟨hf, hr⟩
  | onComplete v =>
    simp only [step, Except.ok.injEq] at hstep
    subst hstep
    exact ⟨hf, hr⟩
  | tick =>
    simp only [step, tick] at hstep
    split at hstep
    · cases hstep
    · cases hstep
    · simp only [Except.ok.injEq] at hstep
      subst hstep
      exact ⟨hf, List.mem_append_left _ hr⟩
  | complete k =>
    simp only [step] at hstep
    split at hstep
    · cases hjob : s.jobs[k]? with
      | none => simp [complete, hjob] at hstep
      | some job =>
        cases hc : job.completed with
        | true => simp [complete, hjob, hc] at hstep
        | false =>
          have hp : (s.finished k job).flag j = some true ∧ j ∈ (s.finished k job).runLog := by
            refine ⟨?_, hr⟩
            simp only [flag, finished]
            by_cases hkj : k = j
            · subst hkj
              rw [List.getElem?_set_self hjl]
              rfl
            · rw [List.getElem?_set_ne hkj]
              exact hf
          rw [complete_eq s k job hjob hc] at hstep
          split at hstep
          · split at hstep <;>
            · simp only [Except.ok.injEq] at hstep
              subst hstep
              exact hp
          · simp only [Except.ok.injEq] at hstep
            subst hstep
            exact hloop _ _ hp
    · cases hstep
  | abort about =>
    simp only [step, abort] at hstep
    split at hstep
    · cases hstep
    · simp only [Except.ok.injEq] at hstep
      subst hstep
      split
      · split <;> exact ⟨hf, hr⟩
      · exact ⟨hf, hr⟩

theorem run_completed (ops : List JQOp) (s : JobQueue) (j : Nat)
    (h : s.flag j = some true ∧ j ∈ s.runLog) :
    (s.run ops).flag j = some true ∧ j ∈ (s.run ops).runLog :=
  run_of_next (fun t => t.flag j = some true ∧ j ∈ t.runLog) (fun _ => True)
    (fun t op _ ht => next_of_step _ t op ht (fun t1 h1 => step_completed t t1 op j ht h1))
    ops s (fun _ _ => trivial) h

/-- A second call of a completion function throws. -/
theorem complete_twice (s : JobQueue) (j : Nat) (h : s.flag j = some true) :
    s.complete j = .error (.error "Job completed multiple times.") := by
  unfold complete
  simp only [flag] at h
  cases hjob : s.jobs[j]? with
  | none => rw [hjob] at h; cases h
  | some job =>
    rw [hjob] at h
    simp only [Option.map_some', Option.some.injEq] at h
    simp [h]

/-- The scheduling loop adds one pending start per unit of `activeJobs`. -/
theorem beginLoop_count (fuel : Nat) (s : JobQueue) :
    (beginLoop fuel s).activeJobs - s.activeJobs =
      ((beginLoop fuel s).scheduledLog.length : Int) - s.scheduledLog.length := by
  induction fuel generalizing s with
  | zero => simp [beginLoop]
  | succ k ih =>
    unfold beginLoop
    split
    · have h := ih { s with
          timers := s.timers ++ [arrayGet s.queue s.activeJobs]
          scheduledLog := s.scheduledLog ++ [arrayGet s.queue s.activeJobs]
          activeJobs := s.activeJobs + 1 }
      simp only [List.length_append, List.length_singleton] at h
      push_cast at h
      omega
    · simp

/-- C1: when the whole number `L ≥ 1` is the only limit handed to `setLimit`
(which accepts it), then after every sequence of events, cut at any point,
`activeJobs` is at most `L`; the jobs whose `run` was called and that have not
completed are in turn at most `activeJobs`. -/
theorem C1_active_jobs_never_exceed_limit (L : ℕ) (hL : 1 ≤ L) (ops : List JQOp)
    (hops : ∀ v, JQOp.setLimit v ∈ ops → v = JSNumber.num L) (k : ℕ) :
    (∀ s : JobQueue, (s.setLimit (.num L)).toOption.map (fun t => t.concurrentLimit)
        = some (L : ℚ)) ∧
    ((new.run (ops.take k)).running.length : Int) ≤ (new.run (ops.take k)).activeJobs ∧
    (new.run (ops.take k)).activeJobs ≤ L := by
  refine ⟨?_, (run_inv _).running_le, ?_⟩
  · intro s
    have h1 : ¬ ((L : ℚ) < 1) := by
      have : (1 : ℚ) ≤ L := by exact_mod_cast hL
      exact not_lt.2 this
    simp [setLimit, h1, Except.toOption]
  · have hb : Bounded L new := ⟨by show (0 : Int) ≤ L; omega, Or.inl rfl⟩
    exact (run_bounded L (ops.take k) new
      (fun v hv => hops v (List.mem_of_mem_take hv)) hb).1

/-- Witness of C1: limit 2, four jobs enqueued around `start()`, one completed. -/
theorem C1_active_jobs_never_exceed_limit_witness :
    (∀ s : JobQueue, (s.setLimit (.num (2 : ℕ))).toOption.map (fun t => t.concurrentLimit)
        = some ((2 : ℕ) : ℚ)) ∧
    ((new.run ([JQOp.enqueue 7 1, .setLimit (.num (2 : ℕ)), .enqueue 7 2, .start,
        .enqueue 8 3, .tick, .complete 0, .enqueue 8 4].take 8)).running.length : Int) ≤
      (new.run ([JQOp.enqueue 7 1, .setLimit (.num (2 : ℕ)), .enqueue 7 2, .start,
        .enqueue 8 3, .tick, .complete 0, .enqueue 8 4].take 8)).activeJobs ∧
    (new.run ([JQOp.enqueue 7 1, .setLimit (.num (2 : ℕ)), .enqueue 7 2, .start,
        .enqueue 8 3, .tick, .complete 0, .enqueue 8 4].take 8)).activeJobs ≤ (2 : ℕ) :=
  C1_active_jobs_never_exceed_limit 2 (by decide) _
    (by intro v hv; simpa using hv) 8

/-- The jobs are run in the order of their references. -/
theorem Inv.runLog_range {s : JobQueue} (h : Inv s) :
    s.runLog = List.range s.runLog.length := by
  have h1 : s.runLog.map some ++ s.timers = (List.range s.scheduledLog.length).map some := by
    rw [← h.fifo, ← h.sched]
  have hlen : s.runLog.length ≤ s.scheduledLog.length := by
    have := congrArg List.length h.fifo
    simp only [List.length_append, List.length_map] at this
    omega
  have h2 := congrArg (List.take s.runLog.length) h1
  rw [List.take_left' (by simp), ← List.map_take, List.take_range,
    Nat.min_eq_left hlen] at h2
  exact List.map_injective_iff.2 (Option.some_injective _) h2

/-- C9: after every sequence of events, the values handed to `setTimeout` for
starting are the references `0, 1, 2, ...` in this order, the jobs are run in
that order, the job objects are stored in the order of the `enqueue` calls,
and so the jobs scheduled to start are, in order, the first jobs that were
enqueued. -/
theorem C9_jobs_are_scheduled_in_enqueue_order (ops : List JQOp) :
    (new.run ops).scheduledLog = (List.range (new.run ops).scheduledLog.length).map some ∧
    (new.run ops).runLog = List.range (new.run ops).runLog.length ∧
    (new.run ops).jobs.map (fun o => (o.run, o.context)) = enqueuedJobs ops ∧
    startedJobs (new.run ops) =
      ((enqueuedJobs ops).take (new.run ops).scheduledLog.length).map some := by
  have hinv := run_inv ops
  have hpay : (new.run ops).jobs.map (fun o => (o.run, o.context)) = enqueuedJobs ops := by
    have := run_payload ops new
    simpa [new] using this
  refine ⟨hinv.sched, hinv.runLog_range, hpay, ?_⟩
  rw [← hpay]
  unfold startedJobs
  generalize (new.run ops) = s at hinv
  have hle := hinv.schedLe
  conv_lhs => rw [hinv.sched]
  apply List.ext_getElem?
  intro i
  simp only [List.map_map, List.getElem?_map, List.getElem?_take, List.map_take]
  by_cases hi : i < s.scheduledLog.length
  · rw [List.getElem?_range hi, if_pos hi]
    have hil : i < s.jobs.length := by omega
    simp [List.getElem?_eq_getElem hil]
  · rw [if_neg hi, List.getElem?_eq_none (by simpa using hi)]
    rfl

/-- C10, as stated, fails: with limit 1 and a second job waiting, the first call
of the running job's completion function leaves `activeJobs` at 1, because the
freed slot is handed to the waiting job in the same call. -/
theorem C10_counterexample :
    (0 : Nat) ∈ (new.run [.setLimit (.num 1), .enqueue 7 1, .enqueue 7 2, .start, .tick]).runLog ∧
    (new.run [.setLimit (.num 1), .enqueue 7 1, .enqueue 7 2, .start, .tick]).flag 0
      = some false ∧
    (new.run [.setLimit (.num 1), .enqueue 7 1, .enqueue 7 2, .start, .tick]).activeJobs = 1 ∧
    ((new.run [.setLimit (.num 1), .enqueue 7 1, .enqueue 7 2, .start, .tick]).complete
      0).toOption.map (fun t => t.activeJobs) = some 1 := by
  decide

/-- C10, amended: for a job whose `run` was called and whose completion function
has not been called, the first call succeeds, removes exactly that job from the
queue and lowers `queueLength` by one; `activeJobs` is lowered by one and then
raised by one for every waiting job the call schedules; every later call of the
same completion function throws the double-completion error and leaves the
state as it is. -/
theorem C10_first_completion_removes_job_second_throws (ops : List JQOp) (j : Nat)
    (hrun : j ∈ (new.run ops).runLog) (hfirst : (new.run ops).flag j = some false) :
    ∃ s1, (new.run ops).step (.complete j) = .ok s1 ∧
      j ∈ (new.run ops).queue ∧ s1.queue = (new.run ops).queue.erase j ∧ j ∉ s1.queue ∧
      s1.queueLength = (new.run ops).queueLength - 1 ∧
      s1.activeJobs = (new.run ops).activeJobs - 1 +
        ((s1.scheduledLog.length : Int) - (new.run ops).scheduledLog.length) ∧
      ∀ later : List JQOp,
        (s1.run later).step (.complete j) = .error (.error "Job completed multiple times.") ∧
        (s1.run later).next (.complete j) = s1.run later := by
  have hinv := run_inv ops
  generalize new.run ops = s at hinv hrun hfirst
  obtain ⟨job, hjob, hc⟩ : ∃ job, s.jobs[j]? = some job ∧ job.completed = false := by
    simp only [flag] at hfirst
    cases hjob : s.jobs[j]? with
    | none => rw [hjob] at hfirst; cases hfirst
    | some job =>
      rw [hjob] at hfirst
      exact ⟨job, rfl, by simpa using hfirst⟩
  obtain ⟨hfinv, hjq, hqe, hjnot⟩ := finished_props s j job hinv hrun hjob hc
  have hflag : (s.finished j job).flag j = some true := by
    have hjl : j < s.jobs.length := by
      by_contra hn
      rw [List.getElem?_eq_none (by omega)] at hjob
      cases hjob
    simp only [flag, finished]
    rw [List.getElem?_set_self hjl]
    rfl
  have hlater : ∀ t : JobQueue, (t.flag j = some true ∧ j ∈ t.runLog) → ∀ later : List JQOp,
      (t.run later).step (.complete j) = .error (.error "Job completed multiple times.") ∧
      (t.run later).next (.complete j) = t.run later := by
    intro t ht later
    obtain ⟨h1, h2⟩ := run_completed later t j ht
    have h3 : (t.run later).step (.complete j) =
        .error (.error "Job completed multiple times.") := by
      simp only [step, if_pos h2]
      exact complete_twice _ j h1
    exact ⟨h3, by simp only [next, h3]⟩
  have hstep : s.step (.complete j) = s.complete j := by simp only [step, if_pos hrun]
  rw [hstep, complete_eq s j job hjob hc]
  split
  · split
    · exact ⟨_, rfl, hjq, hqe, hjnot, rfl, by simp [finished], hlater _ ⟨hflag, hrun⟩⟩
    · exact ⟨_, rfl, hjq, hqe, hjnot, rfl, by simp [finished], hlater _ ⟨hflag, hrun⟩⟩
  · have hfr := beginLoop_frame ((s.finished j job).queueLength -
        (s.finished j job).activeJobs).toNat (s.finished j job)
    have hcount := beginLoop_count ((s.finished j job).queueLength -
        (s.finished j job).activeJobs).toNat (s.finished j job)
    refine ⟨_, rfl, hjq, ?_, ?_, ?_, ?_, hlater _ ⟨?_, ?_⟩⟩
    · rw [JQ_beginJob, hfr.1]; exact hqe
    · rw [JQ_beginJob, hfr.1]; exact hjnot
    · rw [JQ_beginJob, hfr.2.1]; rfl
    · rw [JQ_beginJob]
      generalize beginLoop _ _ = t at hcount ⊢
      change t.activeJobs - (s.activeJobs - 1) =
        (t.scheduledLog.length : Int) - s.scheduledLog.length at hcount
      omega
    · simp only [flag, JQ_beginJob, hfr.2.2.1]
      exact hflag
    · rw [JQ_beginJob, hfr.2.2.2.1]; exact hrun

/-- Witness of C10: limit 1, two jobs, the first one run and then completed. -/
theorem C10_first_completion_removes_job_second_throws_witness :
    ∃ s1, (new.run [.setLimit (.num 1), .enqueue 7 1, .enqueue 7 2, .start, .tick]).step
        (.complete 0) = .ok s1 ∧
      0 ∈ (new.run [.setLimit (.num 1), .enqueue 7 1, .enqueue 7 2, .start, .tick]).queue ∧
      s1.queue =
        (new.run [.setLimit (.num 1), .enqueue 7 1, .enqueue 7 2, .start, .tick]).queue.erase 0 ∧
      0 ∉ s1.queue ∧
      s1.queueLength =
        (new.run [.setLimit (.num 1), .enqueue 7 1, .enqueue 7 2, .start, .tick]).queueLength - 1 ∧
      s1.activeJobs =
        (new.run [.setLimit (.num 1), .enqueue 7 1, .enqueue 7 2, .start, .tick]).activeJobs - 1 +
        ((s1.scheduledLog.length : Int) -
          (new.run [.setLimit (.num 1), .enqueue 7 1, .enqueue 7 2, .start,
            .tick]).scheduledLog.length) ∧
      ∀ later : List JQOp,
        (s1.run later).step (.complete 0) = .error (.error "Job completed multiple times.") ∧
        (s1.run later).next (.complete 0) = s1.run later :=
  C10_first_completion_removes_job_second_throws
    [.setLimit (.num 1), .enqueue 7 1, .enqueue 7 2, .start, .tick] 0 (by decide) (by decide)

end JobQueue

/-! ## Request correlator: claims C3 to C8 -/

/-- The sweep loop over the first `pre.length` positions of `pre ++ suf`, from
the last of them down to the first: the requests of `pre` past their deadline
are removed and called back, last first; nothing else moves. -/
theorem sweep_fold (selfTimeout timeNow : Nat) (pre : List SentRequest) :
    ∀ (suf : List SentRequest) (st : SweepState), st.sent = pre ++ suf →
      ((List.range pre.length).reverse.foldl (sweepAt selfTimeout timeNow) st).sent =
          pre.filter (fun r => decide (¬ deadline selfTimeout r < timeNow)) ++ suf ∧
      ((List.range pre.length).reverse.foldl (sweepAt selfTimeout timeNow) st).calls =
          st.calls ++ ((pre.filter (fun r => decide (deadline selfTimeout r < timeNow))).reverse.flatMap
            evictionCalls) := by
  induction pre using List.reverseRecOn with
  | nil =>
    intro suf st h
    simp [h]
  | append_singleton p x ih =>
    intro suf st h
    have hget : st.sent[p.length]? = some x := by
      rw [h, List.append_assoc, List.getElem?_append_right (Nat.le_refl _)]
      simp
    simp only [List.length_append, List.length_singleton, List.range_succ, List.reverse_append,
      List.reverse_cons, List.reverse_nil, List.nil_append, List.singleton_append,
      List.foldl_cons, List.filter_append]
    by_cases hev : x.ts + timeoutAfter selfTimeout x < timeNow
    · have hst : (sweepAt selfTimeout timeNow st p.length).sent = st.sent.eraseIdx p.length ∧
          (sweepAt selfTimeout timeNow st p.length).calls = st.calls ++ evictionCalls x := by
        simp only [sweepAt, hget, if_pos hev, evictionCalls, List.append_assoc, and_self]
      have hsent : st.sent.eraseIdx p.length = p ++ suf := by
        rw [h, List.append_assoc, List.eraseIdx_append_of_length_le (Nat.le_refl _)]
        simp
      obtain ⟨h1, h2⟩ := ih suf (sweepAt selfTimeout timeNow st p.length) (hst.1.trans hsent)
      rw [h1, h2, hst.2]
      simp [deadline, hev, List.append_assoc]
    · have hsent : (sweepAt selfTimeout timeNow st p.length).sent = p ++ (x :: suf) := by
        simp only [sweepAt, hget, if_neg hev]
        split <;> simp [h]
      have hcalls : (sweepAt selfTimeout timeNow st p.length).calls = st.calls := by
        simp only [sweepAt, hget, if_neg hev]
        split <;> rfl
      obtain ⟨h1, h2⟩ := ih (x :: suf) (sweepAt selfTimeout timeNow st p.length) hsent
      rw [h1, h2, hcalls]
      simp [deadline, hev, Nat.le_of_not_lt hev]

/-- C3, as stated, fails: a request whose own timeout is 0 is given the
client-wide timeout by the sweep, so it survives a sweep run after `sentAt + 0`. -/
theorem C3_counterexample :
    specDeadline Client.new.timeout zeroTimeoutRequest < 2000 ∧
    zeroTimeoutRequest ∈
      (COREcheckTimer { Client.new with sentWebSocketRequests := [zeroTimeoutRequest] }
        2000).sentWebSocketRequests := by
  decide

/-- C3, amended: a sweep at time `timeNow` removes exactly the requests whose
deadline `sentAt + timeout` lies before `timeNow`, the timeout being the
request's own when that is not zero and the client-wide one otherwise; the
survivors keep their order; and the calls of the sweep are, for the evicted
requests from the last to the first, `onFailure(0)` when the request has an
`onFailure`, followed by one call of its completion function. -/
theorem C3_sweep_evicts_exactly_the_expired (self : Client) (timeNow : Nat) :
    (COREcheckTimer self timeNow).sentWebSocketRequests =
      self.sentWebSocketRequests.filter
        (fun r => decide (¬ deadline self.timeout r < timeNow)) ∧
    (COREcheckTimer self timeNow).calls =
      self.calls ++
        ((self.sentWebSocketRequests.filter
            (fun r => decide (deadline self.timeout r < timeNow))).reverse.flatMap
          fun r =>
            (if r.context.onFailure.isSome then [Call.onFailure r.context (some 0) none] else [])
              ++ [Call.complete r.complete]) := by
  have h := sweep_fold self.timeout timeNow self.sentWebSocketRequests []
    { sent := self.sentWebSocketRequests, calls := [],
      nextTimeout := timeNow + 24 * 60 * 60 * 1000, runAgain := false, observed := [] } (by simp)
  obtain ⟨h1, h2⟩ := h
  constructor
  · simpa [COREcheckTimer, sweepLoop] using h1
  · simp only [COREcheckTimer, sweepLoop]
    rw [h2]
    rfl


theorem occurs_mid (a sub b : String) : Occurs sub (a ++ sub ++ b) := ⟨a, b, rfl⟩

/-- C5: for a status other than 401, 0, -1 and 429, the fail handler of a
critical request throws an error whose text contains the status and the
resource name and calls nothing; the fail handler of a request that is not
critical calls `onFailure(status, additional)` when the request has an
`onFailure`, then the completion function, and throws nothing. -/
theorem C5_fail_handler_fatal_iff_critical (g : Globals) (context : Context)
    (complete : JobRef) (status : Status)
    (h401 : status.status ≠ some 401) (h0 : status.status ≠ some 0)
    (hm1 : status.status ≠ some (-1)) (h429 : status.status ≠ some 429) :
    (context.critical = some true →
      ∃ text : String,
        (COREgetFailHandler g context complete status).thrown = some (.error text) ∧
        (COREgetFailHandler g context complete status).state = [] ∧
        Occurs (statusString status.status) text ∧ Occurs context.resource text) ∧
    (context.critical ≠ some true →
      (COREgetFailHandler g context complete status).thrown = none ∧
      (COREgetFailHandler g context complete status).state =
        (if context.onFailure.isSome then
          [Call.onFailure context status.status status.additional] else [])
        ++ [Call.complete complete]) := by
  constructor
  · intro hc
    unfold COREgetFailHandler
    rw [if_neg h401, if_pos hc, if_neg (by simp [h0, hm1])]
    by_cases h400 : status.status = some 400
    · rw [if_pos h400]
      refine ⟨_, rfl, rfl, ?_, ⟨"400 - Bad Request (", ")", rfl⟩⟩
      rw [h400]
      exact ⟨"", " - Bad Request (" ++ context.resource ++ ")", by
        rw [show statusString (some 400) = "400" by decide, ← String.append_assoc]
        rfl⟩
    rw [if_neg h400]
    by_cases h403 : status.status = some 403
    · rw [if_pos h403]
      refine ⟨_, rfl, rfl, ?_, ⟨"403 - Forbidden (", ")", rfl⟩⟩
      rw [h403]
      exact ⟨"", " - Forbidden (" ++ context.resource ++ ")", by
        rw [show statusString (some 403) = "403" by decide, ← String.append_assoc]
        rfl⟩
    rw [if_neg h403]
    by_cases h404 : status.status = some 404
    · rw [if_pos h404]
      refine ⟨_, rfl, rfl, ?_, ⟨"404 - File not found (", ")", rfl⟩⟩
      rw [h404]
      exact ⟨"", " - File not found (" ++ context.resource ++ ")", by
        rw [show statusString (some 404) = "404" by decide, ← String.append_assoc]
        rfl⟩
    rw [if_neg h404]
    by_cases h405 : status.status = some 405
    · rw [if_pos h405]
      refine ⟨_, rfl, rfl, ?_, ⟨"405 - Method not allowed (", ")", rfl⟩⟩
      rw [h405]
      exact ⟨"", " - Method not allowed (" ++ context.resource ++ ")", by
        rw [show statusString (some 405) = "405" by decide, ← String.append_assoc]
        rfl⟩
    rw [if_neg h405, if_neg h429]
    by_cases h500 : status.status = some 500
    · rw [if_pos h500]
      refine ⟨_, rfl, rfl, ?_, ⟨"500 - Internal server error in ", "", by
        rw [String.append_empty]⟩⟩
      rw [h500]
      exact ⟨"", " - Internal server error in " ++ context.resource, by
        rw [show statusString (some 500) = "500" by decide, ← String.append_assoc]
        rfl⟩
    rw [if_neg h500]
    refine ⟨_, rfl, rfl, ⟨"Unrecognised error condition (", ") while retrieving " ++
      context.resource ++ "\n\n" ++ (match status.statusText with
              | some t => if t = "" then "" else t
              | none => ""), ?_⟩, ⟨"Unrecognised error condition (" ++
      statusString status.status ++ ") while retrieving ", "\n\n" ++
      (match status.statusText with
              | some t => if t = "" then "" else t
              | none => ""), ?_⟩⟩
    · simp only [String.append_assoc]
    · simp only [String.append_assoc]
  · intro hc
    unfold COREgetFailHandler
    rw [if_neg h401, if_neg hc]
    exact ⟨rfl, rfl⟩

/-- Witness of C5: status 404 on the critical example context. -/
theorem C5_fail_handler_fatal_iff_critical_witness :
    (criticalContext.critical = some true →
      ∃ text : String,
        (COREgetFailHandler moduleGlobals criticalContext 0
          { status := some 404, additional := none, statusText := none }).thrown
            = some (.error text) ∧
        (COREgetFailHandler moduleGlobals criticalContext 0
          { status := some 404, additional := none, statusText := none }).state = [] ∧
        Occurs (statusString (some 404)) text ∧ Occurs criticalContext.resource text) ∧
    (criticalContext.critical ≠ some true →
      (COREgetFailHandler moduleGlobals criticalContext 0
          { status := some 404, additional := none, statusText := none }).thrown = none ∧
      (COREgetFailHandler moduleGlobals criticalContext 0
          { status := some 404, additional := none, statusText := none }).state =
        (if criticalContext.onFailure.isSome then
          [Call.onFailure criticalContext (some 404) none] else [])
        ++ [Call.complete 0]) :=
  C5_fail_handler_fatal_iff_critical moduleGlobals criticalContext 0
    { status := some 404, additional := none, statusText := none }
    (by decide) (by decide) (by decide) (by decide)

/-- C6 on the failing input: on status 0 the fail handler of a critical
request without `onFailure` throws nothing; it only calls the completion
function, so the failure of the request is silent. -/
theorem C6_counterexample :
    criticalContext.critical = some true ∧ criticalContext.onFailure = none ∧
    (COREgetFailHandler moduleGlobals criticalContext 0
      { status := some 0, additional := none, statusText := none }).thrown = none ∧
    (COREgetFailHandler moduleGlobals criticalContext 0
      { status := some 0, additional := none, statusText := none }).state = [.complete 0] := by
  decide

/-- C6 on the code: on status 0 or -1 the fail handler calls
`onFailure(status, additional)` when the request has an `onFailure`, then the
completion function, and throws nothing, whether the request is critical or
not; a critical request without `onFailure` so fails without a fatal error. -/
theorem C6_transport_failure_is_never_fatal (g : Globals) (context : Context)
    (complete : JobRef) (status : Status)
    (h : status.status = some 0 ∨ status.status = some (-1)) :
    (COREgetFailHandler g context complete status).thrown = none ∧
    (COREgetFailHandler g context complete status).state =
      (if context.onFailure.isSome then
        [Call.onFailure context status.status status.additional] else [])
      ++ [Call.complete complete] := by
  have h401 : status.status ≠ some 401 := by
    rcases h with h | h <;> rw [h] <;> decide
  unfold COREgetFailHandler
  rw [if_neg h401]
  by_cases hc : context.critical = some true
  · rw [if_pos hc, if_pos (Or.symm h)]
    exact ⟨rfl, rfl⟩
  · rw [if_neg hc]
    exact ⟨rfl, rfl⟩

/-- Witness of C6: status -1 on the critical example context. -/
theorem C6_transport_failure_is_never_fatal_witness :
    (COREgetFailHandler moduleGlobals criticalContext 0
      { status := some (-1), additional := none, statusText := none }).thrown = none ∧
    (COREgetFailHandler moduleGlobals criticalContext 0
      { status := some (-1), additional := none, statusText := none }).state =
      (if criticalContext.onFailure.isSome then
        [Call.onFailure criticalContext (some (-1)) none] else [])
      ++ [Call.complete 0] :=
  C6_transport_failure_is_never_fatal moduleGlobals criticalContext 0
    { status := some (-1), additional := none, statusText := none } (Or.inr rfl)

/-- C7 on the code: on status 401 the fail handler evaluates `lo.logOff()`.
In the module's own scope `lo` is unbound, so the handler throws a
`ReferenceError` before it calls `onFailure` or the completion function; only
where the host binds a global `lo` does it log off, call `onFailure` when
there is one, and complete. -/
theorem C7_status_401_throws_reference_error (context : Context) (complete : JobRef)
    (additional statusText : Option String) :
    (COREgetFailHandler moduleGlobals context complete
      { status := some 401, additional := additional, statusText := statusText }).thrown
        = some (.referenceError "lo") ∧
    (COREgetFailHandler moduleGlobals context complete
      { status := some 401, additional := additional, statusText := statusText }).state = [] ∧
    (COREgetFailHandler { lo := true } context complete
      { status := some 401, additional := additional, statusText := statusText }).thrown
        = none ∧
    (COREgetFailHandler { lo := true } context complete
      { status := some 401, additional := additional, statusText := statusText }).state =
      [Call.logOff] ++ (if context.onFailure.isSome then
        [Call.onFailure context (some 401) additional] else []) ++ [Call.complete complete] := by
  simp [COREgetFailHandler, moduleGlobals, callOnFailure]

/-- C8: `request` keeps a `critical` flag that was supplied; when none was
supplied it sets the flag to true exactly when no `onFailure` was supplied; and
the context it hands on, to the job queue or to the list of requests waiting
for the socket, carries that flag. -/
theorem C8_critical_defaults_to_no_onFailure (self : Client) (context : Context) :
    (∀ b, context.critical = some b → (self.request context).context.critical = some b) ∧
    (context.critical = none →
      ((self.request context).context.critical = some true ↔ context.onFailure = none) ∧
      ((self.request context).context.critical = some false ↔ context.onFailure ≠ none)) ∧
    ((self.request context).context ∈ (self.request context).client.pendingWebSocketRequests ∨
      ∃ kind, (kind, some (self.request context).context) ∈
        (self.request context).client.jobContexts) := by
  have hctx : (self.request context).context = (self.route (defaultCritical context)).2 := by
    unfold Client.request
    simp only
    split
    · split
      · rfl
      · split <;> rfl
    · rfl
  have hpend : (self.request context).client.pendingWebSocketRequests =
      (self.route (defaultCritical context)).1.pendingWebSocketRequests := by
    unfold Client.request
    simp only
    split
    · split
      · rfl
      · split <;> rfl
    · rfl
  have hjobs : (self.request context).client.jobContexts =
      (self.route (defaultCritical context)).1.jobContexts := by
    unfold Client.request
    simp only
    split
    · split
      · rfl
      · split <;> rfl
    · rfl
  have hcrit : ∀ c : Context, (self.route c).2.critical = c.critical := by
    intro c
    unfold Client.route
    split
    · rfl
    · split <;> rfl
  have hhand : ∀ c : Context, (self.route c).2 ∈ (self.route c).1.pendingWebSocketRequests ∨
      ∃ kind, (kind, some (self.route c).2) ∈ (self.route c).1.jobContexts := by
    intro c
    unfold Client.route
    split
    · exact Or.inr ⟨.COREmakeHttpRequest, by simp [Client.enqueueJob]⟩
    · split
      · exact Or.inr ⟨.COREmakeWsRequest, by simp [Client.enqueueJob]⟩
      · exact Or.inl (by simp)
      · refine Or.inl ?_
        simp only
        split <;> simp [Client.COREopenPrimaryWebSocket, Client.enqueueJob]
  rw [hctx, hpend, hjobs, hcrit]
  refine ⟨?_, ?_, hhand _⟩
  · intro b hb
    simp [defaultCritical, hb]
  · intro hn
    cases ho : context.onFailure <;> simp [defaultCritical, hn, ho]


/-- A downward search finds the largest position that passes the test. -/
theorem find_reverse_range_some (p : Nat → Bool) (a : Nat) (hp : p a = true) :
    ∀ n, a < n → (∀ b, a < b → b < n → p b = false) →
      (List.range n).reverse.find? p = some a := by
  intro n
  induction n with
  | zero => intro h; omega
  | succ k ih =>
    intro hlt hlast
    rw [List.range_succ, List.reverse_append, List.reverse_singleton, List.singleton_append,
      List.find?_cons]
    by_cases hak : a = k
    · subst hak
      simp [hp]
    · have hk : p k = false := hlast k (by omega) (by omega)
      simp only [hk]
      exact ih (by omega) (fun b h1 h2 => hlast b h1 (by omega))

/-- A downward search over positions that all fail the test finds nothing. -/
theorem find_reverse_range_none (p : Nat → Bool) :
    ∀ n, (∀ b, b < n → p b = false) → (List.range n).reverse.find? p = none := by
  intro n
  induction n with
  | zero => intro _; rfl
  | succ k ih =>
    intro h
    rw [List.range_succ, List.reverse_append, List.reverse_singleton, List.singleton_append,
      List.find?_cons]
    simp only [h k (by omega)]
    exact ih (fun b hb => h b (by omega))

theorem lastIndexOfId_some (sent : List SentRequest) (id : Option Nat) (a : Nat)
    (r : SentRequest) (hr : sent[a]? = some r) (hid : id = some r.id)
    (hlast : ∀ b r1, a < b → sent[b]? = some r1 → r1.id ≠ r.id) :
    lastIndexOfId sent id = some a := by
  unfold lastIndexOfId
  apply find_reverse_range_some
  · simp [hr, hid]
  · by_contra hn
    rw [List.getElem?_eq_none (by omega)] at hr
    cases hr
  · intro b hab hb
    cases hb1 : sent[b]? with
    | none => rfl
    | some r1 =>
      have := hlast b r1 hab hb1
      simp [hid, this]

theorem lastIndexOfId_none (sent : List SentRequest) (id : Option Nat)
    (h : ∀ r ∈ sent, id ≠ some r.id) : lastIndexOfId sent id = none := by
  unfold lastIndexOfId
  apply find_reverse_range_none
  intro b hb
  have hmem : sent[b] ∈ sent := List.getElem_mem hb
  have := h _ hmem
  simp only [List.getElem?_eq_getElem hb]
  simpa using fun e => this e.symm

/-- The handler reaches the `RES` branch with the format event recorded. -/
theorem onMessage_res (g : Globals) (self : Client) (msg : Message)
    (htype : msg.type = some "RES")
    (hkept : ¬ (unrecognisedFormat msg = true ∧ notLoggedInNotice msg = true)) :
    onMessage g self (some msg) =
      onResponse g { self with calls := self.calls ++ formatCalls msg } msg := by
  unfold onMessage
  simp only [if_neg hkept, htype, if_true]
  unfold formatCalls
  split
  · rfl
  · simp

/-- C4, as stated, fails: a `RES` with code 404 for a pending critical request
makes the fail handler throw, and the entry is still pending afterwards. -/
theorem C4_counterexample :
    (onMessage moduleGlobals { Client.new with sentWebSocketRequests := [criticalRequest] }
      (some (responseWithCode 404))).thrown
        = some (.error "404 - File not found (/API/monitor/getStatus)") ∧
    criticalRequest ∈
      (onMessage moduleGlobals { Client.new with sentWebSocketRequests := [criticalRequest] }
        (some (responseWithCode 404))).state.sentWebSocketRequests := by
  decide

/-- C4, amended: take an inbound `RES` message that is not dropped as a
"Not logged in" notice.  If its id is that of a pending request, let `r` be the
last such entry: with a code below 300 and an `onSuccess` in the request,
`onSuccess(data)` and the completion function are called; with a code of 300 or
more the fail handler is called; when that call returns the entry of `r` is
removed and every other entry stays, and when the fail handler throws the
pending requests stay as they were.  If its id is that of no pending request,
the pending requests stay as they were and no callback of a request is called.
The only other call is the error event of a message without `data`. -/
theorem C4_response_resolves_the_matching_request (g : Globals) (self : Client)
    (msg : Message) (htype : msg.type = some "RES")
    (hkept : ¬ (unrecognisedFormat msg = true ∧ notLoggedInNotice msg = true)) :
    (∀ (a : Nat) (r : SentRequest), self.sentWebSocketRequests[a]? = some r →
      msg.id = some r.id →
      (∀ b r1, a < b → self.sentWebSocketRequests[b]? = some r1 → r1.id ≠ r.id) →
      (∀ c : Int, msg.code = some c → c < 300 → r.context.onSuccess.isSome = true →
        (onMessage g self (some msg)).thrown = none ∧
        (onMessage g self (some msg)).state.calls = self.calls ++ formatCalls msg ++
          [Call.onSuccess r.context msg.data, Call.complete r.complete] ∧
        (onMessage g self (some msg)).state.sentWebSocketRequests =
          self.sentWebSocketRequests.eraseIdx a) ∧
      (∀ c : Int, msg.code = some c → 300 ≤ c →
        (onMessage g self (some msg)).thrown =
          (COREgetFailHandler g r.context r.complete
            { status := some c, additional := additionalOf msg, statusText := none }).thrown ∧
        (onMessage g self (some msg)).state.calls = self.calls ++ formatCalls msg ++
          (COREgetFailHandler g r.context r.complete
            { status := some c, additional := additionalOf msg, statusText := none }).state ∧
        (onMessage g self (some msg)).state.sentWebSocketRequests =
          if (COREgetFailHandler g r.context r.complete
              { status := some c, additional := additionalOf msg, statusText := none }).thrown
              = none
          then self.sentWebSocketRequests.eraseIdx a else self.sentWebSocketRequests)) ∧
    ((∀ r ∈ self.sentWebSocketRequests, msg.id ≠ some r.id) →
      (onMessage g self (some msg)).thrown = none ∧
      (onMessage g self (some msg)).state.calls = self.calls ++ formatCalls msg ∧
      (onMessage g self (some msg)).state.sentWebSocketRequests =
        self.sentWebSocketRequests) := by
  rw [onMessage_res g self msg htype hkept]
  constructor
  · intro a r hr hid hlast
    have hidx : lastIndexOfId self.sentWebSocketRequests msg.id = some a :=
      lastIndexOfId_some _ _ a r hr hid hlast
    constructor
    · intro c hc hlt hs
      unfold onResponse
      simp [hidx, hr, hc, hlt, hs]
    · intro c hc hge
      have hnlt : ¬ c < 300 := by omega
      unfold onResponse
      simp only [hidx, hr, hc, hnlt, decide_False, Bool.false_eq_true, if_false]
      cases hth : (COREgetFailHandler g r.context r.complete
          { status := some c, additional := additionalOf msg, statusText := none }).thrown with
      | none => exact ⟨rfl, by simp, by simp⟩
      | some e => exact ⟨rfl, by simp, by simp⟩
  · intro hno
    have hidx : lastIndexOfId self.sentWebSocketRequests msg.id = none :=
      lastIndexOfId_none _ _ hno
    unfold onResponse
    simp [hidx]

/-- Witness of C4: a `RES` with code 200 and one with code 404 for request 1. -/
theorem C4_response_resolves_the_matching_request_witness :
    (onMessage moduleGlobals { Client.new with sentWebSocketRequests := [criticalRequest] }
      (some (responseWithCode 200))).state.sentWebSocketRequests = [] ∧
    (onMessage moduleGlobals { Client.new with sentWebSocketRequests := [criticalRequest] }
      (some (responseWithCode 200))).state.calls =
        [Call.onSuccess criticalContext (responseWithCode 200).data, Call.complete 0] :=
  have h := (C4_response_resolves_the_matching_request moduleGlobals
    { Client.new with sentWebSocketRequests := [criticalRequest] } (responseWithCode 200)
    (by decide) (by decide)).1 0 criticalRequest (by decide) (by decide)
    (fun b r1 hb hr1 => by
      have : ([criticalRequest] : List SentRequest)[b]? = none :=
        List.getElem?_eq_none (by simp; omega)
      rw [show ({ Client.new with sentWebSocketRequests := [criticalRequest] } :
        Client).sentWebSocketRequests = [criticalRequest] from rfl, this] at hr1
      cases hr1)
  have h2 := h.1 200 (by decide) (by decide) (by decide)
  ⟨h2.2.2, h2.2.1⟩

/-! ## LiveDataManager: claim C2 -/

namespace Record

theorem get_set (r : Record) (key k : String) (v : Value) :
    (r.set key v).get k = if key = k then some v else r.get k := by
  induction r with
  | nil => simp [set, get]
  | cons kv rest ih =>
    obtain ⟨k1, w⟩ := kv
    by_cases h1 : k1 = key
    · subst h1
      by_cases h2 : k1 = k <;> simp [set, get, h2]
    · by_cases h2 : k1 = k
      · subst h2
        simp [set, get, h1, Ne.symm h1]
      · simp [set, get, h1, h2, ih]

theorem mem_keys_iff (r : Record) (k : String) : k ∈ r.keys ↔ (r.get k).isSome = true := by
  induction r with
  | nil => simp [keys, get]
  | cons kv rest ih =>
    obtain ⟨k1, w⟩ := kv
    by_cases h : k1 = k
    · simp [keys, get, h]
    · have ih1 : k ∈ List.map Prod.fst rest ↔ (get rest k).isSome = true := ih
      simp only [keys, List.map_cons, List.mem_cons, get, if_neg h]
      rw [ih1]
      constructor
      · rintro (h1 | h1)
        · exact absurd h1.symm h
        · exact h1
      · exact Or.inr

end Record

/-- Writing the members `ks` of `row` into a record. -/
theorem foldl_merge_get (row : Record) (k : String) :
    ∀ (ks : List String) (t : Record),
      (ks.foldl (fun t key => match row.get key with
          | some v => t.set key v
          | none => t) t).get k =
        if k ∈ ks ∧ (row.get k).isSome = true then row.get k else t.get k := by
  intro ks
  induction ks with
  | nil => intro t; simp
  | cons key rest ih =>
    intro t
    rw [List.foldl_cons, ih]
    by_cases hk : k ∈ rest ∧ (row.get k).isSome = true
    · rw [if_pos hk, if_pos ⟨List.mem_cons_of_mem _ hk.1, hk.2⟩]
    · rw [if_neg hk]
      by_cases hkey : key = k
      · subst hkey
        cases hv : row.get key with
        | none => simp [hv]
        | some v => simp [hv, Record.get_set]
      · have hne : ¬ (k ∈ key :: rest ∧ (row.get k).isSome = true) := by
          rintro ⟨h1, h2⟩
          rcases List.mem_cons.1 h1 with h3 | h3
          · exact hkey h3.symm
          · exact hk ⟨h3, h2⟩
        rw [if_neg hne]
        cases hv : row.get key with
        | none => rfl
        | some v => simp [Record.get_set, hkey]

/-- After a merge every member of `row` has the value `row` gives it, and every
other member of the target is as it was. -/
theorem mergeInto_get (target row : Record) (k : String) :
    (mergeInto target row).get k =
      match row.get k with
      | some v => some v
      | none => target.get k := by
  unfold mergeInto
  rw [foldl_merge_get]
  cases hv : row.get k with
  | none => simp
  | some v =>
    have : k ∈ row.keys := (Record.mem_keys_iff row k).2 (by simp [hv])
    simp [this]

theorem mergeInto_id (idField : String) (target row : Record)
    (h : target.get idField = row.get idField) :
    (mergeInto target row).get idField = target.get idField := by
  rw [mergeInto_get]
  cases hv : row.get idField with
  | none => rfl
  | some v => rw [h, hv]

theorem updateLast_none (p : Record → Bool) (f : Record → Record) (l : List Record) :
    updateLast p f l = none ↔ ∀ x ∈ l, p x = false := by
  induction l with
  | nil => simp [updateLast]
  | cons x rest ih =>
    unfold updateLast
    cases h : updateLast p f rest with
    | some r1 =>
      simp only [false_iff, reduceCtorEq]
      intro hall
      have := ih.2 (fun y hy => hall y (List.mem_cons_of_mem _ hy))
      rw [h] at this
      cases this
    | none =>
      have hrest := ih.1 h
      by_cases hp : p x = true
      · simp only [hp, if_true, false_iff, reduceCtorEq]
        intro hall
        have := hall x (List.mem_cons_self _ _)
        rw [hp] at this
        cases this
      · have hpf : p x = false := by simpa using hp
        simp only [hpf, Bool.false_eq_true, if_false, true_iff]
        intro y hy
        rcases List.mem_cons.1 hy with h1 | h1
        · rw [h1]; exact hpf
        · exact hrest y h1

theorem updateLast_some (p : Record → Bool) (f : Record → Record) (l l1 : List Record)
    (h : updateLast p f l = some l1) :
    ∃ a x b, l = a ++ x :: b ∧ p x = true ∧ (∀ y ∈ b, p y = false) ∧ l1 = a ++ f x :: b := by
  induction l generalizing l1 with
  | nil => simp [updateLast] at h
  | cons x rest ih =>
    unfold updateLast at h
    cases hr : updateLast p f rest with
    | some r1 =>
      rw [hr] at h
      simp only [Option.some.injEq] at h
      obtain ⟨a, y, b, h1, h2, h3, h4⟩ := ih r1 hr
      exact ⟨x :: a, y, b, by rw [h1]; rfl, h2, h3, by rw [← h, h4]; rfl⟩
    | none =>
      rw [hr] at h
      simp only at h
      by_cases hp : p x = true
      · rw [if_pos hp] at h
        simp only [Option.some.injEq] at h
        exact ⟨[], x, rest, rfl, hp, (updateLast_none p f rest).1 hr, by rw [← h]; rfl⟩
      · rw [if_neg hp] at h
        cases h


/-- The two ways an insertion ends: the row is pushed because no element has
its identity, or it is merged into the last element that has. -/
theorem insertRow_cases (idField : String) (l : List Record) (row : Record) :
    (insertRow idField l row = l ++ [row] ∧ ∀ x ∈ l, x.get idField ≠ row.get idField) ∨
    ∃ a x b, l = a ++ x :: b ∧ x.get idField = row.get idField ∧
      (∀ y ∈ b, y.get idField ≠ row.get idField) ∧
      insertRow idField l row = a ++ mergeInto x row :: b := by
  unfold insertRow
  cases h : updateLast (fun t => decide (t.get idField = row.get idField))
      (fun t => mergeInto t row) l with
  | none =>
    left
    refine ⟨rfl, ?_⟩
    intro x hx
    have := (updateLast_none _ _ l).1 h x hx
    simpa using this
  | some l1 =>
    right
    obtain ⟨a, x, b, h1, h2, h3, h4⟩ := updateLast_some _ _ l l1 h
    refine ⟨a, x, b, h1, by simpa using h2, ?_, h4⟩
    intro y hy
    simpa using h3 y hy

/-- Identities never leave the array. -/
theorem insertRow_keeps_ids (idField : String) (l : List Record) (row c : Record)
    (hc : c ∈ l) : ∃ c1 ∈ insertRow idField l row, c1.get idField = c.get idField := by
  rcases insertRow_cases idField l row with ⟨h, -⟩ | ⟨a, x, b, h1, h2, -, h4⟩
  · exact ⟨c, by rw [h]; exact List.mem_append_left _ hc, rfl⟩
  · rw [h4]
    rw [h1] at hc
    rcases List.mem_append.1 hc with h5 | h5
    · exact ⟨c, List.mem_append_left _ h5, rfl⟩
    · rcases List.mem_cons.1 h5 with h6 | h6
      · subst h6
        exact ⟨mergeInto c row, List.mem_append_right _ (List.mem_cons_self _ _),
          mergeInto_id idField c row h2⟩
      · exact ⟨c, List.mem_append_right _ (List.mem_cons_of_mem _ h6), rfl⟩

/-- The inserted row is in the array afterwards, with all its members. -/
theorem insertRow_carries (idField : String) (l : List Record) (row : Record) :
    ∃ c ∈ insertRow idField l row, c.get idField = row.get idField ∧
      ∀ k v, row.get k = some v → c.get k = some v := by
  rcases insertRow_cases idField l row with ⟨h, -⟩ | ⟨a, x, b, -, h2, -, h4⟩
  · exact ⟨row, by rw [h]; simp, rfl, fun _ _ h => h⟩
  · refine ⟨mergeInto x row, by rw [h4]; simp, ?_, ?_⟩
    · rw [mergeInto_id idField x row h2, h2]
    · intro k v hk
      rw [mergeInto_get, hk]

/-- Rows of another identity are not touched. -/
theorem insertRow_other (idField : String) (l : List Record) (row c : Record)
    (hc : c ∈ l) (hne : c.get idField ≠ row.get idField) : c ∈ insertRow idField l row := by
  rcases insertRow_cases idField l row with ⟨h, -⟩ | ⟨a, x, b, h1, h2, -, h4⟩
  · rw [h]; exact List.mem_append_left _ hc
  · rw [h4]
    rw [h1] at hc
    rcases List.mem_append.1 hc with h5 | h5
    · exact List.mem_append_left _ h5
    · rcases List.mem_cons.1 h5 with h6 | h6
      · subst h6
        exact absurd h2 hne
      · exact List.mem_append_right _ (List.mem_cons_of_mem _ h6)

/-- Inserting a row keeps the identities of the array pairwise distinct. -/
theorem insertRow_nodup (idField : String) (l : List Record) (row : Record)
    (h : (l.map fun r => r.get idField).Nodup) :
    ((insertRow idField l row).map fun r => r.get idField).Nodup := by
  rcases insertRow_cases idField l row with ⟨h1, h2⟩ | ⟨a, x, b, h1, h2, -, h4⟩
  · rw [h1, List.map_append, List.nodup_append]
    refine ⟨h, by simp, ?_⟩
    intro v hv1 hv2
    simp only [List.map_cons, List.map_nil, List.mem_singleton] at hv2
    obtain ⟨x, hx, hxv⟩ := List.mem_map.1 hv1
    exact h2 x hx (by rw [hxv, hv2])
  · rw [h4]
    rw [h1] at h
    simpa [mergeInto_id idField x row h2] using h

theorem insertRows_keeps_ids (idField : String) (l nd : List Record) (c : Record)
    (hc : c ∈ l) : ∃ c1 ∈ insertRows idField l nd, c1.get idField = c.get idField := by
  induction nd with
  | nil => exact ⟨c, hc, rfl⟩
  | cons row rest ih =>
    obtain ⟨c1, hc1, hid1⟩ := ih
    obtain ⟨c2, hc2, hid2⟩ := insertRow_keeps_ids idField (insertRows idField l rest) row c1 hc1
    exact ⟨c2, hc2, by rw [hid2, hid1]⟩

theorem insertRows_carries (idField : String) (l nd : List Record)
    (hnd : (nd.map fun r => r.get idField).Nodup) (r : Record) (hr : r ∈ nd) :
    ∃ c ∈ insertRows idField l nd, c.get idField = r.get idField ∧
      ∀ k v, r.get k = some v → c.get k = some v := by
  induction nd with
  | nil => cases hr
  | cons row rest ih =>
    rw [List.map_cons, List.nodup_cons] at hnd
    rcases List.mem_cons.1 hr with h1 | h1
    · subst h1
      exact insertRow_carries idField (insertRows idField l rest) r
    · obtain ⟨c, hc, hid, hcar⟩ := ih hnd.2 h1
      have hne : c.get idField ≠ row.get idField := by
        intro e
        apply hnd.1
        rw [← e, hid]
        exact List.mem_map_of_mem _ h1
      exact ⟨c, insertRow_other idField _ row c hc hne, hid, hcar⟩


theorem LDMcallUpdate_fields (s : LDM) :
    (LDMcallUpdate s).slain = s.slain ∧ (LDMcallUpdate s).requestCount = s.requestCount ∧
    (LDMcallUpdate s).options = s.options ∧ (LDMcallUpdate s).data = s.data ∧
    (LDMcallUpdate s).calls = s.calls := by
  unfold LDMcallUpdate
  split <;> simp

/-- A streamed message keeps the manager alive, in its generation, and its
cache free of duplicate identities. -/
theorem onNewMessage_streaming (o : LDMOptions) (n : Nat) (s : LDM) (entity : Record)
    (cancels : Notice → Bool) (h : Streaming o n s) :
    Streaming o n (LDMonNewMessage s entity cancels).state := by
  obtain ⟨h1, h2, h3, d, h4, h5⟩ := h
  have hins : ∀ e : Record, ((insertRows o.idField d [e]).map fun r => r.get o.idField).Nodup :=
    fun e => insertRow_nodup o.idField d e h5
  have hcu : ∀ (t : LDM) (d1 : List Record), t.slain = false → t.requestCount = n →
      t.options = some o → (d1.map fun r => r.get o.idField).Nodup →
      Streaming o n { LDMcallUpdate t with data := some d1 } := by
    intro t d1 ha hb hc hd
    have hf := LDMcallUpdate_fields t
    exact ⟨by simpa [hf.1] using ha, by simpa [hf.2.1] using hb, by simpa [hf.2.2.1] using hc,
      d1, rfl, hd⟩
  unfold LDMonNewMessage
  rw [h4, h3]
  simp only
  repeat' split
  all_goals first
    | exact ⟨h1, h2, rfl, d, rfl, h5⟩
    | exact hcu _ _ h1 h2 rfl (hins _)
    | exact hcu _ _ h1 h2 rfl (h5.sublist ((List.eraseIdx_sublist d _).map _))

/-- A streamed message is handled without an exception while the manager is
alive and has its cache. -/
theorem onNewMessage_returns (o : LDMOptions) (n : Nat) (s : LDM) (entity : Record)
    (cancels : Notice → Bool) (h : Streaming o n s) :
    (LDMonNewMessage s entity cancels).thrown = none := by
  obtain ⟨-, -, h3, d, h4, -⟩ := h
  unfold LDMonNewMessage
  rw [h4, h3]
  simp only
  repeat' split
  all_goals rfl

theorem stream_streaming (o : LDMOptions) (n : Nat) (messages : List Streamed) (s : LDM)
    (h : Streaming o n s) : Streaming o n (stream s messages) := by
  induction messages generalizing s with
  | nil => exact h
  | cons m rest ih =>
    exact ih _ (onNewMessage_streaming o n s m.entity m.cancels h)

/-- The options the constructor stores. -/
theorem construct_streaming (options : LDMOptions) :
    ∃ o : LDMOptions, o.idField = options.idField ∧ Streaming o 1 (LDM.construct options) :=
  ⟨{ options with
      onUpdate := some (options.onUpdate.getD noop)
      onSuccess := some (options.onSuccess.getD noop)
      onFailure := some (options.onFailure.getD noop) },
    rfl, rfl, rfl, rfl, [], rfl, List.nodup_nil⟩

/-- The bulk read of the current generation merges the streamed cache into the
bulk result. -/
theorem bulkOnSuccess_ok (o : LDMOptions) (s : LDM) (d bulk : List Record)
    (additional : Option String) (h1 : s.slain = false) (h3 : s.options = some o)
    (h4 : s.data = some d) :
    (bulkOnSuccess s s.requestCount
      { state := some "OK", data := some (some bulk), additional := additional }).thrown = none ∧
    (bulkOnSuccess s s.requestCount
      { state := some "OK", data := some (some bulk), additional := additional }).state.data =
        some (insertRows o.idField bulk d) := by
  unfold bulkOnSuccess
  rw [if_neg (by simp [h1])]
  simp only [if_true, h3, h4]
  cases d with
  | nil => simp [LDMinsertWithoutDuplication, insertRows]
  | cons row rest => simp [LDMinsertWithoutDuplication]

/-- C2, as stated, fails on its example: the streamed creation reaches the cache
with its `crud` tag, so the cache after the bulk read is not the one the
specification gives; and the record without a tag is no creation at all, so
the bulk snapshot is kept for identity 5. -/
theorem C2_counterexample :
    (bulkOnSuccess
        (stream (LDM.construct sitesOptions)
          [{ entity := scenarioCreation, cancels := fun _ => false }]) 1
        { state := some "OK", data := some (some scenarioBulk), additional := none }).state.data
      ≠ some scenarioClaimedCache ∧
    (bulkOnSuccess
        (stream (LDM.construct sitesOptions)
          [{ entity := [("locationID", .int 5), ("name", .str "A")], cancels := fun _ => false }]) 1
        { state := some "OK", data := some (some scenarioBulk), additional := none }).state.data
      = some scenarioBulk := by
  decide

/-- `reset` on a manager that is alive starts a new generation with an empty
cache. -/
theorem reset_streaming (s0 : LDM) (o : LDMOptions) (params : Token)
    (newTopics : Option (List String)) (halive : s0.slain = false)
    (hopts : s0.options = some o) (hdata : s0.data ≠ none) :
    ∃ o1 : LDMOptions, o1.idField = o.idField ∧
      Streaming o1 (s0.requestCount + 1) (s0.reset params newTopics).state := by
  cases hd : s0.data with
  | none => exact absurd hd hdata
  | some d0 =>
    refine ⟨{ o with subscribeTopics := newTopics.getD o.subscribeTopics, params := params },
      rfl, ?_⟩
    unfold LDM.reset
    rw [hd, hopts]
    exact ⟨halive, rfl, rfl, [], rfl, List.nodup_nil⟩

/-- The merge of the streamed cache under the bulk result, in any state that is
alive and whose cache has pairwise distinct identities. -/
theorem bulkMerged_of_streaming (o : LDMOptions) (n : Nat) (s : LDM) (hs : Streaming o n s)
    (bulk : List Record) (additional : Option String) :
    BulkMerged o.idField s bulk additional := by
  obtain ⟨h1, -, h3, d, h4, h5⟩ := hs
  obtain ⟨hok1, hok2⟩ := bulkOnSuccess_ok o s d bulk additional h1 h3 h4
  exact ⟨d, insertRows o.idField bulk d, h4, hok1, hok2,
    fun r hr => insertRows_keeps_ids o.idField bulk d r hr,
    fun r hr => insertRows_carries o.idField bulk d h5 r hr⟩

/-- C2, amended: when the bulk read of the current generation completes with
state `OK` and the array `bulk`, after any sequence of streamed messages since
the construction or since a `reset`, the call returns and the cache holds a
record for every identity of `bulk` and for every identity of the cache built
from the stream, the latter with every member of the streamed record; in the
scenario the streamed creation carries its tag `crud: 1`, and the cache is
`[{locationID:5,name:"A",crud:1},{locationID:6,name:"B"}]`. -/
theorem C2_bulk_read_keeps_streamed_values (options : LDMOptions) (s0 : LDM)
    (o : LDMOptions) (params : Token) (newTopics : Option (List String))
    (messages : List Streamed) (bulk : List Record) (additional : Option String) :
    BulkMerged options.idField (stream (LDM.construct options) messages) bulk additional ∧
    (s0.slain = false → s0.options = some o → s0.data ≠ none →
      BulkMerged o.idField (stream (s0.reset params newTopics).state messages) bulk
        additional) ∧
    (bulkOnSuccess
        (stream (LDM.construct sitesOptions)
          [{ entity := scenarioCreation, cancels := fun _ => false }]) 1
        { state := some "OK", data := some (some scenarioBulk), additional := none }).state.data
      = some [[("locationID", .int 5), ("name", .str "A"), ("crud", .int 1)],
          [("locationID", .int 6), ("name", .str "B")]] := by
  refine ⟨?_, ?_, by decide⟩
  · obtain ⟨o1, hid, hs⟩ := construct_streaming options
    rw [← hid]
    exact bulkMerged_of_streaming o1 1 _ (stream_streaming o1 1 messages _ hs) bulk additional
  · intro halive hopts hdata
    obtain ⟨o1, hid, hs⟩ := reset_streaming s0 o params newTopics halive hopts hdata
    rw [← hid]
    exact bulkMerged_of_streaming o1 _ _ (stream_streaming o1 _ messages _ hs) bulk additional

/-- Witness of C2: the scenario, once from the construction and once after a
`reset` of the constructed manager. -/
theorem C2_bulk_read_keeps_streamed_values_witness :
    BulkMerged "locationID"
      (stream (LDM.construct sitesOptions)
        [{ entity := scenarioCreation, cancels := fun _ => false }]) scenarioBulk none ∧
    BulkMerged "locationID"
      (stream ((LDM.construct sitesOptions).reset 0 none).state
        [{ entity := scenarioCreation, cancels := fun _ => false }]) scenarioBulk none :=
  have h := C2_bulk_read_keeps_streamed_values sitesOptions (LDM.construct sitesOptions)
    { sitesOptions with onUpdate := some noop, onSuccess := some noop, onFailure := some noop }
    0 none [{ entity := scenarioCreation, cancels := fun _ => false }] scenarioBulk none
  ⟨h.1, h.2.1 rfl rfl (by decide)⟩
/-! ## JobQueue: claims C11 to C14 -/

namespace JobQueue

/-- The successful outcomes of an event, one by one. -/
theorem step_ok_cases (s s1 : JobQueue) (op : JQOp) (h : s.step op = .ok s1) :
    (∃ job context, op = .enqueue job context ∧
      ((s.started = false ∧ s1 = s.pushed job context) ∨
        (s.started = true ∧ s1 = JQ_beginJob (s.pushed job context)))) ∨
    (∃ q, op = .setLimit (.num q) ∧ ¬ q < 1 ∧ s1 = { s with concurrentLimit := q }) ∨
    (op = .start ∧ s.started = false ∧
      ((0 < s.queueLength ∧ s1 = JQ_beginJob { s with started := true }) ∨
        (¬ 0 < s.queueLength ∧ s.onCompleteQueue.isSome = true ∧
          s1 = { s with started := true, drainCalls := s.drainCalls + 1 }) ∨
        (¬ 0 < s.queueLength ∧ s.onCompleteQueue.isSome = false ∧
          s1 = { s with started := true }))) ∨
    (∃ v, op = .onAbort v ∧ s1 = s.onAbort v) ∨
    (∃ v, op = .onComplete v ∧ s1 = s.onComplete v) ∨
    (∃ j rest, op = .tick ∧ s.timers = some j :: rest ∧
      s1 = { s with timers := rest, runLog := s.runLog ++ [j] }) ∨
    (∃ j job, op = .complete j ∧ j ∈ s.runLog ∧ s.jobs[j]? = some job ∧ job.completed = false ∧
      (((s.finished j job).queueLength = 0 ∧ (s.finished j job).activeJobs = 0 ∧
          s.onCompleteQueue.isSome = true ∧
          s1 = { s.finished j job with drainCalls := s.drainCalls + 1 }) ∨
        ((s.finished j job).queueLength = 0 ∧ (s.finished j job).activeJobs = 0 ∧
          s.onCompleteQueue.isSome = false ∧ s1 = s.finished j job) ∨
        (¬ ((s.finished j job).queueLength = 0 ∧ (s.finished j job).activeJobs = 0) ∧
          s1 = JQ_beginJob (s.finished j job)))) ∨
    (∃ about, op = .abort about ∧ s.runLog ≠ [] ∧ s1 = s.abort about) := by
  cases op with
  | enqueue job context =>
    left
    simp only [step, Except.ok.injEq] at h
    subst h
    refine ⟨job, context, rfl, ?_⟩
    unfold enqueue
    by_cases hs : s.started = true
    · right
      have : (s.pushed job context).started = true := hs
      exact ⟨hs, by rw [if_pos this]⟩
    · left
      have : ¬ (s.pushed job context).started = true := hs
      exact ⟨by simpa using hs, by rw [if_neg this]⟩
  | setLimit v =>
    right; left
    simp only [step, setLimit] at h
    split at h
    · cases h
    · cases h
    · rename_i q
      split at h
      · cases h
      · rename_i hq
        simp only [Except.ok.injEq] at h
        exact ⟨q, rfl, hq, h.symm⟩
  | start =>
    right; right; left
    simp only [step, start] at h
    split at h
    · cases h
    · rename_i hs
      refine ⟨rfl, by simpa using hs, ?_⟩
      split at h
      · rename_i hq
        simp only [Except.ok.injEq] at h
        exact Or.inl ⟨hq, h.symm⟩
      · rename_i hq
        split at h
        · rename_i ho
          simp only [Except.ok.injEq] at h
          exact Or.inr (Or.inl ⟨hq, ho, h.symm⟩)
        · rename_i ho
          simp only [Except.ok.injEq] at h
          exact Or.inr (Or.inr ⟨hq, by simpa using ho, h.symm⟩)
  | onAbort v =>
    right; right; right; left
    simp only [step, Except.ok.injEq] at h
    exact ⟨v, rfl, h.symm⟩
  | onComplete v =>
    right; right; right; right; left
    simp only [step, Except.ok.injEq] at h
    exact ⟨v, rfl, h.symm⟩
  | tick =>
    right; right; right; right; right; left
    simp only [step, tick] at h
    split at h
    · cases h
    · cases h
    · rename_i j rest heq
      simp only [Except.ok.injEq] at h
      exact ⟨j, rest, rfl, heq, h.symm⟩
  | complete j =>
    right; right; right; right; right; right; left
    simp only [step] at h
    split at h
    · rename_i hj
      cases hjob : s.jobs[j]? with
      | none => simp [complete, hjob] at h
      | some job =>
        cases hc : job.completed with
        | true => simp [complete, hjob, hc] at h
        | false =>
          refine ⟨j, job, rfl, hj, hjob, hc, ?_⟩
          rw [complete_eq s j job hjob hc] at h
          split at h
          · rename_i hz
            split at h
            · rename_i ho
              simp only [Except.ok.injEq] at h
              exact Or.inl ⟨hz.1, hz.2, ho, h.symm⟩
            · rename_i ho
              simp only [Except.ok.injEq] at h
              exact Or.inr (Or.inl ⟨hz.1, hz.2, by simpa using ho, h.symm⟩)
          · rename_i hz
            simp only [Except.ok.injEq] at h
            exact Or.inr (Or.inr ⟨hz, h.symm⟩)
    · cases h
  | abort about =>
    right; right; right; right; right; right; right
    simp only [step] at h
    split at h
    · cases h
    · rename_i hr
      simp only [Except.ok.injEq] at h
      exact ⟨about, rfl, hr, h.symm⟩

/-- The scheduling loop keeps the running jobs within a whole-number limit. -/
theorem beginLoop_withinLimit (fuel : Nat) (s : JobQueue) (h : WithinLimit s) :
    WithinLimit (beginLoop fuel s) := by
  induction fuel generalizing s with
  | zero => simpa [beginLoop] using h
  | succ k ih =>
    unfold beginLoop
    split
    · rename_i hc
      apply ih
      obtain ⟨h1, h2⟩ := h
      refine ⟨h1, ?_⟩
      show ((s.activeJobs + 1 : Int) : ℚ) ≤ s.concurrentLimit
      have hlt : (s.activeJobs : ℚ) < s.concurrentLimit := hc.2.2.1
      have hnum : (s.concurrentLimit.num : ℚ) = s.concurrentLimit :=
        (Rat.den_eq_one_iff _).1 h1
      rw [← hnum] at hlt ⊢
      have : s.activeJobs < s.concurrentLimit.num := by exact_mod_cast hlt
      exact_mod_cast (show s.activeJobs + 1 ≤ s.concurrentLimit.num by omega)
    · exact h

/-- Fields an abort function never assigns. -/
theorem abort_fields (s : JobQueue) (about : Token) :
    (s.abort about).activeJobs = s.activeJobs ∧
    (s.abort about).concurrentLimit = s.concurrentLimit ∧
    (s.abort about).queue = s.queue ∧ (s.abort about).queueLength = s.queueLength ∧
    (s.abort about).jobs = s.jobs ∧ (s.abort about).timers = s.timers ∧
    (s.abort about).scheduledLog = s.scheduledLog ∧ (s.abort about).runLog = s.runLog ∧
    (s.abort about).started = s.started ∧ (s.abort about).drainCalls = s.drainCalls ∧
    (s.abort about).onAbortQueue = s.onAbortQueue ∧
    (s.abort about).onCompleteQueue = s.onCompleteQueue ∧
    (s.abort about).enqueued = s.enqueued ∧ (s.abort about).completed = s.completed := by
  unfold abort
  by_cases h1 : s.aborted = false <;> by_cases h2 : s.onAbortQueue.isSome = true <;>
    simp [h1, h2]

theorem step_withinLimit (s s1 : JobQueue) (op : JQOp) (hop : limitRespected s op = true)
    (h : WithinLimit s) (hstep : s.step op = .ok s1) : WithinLimit s1 := by
  have hfin : ∀ j job, WithinLimit (s.finished j job) := by
    intro j job
    refine ⟨h.1, ?_⟩
    show ((s.activeJobs - 1 : Int) : ℚ) ≤ s.concurrentLimit
    have := h.2
    push_cast
    linarith
  rcases step_ok_cases s s1 op hstep with
    ⟨job, context, -, ⟨-, rfl⟩ | ⟨-, rfl⟩⟩ | ⟨q, rfl, hq, rfl⟩ |
    ⟨-, -, ⟨-, rfl⟩ | ⟨-, -, rfl⟩ | ⟨-, -, rfl⟩⟩ | ⟨v, -, rfl⟩ | ⟨v, -, rfl⟩ |
    ⟨j, rest, -, -, rfl⟩ |
    ⟨j, job, -, -, -, -, ⟨-, -, -, rfl⟩ | ⟨-, -, -, rfl⟩ | ⟨-, rfl⟩⟩ | ⟨about, -, -, rfl⟩
  · exact h
  · exact beginLoop_withinLimit _ _ h
  · simp only [limitRespected, Bool.or_eq_true, decide_eq_true_eq, Bool.and_eq_true] at hop
    rcases hop with hop | hop
    · exact absurd hop hq
    · exact hop
  · exact beginLoop_withinLimit _ _ h
  · exact h
  · exact h
  · exact h
  · exact h
  · exact h
  · exact hfin j job
  · exact hfin j job
  · exact beginLoop_withinLimit _ _ (hfin j job)
  · have hf := abort_fields s about
    exact ⟨by rw [hf.2.1]; exact h.1, by rw [hf.1, hf.2.1]; exact h.2⟩

theorem run_withinLimit (ops : List JQOp) (s : JobQueue) (hops : limitsRespected s ops = true)
    (h : WithinLimit s) : WithinLimit (s.run ops) := by
  induction ops generalizing s with
  | nil => exact h
  | cons op rest ih =>
    simp only [limitsRespected, Bool.and_eq_true] at hops
    exact ih (s.next op) hops.2
      (next_of_step _ s op h (fun s1 h1 => step_withinLimit s s1 op hops.1 h h1))

/-- C11, as stated, fails: `setLimit` can lower the limit below the number of
active jobs (two jobs active, limit set to 1), and it accepts 1.5, under which
two jobs become active. -/
theorem C11_counterexample :
    ((new.run [.setLimit (.num 2), .enqueue 7 1, .enqueue 7 2, .start,
        .setLimit (.num 1)]).concurrentLimit : ℚ) <
      ((new.run [.setLimit (.num 2), .enqueue 7 1, .enqueue 7 2, .start,
        .setLimit (.num 1)]).activeJobs : ℚ) ∧
    ((new.run [.setLimit (.num threeHalves), .enqueue 7 1, .enqueue 7 2,
        .start]).concurrentLimit : ℚ) <
      ((new.run [.setLimit (.num threeHalves), .enqueue 7 1, .enqueue 7 2,
        .start]).activeJobs : ℚ) := by
  decide

/-- C11, amended: after every sequence of events `0 ≤ activeJobs` and
`activeJobs ≤ queue.length` (which is `queueLength`); and `activeJobs ≤
concurrentLimit` holds whenever every `setLimit` of the sequence sets a whole
number that is not below the number of jobs active when it is called. -/
theorem C11_active_jobs_between_zero_and_queue_length (ops : List JQOp) :
    0 ≤ (new.run ops).activeJobs ∧
    (new.run ops).activeJobs ≤ (new.run ops).queue.length ∧
    (new.run ops).queueLength = (new.run ops).queue.length ∧
    (limitsRespected new ops = true →
      ((new.run ops).activeJobs : ℚ) ≤ (new.run ops).concurrentLimit) := by
  have hinv := run_inv ops
  obtain ⟨act, hq, ha, -, -, -⟩ := hinv.split
  refine ⟨by omega, ?_, hinv.len, ?_⟩
  · rw [hq, ha, List.length_append]
    push_cast
    omega
  · intro hops
    exact (run_withinLimit ops new hops ⟨rfl, by simp [new]⟩).2

/-- Witness of C11: the limit is raised from 1 to 2 while one job is active. -/
theorem C11_active_jobs_between_zero_and_queue_length_witness :
    ((new.run [.setLimit (.num 1), .enqueue 7 1, .enqueue 7 2, .start,
        .setLimit (.num 2), .enqueue 7 3]).activeJobs : ℚ) ≤
      (new.run [.setLimit (.num 1), .enqueue 7 1, .enqueue 7 2, .start,
        .setLimit (.num 2), .enqueue 7 3]).concurrentLimit :=
  (C11_active_jobs_between_zero_and_queue_length
    [.setLimit (.num 1), .enqueue 7 1, .enqueue 7 2, .start, .setLimit (.num 2),
      .enqueue 7 3]).2.2.2 (by decide)

/-- C12, as stated, fails: `setLimit(1.5)` is accepted although 1.5, which lies
strictly between 1 and 2, is no positive integer. -/
theorem C12_counterexample :
    1 < threeHalves ∧ threeHalves < 2 ∧ threeHalves.den ≠ 1 ∧
    (new.setLimit (.num threeHalves)).toOption.map (fun t => t.concurrentLimit)
      = some threeHalves := by
  decide

/-- C12, amended: `setLimit(n)` throws the invalid-limit error exactly when `n`
is `undefined`, `NaN` or a number below 1; for every other number, whole or
not, it sets `concurrentLimit` to `n` and changes no other field. -/
theorem C12_setLimit_rejects_exactly_below_one (s : JobQueue) (v : JSNumber) :
    (s.setLimit v = .error (.error "JobQueue: Invalid value for limit.") ↔
      (v = .undefined ∨ v = .nan ∨ ∃ q, v = .num q ∧ q < 1)) ∧
    (∀ q, v = .num q → ¬ q < 1 → s.setLimit v = .ok { s with concurrentLimit := q }) := by
  cases v with
  | undefined => simp [setLimit]
  | nan => simp [setLimit]
  | num q =>
    by_cases hq : q < 1
    · simp [setLimit, hq]
    · simp [setLimit, hq]

/-- A queue that was started stays started. -/
theorem step_started (s s1 : JobQueue) (op : JQOp) (h : s.started = true)
    (hstep : s.step op = .ok s1) : s1.started = true := by
  have hloop : ∀ t : JobQueue, t.started = true → (JQ_beginJob t).started = true := by
    intro t ht
    rw [JQ_beginJob, (beginLoop_frame _ _).2.2.2.2.2.1]
    exact ht
  rcases step_ok_cases s s1 op hstep with
    ⟨job, context, -, ⟨-, rfl⟩ | ⟨-, rfl⟩⟩ | ⟨q, -, -, rfl⟩ |
    ⟨-, -, ⟨-, rfl⟩ | ⟨-, -, rfl⟩ | ⟨-, -, rfl⟩⟩ | ⟨v, -, rfl⟩ | ⟨v, -, rfl⟩ |
    ⟨j, rest, -, -, rfl⟩ |
    ⟨j, job, -, -, -, -, ⟨-, -, -, rfl⟩ | ⟨-, -, -, rfl⟩ | ⟨-, rfl⟩⟩ | ⟨about, -, -, rfl⟩
  · exact h
  · exact hloop _ h
  · exact h
  · exact hloop _ rfl
  · rfl
  · rfl
  · exact h
  · exact h
  · exact h
  · exact h
  · exact h
  · exact hloop _ h
  · rw [(abort_fields s about).2.2.2.2.2.2.2.2.1]
    exact h

/-- Before `start()` nothing is scheduled, run or notified. -/
theorem step_unstarted (s s1 : JobQueue) (op : JQOp) (h : Unstarted s)
    (hstep : s.step op = .ok s1) : Unstarted s1 := by
  intro hs1
  have hs : s.started = false := by
    cases hst : s.started with
    | false => rfl
    | true =>
      have := step_started s s1 op hst hstep
      rw [hs1] at this
      cases this
  obtain ⟨h1, h2, h3, h4, h5⟩ := h hs
  rcases step_ok_cases s s1 op hstep with
    ⟨job, context, -, ⟨-, rfl⟩ | ⟨hst, -⟩⟩ | ⟨q, -, -, rfl⟩ |
    ⟨-, -, ⟨-, rfl⟩ | ⟨-, -, rfl⟩ | ⟨-, -, rfl⟩⟩ | ⟨v, -, rfl⟩ | ⟨v, -, rfl⟩ |
    ⟨j, rest, -, ht, -⟩ |
    ⟨j, job, -, hj, -⟩ | ⟨about, -, hr, -⟩
  · exact ⟨h1, h2, h3, h4, h5⟩
  · rw [hs] at hst; cases hst
  · exact ⟨h1, h2, h3, h4, h5⟩
  · have := (beginLoop_frame ((({ s with started := true } : JobQueue).queueLength -
      ({ s with started := true } : JobQueue).activeJobs).toNat)
      { s with started := true }).2.2.2.2.2.1
    rw [JQ_beginJob, this] at hs1
    cases hs1
  · cases hs1
  · cases hs1
  · exact ⟨h1, h2, h3, h4, h5⟩
  · exact ⟨h1, h2, h3, h4, h5⟩
  · rw [h2] at ht; cases ht
  · rw [h3] at hj; cases hj
  · exact absurd h3 hr

theorem run_unstarted (ops : List JQOp) : Unstarted (new.run ops) :=
  run_of_next Unstarted (fun _ => True)
    (fun s op _ hs => next_of_step _ s op hs (fun s1 h1 => step_unstarted s s1 op hs h1))
    ops new (fun _ _ => trivial) (fun _ => ⟨rfl, rfl, rfl, rfl, rfl⟩)

/-- A started queue without jobs stays as it is until a job is enqueued. -/
theorem step_idle (n : Nat) (s s1 : JobQueue) (op : JQOp) (hop : isEnqueue op = false)
    (h : Idle n s) (hstep : s.step op = .ok s1) : Idle n s1 := by
  obtain ⟨h1, h2, h3, h4, h5, h6, h7⟩ := h
  rcases step_ok_cases s s1 op hstep with
    ⟨job, context, rfl, -⟩ | ⟨q, -, -, rfl⟩ |
    ⟨-, hst, -⟩ | ⟨v, -, rfl⟩ | ⟨v, -, rfl⟩ |
    ⟨j, rest, -, ht, -⟩ |
    ⟨j, job, -, hj, -⟩ | ⟨about, -, hr, -⟩
  · cases hop
  · exact ⟨h1, h2, h3, h4, h5, h6, h7⟩
  · rw [h1] at hst; cases hst
  · exact ⟨h1, h2, h3, h4, h5, h6, h7⟩
  · exact ⟨h1, h2, h3, h4, h5, h6, h7⟩
  · rw [h6] at ht; cases ht
  · rw [h5] at hj; cases hj
  · exact absurd h5 hr

theorem run_idle (n : Nat) (ops : List JQOp) (s : JobQueue)
    (hops : ∀ op ∈ ops, isEnqueue op = false) (h : Idle n s) : Idle n (s.run ops) :=
  run_of_next (Idle n) (fun op => isEnqueue op = false)
    (fun t op hq ht => next_of_step _ t op ht (fun t1 h1 => step_idle n t t1 op hq ht h1))
    ops s hops h

/-- C13, as stated, fails: with a registered `onComplete` handler, `start()` on
an empty queue has called the handler when it returns, and has left no timer
behind that could call it on a later tick. -/
theorem C13_counterexample :
    ((new.onComplete (some 1)).start).toOption.map (fun t => (t.drainCalls, t.timers))
      = some (1, []) ∧
    (new.onComplete (some 1)).drainCalls = 0 := by
  decide

/-- C13, amended: when `start()` is called on a queue that was not started, has
no queued job and has a registered `onComplete` handler, the handler is called
exactly once, and it is called inside `start()`: the drain count is 0 before
the call and 1 when it returns, no timer is pending, and the count stays 1
through every later sequence of events that enqueues nothing. -/
theorem C13_start_on_empty_queue_notifies_synchronously (before later : List JQOp)
    (hstarted : (new.run before).started = false)
    (hempty : (new.run before).queueLength = 0)
    (hhandler : (new.run before).onCompleteQueue.isSome = true)
    (hlater : ∀ op ∈ later, isEnqueue op = false) :
    ∃ s1, (new.run before).step .start = .ok s1 ∧
      (new.run before).drainCalls = 0 ∧ s1.drainCalls = 1 ∧ s1.timers = [] ∧
      (s1.run later).drainCalls = 1 := by
  have hinv := run_inv before
  have hun := run_unstarted before hstarted
  generalize new.run before = s at *
  obtain ⟨h1, h2, h3, h4, h5⟩ := hun
  have hq : s.queue = [] := by
    have := hinv.len
    rw [hempty] at this
    exact List.length_eq_zero.1 (by exact_mod_cast this.symm)
  have hstep : s.step .start = .ok { s with started := true, drainCalls := s.drainCalls + 1 } := by
    simp only [step, start, hstarted, Bool.false_eq_true, if_false, hempty, lt_self_iff_false,
      hhandler, if_true]
  have hidle : Idle 1 { s with started := true, drainCalls := s.drainCalls + 1 } :=
    ⟨rfl, hq, hempty, h5, h3, h2, by show s.drainCalls + 1 = 1; omega⟩
  exact ⟨_, hstep, h4, hidle.2.2.2.2.2.2, h2, (run_idle 1 later _ hlater hidle).2.2.2.2.2.2⟩

/-- Witness of C13: a handler is registered, the limit is set, and the empty
queue is started; a later `setLimit` and a second `start()` change nothing. -/
theorem C13_start_on_empty_queue_notifies_synchronously_witness :
    ∃ s1, (new.run [.onComplete (some 1), .setLimit (.num 3)]).step .start = .ok s1 ∧
      (new.run [.onComplete (some 1), .setLimit (.num 3)]).drainCalls = 0 ∧
      s1.drainCalls = 1 ∧ s1.timers = [] ∧
      (s1.run [.setLimit (.num 2), .start, .tick]).drainCalls = 1 :=
  C13_start_on_empty_queue_notifies_synchronously [.onComplete (some 1), .setLimit (.num 3)]
    [.setLimit (.num 2), .start, .tick] (by decide) (by decide) (by decide) (by decide)

/-- An abort function called on an aborted queue returns at once. -/
theorem abort_again (s : JobQueue) (about : Token) (h : s.aborted = true) :
    s.abort about = s := by
  simp [abort, h]

/-- An aborted queue stays aborted, and its abort handler is not called again. -/
theorem step_aborted (s s1 : JobQueue) (op : JQOp) (h : s.aborted = true)
    (hstep : s.step op = .ok s1) : s1.aborted = true ∧ s1.abortCalls = s.abortCalls := by
  have hloop : ∀ t : JobQueue, (JQ_beginJob t).aborted = t.aborted ∧
      (JQ_beginJob t).abortCalls = t.abortCalls := by
    intro t
    have hf := beginLoop_frame (t.queueLength - t.activeJobs).toNat t
    exact ⟨hf.2.2.2.2.2.2.1, hf.2.2.2.2.2.2.2.2.2.2.2.2⟩
  rcases step_ok_cases s s1 op hstep with
    ⟨job, context, -, ⟨-, rfl⟩ | ⟨-, rfl⟩⟩ | ⟨q, -, -, rfl⟩ |
    ⟨-, -, ⟨-, rfl⟩ | ⟨-, -, rfl⟩ | ⟨-, -, rfl⟩⟩ | ⟨v, -, rfl⟩ | ⟨v, -, rfl⟩ |
    ⟨j, rest, -, -, rfl⟩ |
    ⟨j, job, -, -, -, -, ⟨-, -, -, rfl⟩ | ⟨-, -, -, rfl⟩ | ⟨-, rfl⟩⟩ | ⟨about, -, -, rfl⟩
  · exact ⟨h, rfl⟩
  · exact ⟨(hloop _).1.trans h, (hloop _).2⟩
  · exact ⟨h, rfl⟩
  · exact ⟨(hloop _).1.trans h, (hloop _).2⟩
  · exact ⟨h, rfl⟩
  · exact ⟨h, rfl⟩
  · exact ⟨h, rfl⟩
  · exact ⟨h, rfl⟩
  · exact ⟨h, rfl⟩
  · exact ⟨h, rfl⟩
  · exact ⟨h, rfl⟩
  · exact ⟨(hloop _).1.trans h, (hloop _).2⟩
  · rw [abort_again s about h]
    exact ⟨h, rfl⟩

theorem run_aborted (ops : List JQOp) (s : JobQueue) (h : s.aborted = true) :
    (s.run ops).aborted = true ∧ (s.run ops).abortCalls = s.abortCalls :=
  run_of_next (fun t => t.aborted = true ∧ t.abortCalls = s.abortCalls) (fun _ => True)
    (fun t op _ ht =>
      next_of_step (fun t => t.aborted = true ∧ t.abortCalls = s.abortCalls) t op ht
        (fun t1 h1 =>
          ⟨(step_aborted t t1 op ht.1 h1).1, (step_aborted t t1 op ht.1 h1).2.trans ht.2⟩))
    ops s (fun _ _ => trivial) ⟨h, rfl⟩

/-- C14: the first call of an abort function sets `aborted` and calls the
registered abort handler once, with the reason of that call; it leaves the
queue, the job objects and the counters as they are; and through every later
sequence of events, calls of abort functions included, the handler is not
called again, and a call of an abort function returns the state unchanged. -/
theorem C14_only_the_first_abort_has_effect (s : JobQueue) (about later : Token)
    (ops : List JQOp) (hfirst : s.aborted = false) :
    (s.abort about).aborted = true ∧
    (s.abort about).abortCalls =
      s.abortCalls ++ (if s.onAbortQueue.isSome then [about] else []) ∧
    (s.abort about).queue = s.queue ∧ (s.abort about).jobs = s.jobs ∧
    (s.abort about).queueLength = s.queueLength ∧
    (s.abort about).activeJobs = s.activeJobs ∧
    ((s.abort about).run ops).abortCalls = (s.abort about).abortCalls ∧
    ((s.abort about).run ops).abort later = (s.abort about).run ops := by
  have hf := abort_fields s about
  have ha : (s.abort about).aborted = true := by
    unfold abort
    by_cases h2 : s.onAbortQueue.isSome = true <;> simp [hfirst, h2]
  have hc : (s.abort about).abortCalls =
      s.abortCalls ++ (if s.onAbortQueue.isSome then [about] else []) := by
    unfold abort
    by_cases h2 : s.onAbortQueue.isSome = true <;> simp [hfirst, h2]
  have hr := run_aborted ops (s.abort about) ha
  exact ⟨ha, hc, hf.2.2.1, hf.2.2.2.2.1, hf.2.2.2.1, hf.1, hr.2, abort_again _ later hr.1⟩

/-- Witness of C14: two jobs run under a registered abort handler; the first
aborts with reason 5, the second with reason 6 after more events. -/
theorem C14_only_the_first_abort_has_effect_witness :
    ((new.run [.onAbort (some 9), .setLimit (.num 2), .enqueue 7 1, .enqueue 7 2, .start,
        .tick, .tick]).abort 5).abortCalls = [5] ∧
    ((((new.run [.onAbort (some 9), .setLimit (.num 2), .enqueue 7 1, .enqueue 7 2, .start,
        .tick, .tick]).abort 5).run [.abort 6, .complete 0, .enqueue 7 3]).abort 6).abortCalls
      = [5] :=
  have h := C14_only_the_first_abort_has_effect
    (new.run [.onAbort (some 9), .setLimit (.num 2), .enqueue 7 1, .enqueue 7 2, .start,
      .tick, .tick]) 5 6 [.abort 6, .complete 0, .enqueue 7 3] (by decide)
  ⟨by rw [h.2.1]; decide, by rw [h.2.2.2.2.2.2.2, h.2.2.2.2.2.2.1, h.2.1]; decide⟩

end JobQueue

/-! ## Timeout sweep: claims C15 and C16 -/

/-- The locals `nextTimeout` and `runAgain` after the sweep loop over the first
`pre.length` positions of `pre ++ suf`: `nextTimeout` has not grown and is at
most the deadline of every survivor of `pre`; either both locals are as
before, or `runAgain` is set and `nextTimeout` is the deadline of a survivor
of `pre`, below its value before. -/
theorem sweep_fold_timer (selfTimeout timeNow : Nat) (pre : List SentRequest) :
    ∀ (suf : List SentRequest) (st : SweepState), st.sent = pre ++ suf →
      ((List.range pre.length).reverse.foldl (sweepAt selfTimeout timeNow) st).nextTimeout
          ≤ st.nextTimeout ∧
      (∀ r ∈ pre, ¬ deadline selfTimeout r < timeNow →
        ((List.range pre.length).reverse.foldl (sweepAt selfTimeout timeNow) st).nextTimeout
          ≤ deadline selfTimeout r) ∧
      ((((List.range pre.length).reverse.foldl (sweepAt selfTimeout timeNow) st).nextTimeout
            = st.nextTimeout ∧
          ((List.range pre.length).reverse.foldl (sweepAt selfTimeout timeNow) st).runAgain
            = st.runAgain) ∨
        (((List.range pre.length).reverse.foldl (sweepAt selfTimeout timeNow) st).runAgain
            = true ∧
          ((List.range pre.length).reverse.foldl (sweepAt selfTimeout timeNow) st).nextTimeout
            < st.nextTimeout ∧
          ∃ r ∈ pre, ¬ deadline selfTimeout r < timeNow ∧ deadline selfTimeout r =
            ((List.range pre.length).reverse.foldl (sweepAt selfTimeout timeNow)
              st).nextTimeout)) := by
  induction pre using List.reverseRecOn with
  | nil =>
    intro suf st _
    simp
  | append_singleton p x ih =>
    intro suf st h
    have hget : st.sent[p.length]? = some x := by
      rw [h, List.append_assoc, List.getElem?_append_right (Nat.le_refl _)]
      simp
    simp only [List.length_append, List.length_singleton, List.range_succ, List.reverse_append,
      List.reverse_cons, List.reverse_nil, List.nil_append, List.singleton_append,
      List.foldl_cons]
    by_cases hev : x.ts + timeoutAfter selfTimeout x < timeNow
    · have hs : (sweepAt selfTimeout timeNow st p.length).sent = p ++ suf := by
        simp only [sweepAt, hget, if_pos hev]
        rw [h, List.append_assoc, List.eraseIdx_append_of_length_le (Nat.le_refl _)]
        simp
      have hn : (sweepAt selfTimeout timeNow st p.length).nextTimeout = st.nextTimeout := by
        simp only [sweepAt, hget, if_pos hev]
      have hr : (sweepAt selfTimeout timeNow st p.length).runAgain = st.runAgain := by
        simp only [sweepAt, hget, if_pos hev]
      obtain ⟨h1, h2, h3⟩ := ih suf (sweepAt selfTimeout timeNow st p.length) hs
      rw [hn] at h1 h3
      rw [hr] at h3
      refine ⟨h1, ?_, ?_⟩
      · intro r hr1 hkeep
        rcases List.mem_append.1 hr1 with hp | hx
        · exact h2 r hp hkeep
        · simp only [List.mem_singleton] at hx
          subst hx
          exact absurd hev hkeep
      · rcases h3 with h3 | ⟨h4, h5, r, hr1, hr2, hr3⟩
        · exact Or.inl h3
        · exact Or.inr ⟨h4, h5, r, List.mem_append_left _ hr1, hr2, hr3⟩
    · have hs : (sweepAt selfTimeout timeNow st p.length).sent = p ++ (x :: suf) := by
        simp only [sweepAt, hget, if_neg hev]
        split <;> simp [h]
      obtain ⟨h1, h2, h3⟩ := ih (x :: suf) (sweepAt selfTimeout timeNow st p.length) hs
      by_cases hlt : x.ts + timeoutAfter selfTimeout x < st.nextTimeout
      · have hn : (sweepAt selfTimeout timeNow st p.length).nextTimeout =
            deadline selfTimeout x := by
          simp only [sweepAt, hget, if_neg hev, if_pos hlt, deadline]
        have hr : (sweepAt selfTimeout timeNow st p.length).runAgain = true := by
          simp only [sweepAt, hget, if_neg hev, if_pos hlt]
        rw [hn] at h1 h3
        rw [hr] at h3
        have hdx : deadline selfTimeout x < st.nextTimeout := hlt
        refine ⟨by omega, ?_, Or.inr ?_⟩
        · intro r hr1 hkeep
          rcases List.mem_append.1 hr1 with hp | hx
          · exact h2 r hp hkeep
          · simp only [List.mem_singleton] at hx
            subst hx
            exact h1
        · rcases h3 with ⟨h4, h5⟩ | ⟨h4, h5, r, hr1, hr2, hr3⟩
          · exact ⟨h5, by omega, x, by simp, hev, h4.symm⟩
          · exact ⟨h4, by omega, r, List.mem_append_left _ hr1, hr2, hr3⟩
      · have hst : sweepAt selfTimeout timeNow st p.length = st := by
          simp only [sweepAt, hget, if_neg hev, if_neg hlt]
        have hn : (sweepAt selfTimeout timeNow st p.length).nextTimeout = st.nextTimeout := by
          rw [hst]
        have hr : (sweepAt selfTimeout timeNow st p.length).runAgain = st.runAgain := by
          rw [hst]
        rw [hn] at h1 h3
        rw [hr] at h3
        refine ⟨h1, ?_, ?_⟩
        · intro r hr1 hkeep
          rcases List.mem_append.1 hr1 with hp | hx
          · exact h2 r hp hkeep
          · simp only [List.mem_singleton] at hx
            subst hx
            have : st.nextTimeout ≤ deadline selfTimeout r := Nat.le_of_not_lt hlt
            omega
        · rcases h3 with h3 | ⟨h4, h5, r, hr1, hr2, hr3⟩
          · exact Or.inl h3
          · exact Or.inr ⟨h4, h5, r, List.mem_append_left _ hr1, hr2, hr3⟩

/-- C15, as stated, fails: a surviving request whose deadline lies a day or
more after the sweep is not taken into account, so with such a request pending
no further sweep is scheduled. -/
theorem C15_counterexample :
    (COREcheckTimer { Client.new with sentWebSocketRequests := [twoDayRequest] }
      2000).sentWebSocketRequests = [twoDayRequest] ∧
    (COREcheckTimer { Client.new with sentWebSocketRequests := [twoDayRequest] }
      2000).timer = none := by
  decide

/-- C15, amended: a sweep at time `timeNow` leaves at most one sweep scheduled.
If one is scheduled, its time is the deadline of a surviving request, no
surviving request has an earlier deadline, and it lies less than 24 hours
after `timeNow`; none is scheduled exactly when no request survives or every
surviving deadline lies 24 hours or more after `timeNow`. -/
theorem C15_next_sweep_at_earliest_deadline_within_a_day (self : Client) (timeNow : Nat) :
    (∀ m, (COREcheckTimer self timeNow).timer = some m →
      m < timeNow + 24 * 60 * 60 * 1000 ∧
      (∃ r ∈ (COREcheckTimer self timeNow).sentWebSocketRequests,
        deadline self.timeout r = m) ∧
      ∀ r ∈ (COREcheckTimer self timeNow).sentWebSocketRequests,
        m ≤ deadline self.timeout r) ∧
    ((COREcheckTimer self timeNow).timer = none ↔
      ∀ r ∈ (COREcheckTimer self timeNow).sentWebSocketRequests,
        timeNow + 24 * 60 * 60 * 1000 ≤ deadline self.timeout r) := by
  have hsent : (COREcheckTimer self timeNow).sentWebSocketRequests =
      self.sentWebSocketRequests.filter
        (fun r => decide (¬ deadline self.timeout r < timeNow)) := by
    simpa [COREcheckTimer, sweepLoop] using
      (sweep_fold self.timeout timeNow self.sentWebSocketRequests []
        { sent := self.sentWebSocketRequests, calls := [],
          nextTimeout := timeNow + 24 * 60 * 60 * 1000, runAgain := false, observed := [] }
        (by simp)).1
  have hmem : ∀ r, r ∈ (COREcheckTimer self timeNow).sentWebSocketRequests ↔
      r ∈ self.sentWebSocketRequests ∧ ¬ deadline self.timeout r < timeNow := by
    intro r
    rw [hsent]
    simp
  obtain ⟨h1, h2, h3⟩ := sweep_fold_timer self.timeout timeNow self.sentWebSocketRequests []
    { sent := self.sentWebSocketRequests, calls := [],
      nextTimeout := timeNow + 24 * 60 * 60 * 1000, runAgain := false, observed := [] }
    (by simp)
  have htimer : (COREcheckTimer self timeNow).timer =
      if (sweepLoop self.timeout timeNow self.sentWebSocketRequests).runAgain = true then
        some (sweepLoop self.timeout timeNow self.sentWebSocketRequests).nextTimeout
      else none := rfl
  change (sweepLoop self.timeout timeNow self.sentWebSocketRequests).nextTimeout ≤ _ at h1
  change ∀ r ∈ self.sentWebSocketRequests, _ →
    (sweepLoop self.timeout timeNow self.sentWebSocketRequests).nextTimeout ≤ _ at h2
  change ((sweepLoop self.timeout timeNow self.sentWebSocketRequests).nextTimeout = _ ∧
      (sweepLoop self.timeout timeNow self.sentWebSocketRequests).runAgain = _) ∨
    ((sweepLoop self.timeout timeNow self.sentWebSocketRequests).runAgain = true ∧
      (sweepLoop self.timeout timeNow self.sentWebSocketRequests).nextTimeout < _ ∧
      ∃ r ∈ self.sentWebSocketRequests, _ ∧ _ =
        (sweepLoop self.timeout timeNow self.sentWebSocketRequests).nextTimeout) at h3
  generalize sweepLoop self.timeout timeNow self.sentWebSocketRequests = fin at h1 h2 h3 htimer
  simp only at h1 h3
  constructor
  · intro m hm
    rw [htimer] at hm
    rcases h3 with ⟨-, h4⟩ | ⟨h4, h5, r, hr1, hr2, hr3⟩
    · rw [h4] at hm
      simp at hm
    · rw [if_pos h4] at hm
      simp only [Option.some.injEq] at hm
      subst hm
      refine ⟨h5, ⟨r, (hmem r).2 ⟨hr1, hr2⟩, hr3⟩, ?_⟩
      intro r2 hr
      exact h2 r2 ((hmem r2).1 hr).1 ((hmem r2).1 hr).2
  · constructor
    · intro hnone
      rw [htimer] at hnone
      rcases h3 with ⟨h4, h5⟩ | ⟨h4, -⟩
      · intro r hr
        have := h2 r ((hmem r).1 hr).1 ((hmem r).1 hr).2
        omega
      · rw [if_pos h4] at hnone
        cases hnone
    · intro hall
      rw [htimer]
      rcases h3 with ⟨-, h5⟩ | ⟨-, h5, r, hr1, hr2, hr3⟩
      · rw [h5]
        simp
      · have := hall r ((hmem r).2 ⟨hr1, hr2⟩)
        omega

/-- The calls recorded with their snapshots are the calls of the sweep. -/
theorem sweep_fold_observed_calls (selfTimeout timeNow : Nat) (idxs : List Nat) :
    ∀ st : SweepState, st.observed.map Prod.fst = st.calls →
      (idxs.foldl (sweepAt selfTimeout timeNow) st).observed.map Prod.fst =
        (idxs.foldl (sweepAt selfTimeout timeNow) st).calls := by
  induction idxs with
  | nil => intro st h; exact h
  | cons a rest ih =>
    intro st h
    rw [List.foldl_cons]
    apply ih
    unfold sweepAt
    split
    · exact h
    · split
      · simp [h, List.map_append, Function.comp_def]
      · split
        · exact h
        · exact h

/-- Every call the sweep loop adds over the first `pre.length` positions of
`pre ++ suf` belongs to a request of `pre`, and the array it was made on is a
part of `pre ++ suf` that no longer holds that request. -/
theorem sweep_fold_observed (selfTimeout timeNow : Nat) (pre : List SentRequest) :
    ∀ (suf : List SentRequest) (st : SweepState), st.sent = pre ++ suf →
      (pre ++ suf).Nodup →
      ∀ entry ∈ ((List.range pre.length).reverse.foldl (sweepAt selfTimeout timeNow)
          st).observed,
        entry ∈ st.observed ∨
        ∃ x ∈ pre, deadline selfTimeout x < timeNow ∧ entry.1 ∈ evictionCalls x ∧
          x ∉ entry.2 ∧ entry.2.Sublist (pre ++ suf) := by
  induction pre using List.reverseRecOn with
  | nil =>
    intro suf st _ _ entry he
    exact Or.inl (by simpa using he)
  | append_singleton p x ih =>
    intro suf st h hnd entry he
    have hget : st.sent[p.length]? = some x := by
      rw [h, List.append_assoc, List.getElem?_append_right (Nat.le_refl _)]
      simp
    simp only [List.length_append, List.length_singleton, List.range_succ, List.reverse_append,
      List.reverse_cons, List.reverse_nil, List.nil_append, List.singleton_append,
      List.foldl_cons] at he
    have hsub : (p ++ suf).Sublist (p ++ [x] ++ suf) := by
      rw [List.append_assoc]
      exact (List.sublist_append_right [x] suf).append_left p
    by_cases hev : x.ts + timeoutAfter selfTimeout x < timeNow
    · have hera : st.sent.eraseIdx p.length = p ++ suf := by
        rw [h, List.append_assoc, List.eraseIdx_append_of_length_le (Nat.le_refl _)]
        simp
      have hs : (sweepAt selfTimeout timeNow st p.length).sent = p ++ suf := by
        simp only [sweepAt, hget, if_pos hev]
        exact hera
      have ho : (sweepAt selfTimeout timeNow st p.length).observed =
          st.observed ++ (evictionCalls x).map fun c => (c, p ++ suf) := by
        simp only [sweepAt, hget, if_pos hev, evictionCalls, hera]
      have hxnot : x ∉ p ++ suf := by
        intro hx
        rw [List.append_assoc, List.nodup_append] at hnd
        rcases List.mem_append.1 hx with hp | hsuf
        · exact hnd.2.2 hp (List.mem_cons_self _ _)
        · exact (List.nodup_cons.1 hnd.2.1).1 hsuf
      rcases ih suf (sweepAt selfTimeout timeNow st p.length) hs (hnd.sublist hsub) entry he
        with h1 | ⟨y, hy, hy1, hy2, hy3, hy4⟩
      · rw [ho] at h1
        rcases List.mem_append.1 h1 with h2 | h2
        · exact Or.inl h2
        · obtain ⟨c, hc, rfl⟩ := List.mem_map.1 h2
          exact Or.inr ⟨x, by simp, hev, hc, hxnot, hsub⟩
      · exact Or.inr ⟨y, List.mem_append_left _ hy, hy1, hy2, hy3, hy4.trans hsub⟩
    · have hs : (sweepAt selfTimeout timeNow st p.length).sent = p ++ (x :: suf) := by
        simp only [sweepAt, hget, if_neg hev]
        split <;> simp [h]
      have ho : (sweepAt selfTimeout timeNow st p.length).observed = st.observed := by
        simp only [sweepAt, hget, if_neg hev]
        split <;> rfl
      have heq : p ++ [x] ++ suf = p ++ (x :: suf) := by simp
      rcases ih (x :: suf) (sweepAt selfTimeout timeNow st p.length) hs (heq ▸ hnd) entry he
        with h1 | ⟨y, hy, hy1, hy2, hy3, hy4⟩
      · rw [ho] at h1
        exact Or.inl h1
      · exact Or.inr ⟨y, List.mem_append_left _ hy, hy1, hy2, hy3, heq ▸ hy4⟩

/-- C16: in a sweep over pending requests with pairwise distinct identifiers,
every call made (each `onFailure(0)` and each completion function) belongs to
an evicted request `x`, and the array of pending requests at the moment of the
call is a part of the original array that no longer holds `x` nor any request
with the identifier of `x`; so a sweep run on that array from inside the call
makes no call for a request with that identifier. -/
theorem C16_evicted_request_is_removed_before_its_callbacks (self : Client) (timeNow : Nat)
    (hids : (self.sentWebSocketRequests.map fun r => r.id).Nodup) :
    (sweepLoop self.timeout timeNow self.sentWebSocketRequests).observed.map Prod.fst =
      (sweepLoop self.timeout timeNow self.sentWebSocketRequests).calls ∧
    ∀ entry ∈ (sweepLoop self.timeout timeNow self.sentWebSocketRequests).observed,
      ∃ x ∈ self.sentWebSocketRequests,
        deadline self.timeout x < timeNow ∧ entry.1 ∈ evictionCalls x ∧
        x ∉ entry.2 ∧ (∀ y ∈ entry.2, y.id ≠ x.id) ∧
        entry.2.Sublist self.sentWebSocketRequests ∧
        ∀ (later : Nat),
          ∀ inner ∈ (sweepLoop self.timeout later entry.2).observed,
            ∃ y ∈ entry.2, y.id ≠ x.id ∧ inner.1 ∈ evictionCalls y := by
  constructor
  · exact sweep_fold_observed_calls _ _ _ _ rfl
  · intro entry he
    have hnd : self.sentWebSocketRequests.Nodup := hids.of_map _
    rcases sweep_fold_observed self.timeout timeNow self.sentWebSocketRequests []
        { sent := self.sentWebSocketRequests, calls := [],
          nextTimeout := timeNow + 24 * 60 * 60 * 1000, runAgain := false, observed := [] }
        (by simp) (by simpa using hnd) entry he with h1 | ⟨x, hx, hx1, hx2, hx3, hx4⟩
    · cases h1
    · rw [List.append_nil] at hx4
      have hne : ∀ y ∈ entry.2, y.id ≠ x.id := by
        intro y hy hid
        have hyall : y ∈ self.sentWebSocketRequests := hx4.subset hy
        have := List.inj_on_of_nodup_map hids hyall hx hid
        exact hx3 (this ▸ hy)
      refine ⟨x, hx, hx1, hx2, hx3, hne, hx4, ?_⟩
      intro later inner hin
      rcases sweep_fold_observed self.timeout later entry.2 []
          { sent := entry.2, calls := [],
            nextTimeout := later + 24 * 60 * 60 * 1000, runAgain := false, observed := [] }
          (by simp) (by simpa using hnd.sublist hx4) inner hin with h1 | ⟨y, hy, -, hy2, -, -⟩
      · cases h1
      · exact ⟨y, hy, hne y hy, hy2⟩

/-- Witness of C16: a sweep at time 40000 over two requests sent at time 1000. -/
theorem C16_evicted_request_is_removed_before_its_callbacks_witness :
    (sweepLoop 30000 40000 [criticalRequest, plainRequest]).observed =
      [(Call.onFailure plainContext (some 0) none, [criticalRequest]),
        (Call.complete 1, [criticalRequest]), (Call.complete 0, [])] ∧
    ∀ entry ∈ (sweepLoop 30000 40000 [criticalRequest, plainRequest]).observed,
      ∃ x ∈ [criticalRequest, plainRequest],
        deadline 30000 x < 40000 ∧ entry.1 ∈ evictionCalls x ∧
        x ∉ entry.2 ∧ (∀ y ∈ entry.2, y.id ≠ x.id) ∧
        entry.2.Sublist [criticalRequest, plainRequest] ∧
        ∀ (later : Nat),
          ∀ inner ∈ (sweepLoop 30000 later entry.2).observed,
            ∃ y ∈ entry.2, y.id ≠ x.id ∧ inner.1 ∈ evictionCalls y :=
  ⟨by decide,
    (C16_evicted_request_is_removed_before_its_callbacks
      { Client.new with sentWebSocketRequests := [criticalRequest, plainRequest] } 40000
      (by decide)).2⟩

/-! ## LiveDataManager: claims C17 to C20 -/

/-- A streamed message changes neither the counter of bulk reads nor the flag
`slain`. -/
theorem onNewMessage_generation (s : LDM) (entity : Record) (cancels : Notice → Bool) :
    (LDMonNewMessage s entity cancels).state.requestCount = s.requestCount ∧
    (LDMonNewMessage s entity cancels).state.slain = s.slain := by
  have hf := fun t => LDMcallUpdate_fields t
  unfold LDMonNewMessage
  split
  · dsimp only
    repeat' split
    all_goals first
      | exact ⟨rfl, rfl⟩
      | exact ⟨(hf _).2.1, (hf _).1⟩
  · dsimp only
    repeat' split
    all_goals exact ⟨rfl, rfl⟩

/-- A completion of a bulk read changes neither the counter nor the flag. -/
theorem bulkOnSuccess_generation (s : LDM) (rc : Nat) (msg : BulkResponse) :
    (bulkOnSuccess s rc msg).state.requestCount = s.requestCount ∧
    (bulkOnSuccess s rc msg).state.slain = s.slain := by
  have hf := fun t => LDMcallUpdate_fields t
  unfold bulkOnSuccess LDMinsertWithoutDuplication
  repeat' split
  all_goals first
    | exact ⟨rfl, rfl⟩
    | exact ⟨(hf _).2.1, (hf _).1⟩

/-- An event never lowers the counter of bulk reads and never revives a slain
manager. -/
theorem handle_generation (s : LDM) (e : LDMEvent) :
    s.requestCount ≤ (s.handle e).state.requestCount ∧
    (s.slain = true → (s.handle e).state.slain = true) := by
  cases e with
  | message entity cancels =>
    have h := onNewMessage_generation s entity cancels
    exact ⟨Nat.le_of_eq h.1.symm, fun hs => h.2.trans hs⟩
  | reset params newTopics =>
    simp only [LDM.handle]
    unfold LDM.reset LDMrequestEverything
    repeat' split
    all_goals first
      | exact ⟨Nat.le_refl _, id⟩
      | exact ⟨Nat.le_succ _, id⟩
  | die =>
    simp only [LDM.handle]
    unfold LDM.die
    repeat' split
    all_goals first
      | exact ⟨Nat.le_refl _, id⟩
      | exact ⟨Nat.le_refl _, fun _ => rfl⟩
  | updateTimer =>
    simp only [LDM.handle]
    unfold LDMupdateTimerFires
    repeat' split
    all_goals exact ⟨Nat.le_refl _, id⟩
  | bulkSuccess rc msg =>
    have h := bulkOnSuccess_generation s rc msg
    exact ⟨Nat.le_of_eq h.1.symm, fun hs => h.2.trans hs⟩
  | bulkFailure rc errCode =>
    simp only [LDM.handle]
    unfold bulkOnFailure
    repeat' split
    all_goals exact ⟨Nat.le_refl _, id⟩

theorem after_generation (events : List LDMEvent) (s : LDM) :
    s.requestCount ≤ (s.after events).requestCount ∧
    (s.slain = true → (s.after events).slain = true) := by
  induction events generalizing s with
  | nil => exact ⟨Nat.le_refl _, id⟩
  | cons e rest ih =>
    have h1 := handle_generation s e
    have h2 := ih (s.handle e).state
    exact ⟨Nat.le_trans h1.1 h2.1, fun hs => h2.2 (h1.2 hs)⟩

/-- The guard of the two callbacks of a bulk read: a completion of another
generation, or on a slain manager, returns at once. -/
theorem bulk_completion_discarded (t : LDM) (rc : Nat) (msg : BulkResponse)
    (errCode : Option Int) (h : rc ≠ t.requestCount ∨ t.slain = true) :
    (bulkOnSuccess t rc msg).state = t ∧ (bulkOnSuccess t rc msg).thrown = none ∧
    (bulkOnFailure t rc errCode).state = t ∧ (bulkOnFailure t rc errCode).thrown = none := by
  unfold bulkOnSuccess bulkOnFailure
  rw [if_pos h, if_pos h]
  exact ⟨rfl, rfl, rfl, rfl⟩

/-- A `reset` that returns raises the counter and leaves an empty cache. -/
theorem reset_returns (s0 : LDM) (params : Token) (newTopics : Option (List String))
    (h : (s0.reset params newTopics).thrown = none) :
    (s0.reset params newTopics).state.requestCount = s0.requestCount + 1 ∧
    (s0.reset params newTopics).state.slain = s0.slain ∧
    (s0.reset params newTopics).state.data = some [] ∧
    ∃ o, (s0.reset params newTopics).state.options = some o := by
  unfold LDM.reset LDMrequestEverything at h ⊢
  split
  · exact ⟨rfl, rfl, rfl, _, rfl⟩
  · rename_i h1
    split at h
    · rename_i d o hd ho
      exact absurd ho (h1 d o hd)
    · cases h

/-- C17: a completion of a bulk read (success or failure) built with a counter
value `rc` that was current before a `reset()` or a `die()` that returned is
discarded whenever it is called afterwards, whatever events the manager has
handled in between: the call returns and the state, with it the cache and the
list of calls and notifications, is what it was.  The completion of the read
requested by the `reset()` of a manager that is alive, with state `OK` and the
array `bulk`, leaves the cache equal to `bulk`, whether the stale completion
comes before it or after it. -/
theorem C17_stale_bulk_completion_is_discarded (s0 : LDM) (rc : Nat)
    (params : Token) (newTopics : Option (List String)) (events : List LDMEvent)
    (msg : BulkResponse) (errCode : Option Int) (bulk : List Record)
    (additional : Option String) (hrc : rc ≤ s0.requestCount) :
    ((s0.reset params newTopics).thrown = none →
      (bulkOnSuccess ((s0.reset params newTopics).state.after events) rc msg).state =
          (s0.reset params newTopics).state.after events ∧
      (bulkOnSuccess ((s0.reset params newTopics).state.after events) rc msg).thrown = none ∧
      (bulkOnFailure ((s0.reset params newTopics).state.after events) rc errCode).state =
          (s0.reset params newTopics).state.after events ∧
      (bulkOnFailure ((s0.reset params newTopics).state.after events) rc errCode).thrown = none ∧
      (s0.slain = false →
        (bulkOnSuccess (bulkOnSuccess (s0.reset params newTopics).state rc msg).state
            (s0.requestCount + 1)
            { state := some "OK", data := some (some bulk), additional := additional }).state.data
          = some bulk ∧
        (bulkOnFailure
            (bulkOnSuccess (s0.reset params newTopics).state (s0.requestCount + 1)
              { state := some "OK", data := some (some bulk),
                additional := additional }).state rc errCode).state.data
          = some bulk)) ∧
    (s0.die.thrown = none →
      (bulkOnSuccess (s0.die.state.after events) rc msg).state = s0.die.state.after events ∧
      (bulkOnSuccess (s0.die.state.after events) rc msg).thrown = none ∧
      (bulkOnFailure (s0.die.state.after events) rc errCode).state =
          s0.die.state.after events ∧
      (bulkOnFailure (s0.die.state.after events) rc errCode).thrown = none) := by
  constructor
  · intro hret
    obtain ⟨h1, h2, h3, o, h4⟩ := reset_returns s0 params newTopics hret
    have hgen := (after_generation events (s0.reset params newTopics).state).1
    have hne : rc ≠ ((s0.reset params newTopics).state.after events).requestCount := by
      omega
    obtain ⟨a, b, c, d⟩ := bulk_completion_discarded _ rc msg errCode (Or.inl hne)
    refine ⟨a, b, c, d, ?_⟩
    intro halive
    have hne1 : rc ≠ (s0.reset params newTopics).state.requestCount := by omega
    have hok := bulkOnSuccess_ok o (s0.reset params newTopics).state [] bulk additional
      (h2.trans halive) h4 h3
    rw [h1] at hok
    constructor
    · rw [(bulk_completion_discarded _ rc msg errCode (Or.inl hne1)).1]
      simpa [insertRows] using hok.2
    · have hg := bulkOnSuccess_generation (s0.reset params newTopics).state (s0.requestCount + 1)
        { state := some "OK", data := some (some bulk), additional := additional }
      rw [(bulk_completion_discarded _ rc msg errCode (Or.inl (by omega))).2.2.1]
      simpa [insertRows] using hok.2
  · intro hret
    have hslain : s0.die.state.slain = true := by
      unfold LDM.die at hret ⊢
      repeat' split
      all_goals first
        | rfl
        | simp_all
    have := (after_generation events s0.die.state).2 hslain
    exact bulk_completion_discarded _ rc msg errCode (Or.inr this)

/-- Witness of C17: the manager of the scenario is reset, and slain, while
its first bulk read (counter value 1) is under way. -/
theorem C17_stale_bulk_completion_is_discarded_witness :
    ((LDM.construct sitesOptions).reset 0 none).thrown = none ∧
    (LDM.construct sitesOptions).die.thrown = none ∧
    (bulkOnSuccess
        (((LDM.construct sitesOptions).reset 0 none).state.after
          [.message scenarioCreation fun _ => false]) 1
        { state := some "OK", data := some (some scenarioBulk), additional := none }).state =
      ((LDM.construct sitesOptions).reset 0 none).state.after
          [.message scenarioCreation fun _ => false] ∧
    (bulkOnSuccess
        (bulkOnSuccess ((LDM.construct sitesOptions).reset 0 none).state 1
          { state := some "OK", data := some (some scenarioBulk), additional := none }).state 2
        { state := some "OK", data := some (some [scenarioRow]), additional := none }).state.data
      = some [scenarioRow] ∧
    (bulkOnSuccess ((LDM.construct sitesOptions).die.state.after []) 1
        { state := some "OK", data := some (some scenarioBulk), additional := none }).state =
      (LDM.construct sitesOptions).die.state.after [] :=
  have h := C17_stale_bulk_completion_is_discarded (LDM.construct sitesOptions) 1 0 none
    [.message scenarioCreation fun _ => false]
    { state := some "OK", data := some (some scenarioBulk), additional := none } none
    [scenarioRow] none (by decide)
  have h0 := C17_stale_bulk_completion_is_discarded (LDM.construct sitesOptions) 1 0 none
    []
    { state := some "OK", data := some (some scenarioBulk), additional := none } none
    [scenarioRow] none (by decide)
  ⟨by decide, by decide, (h.1 (by decide)).1, ((h.1 (by decide)).2.2.2.2 (by decide)).1,
    (h0.2 (by decide)).1⟩

/-- The function `getIndex` returns -1 exactly when no record of the cache has
the identity of `entity`. -/
theorem getIndex_none (idField : String) (d : List Record) (entity : Record) :
    getIndex idField d entity = none ↔ ∀ row ∈ d, entity.get idField ≠ row.get idField := by
  unfold getIndex
  simp only [ite_eq_right_iff, reduceCtorEq, imp_false, not_lt]
  constructor
  · intro h row hrow heq
    have hlt : List.findIdx (fun row : Record => decide (entity.get idField = row.get idField)) d
        < d.length :=
      List.findIdx_lt_length_of_exists ⟨row, hrow, by simpa using heq⟩
    omega
  · intro h
    by_contra hlt
    have hlt1 : List.findIdx (fun row : Record => decide (entity.get idField = row.get idField)) d
        < d.length := by omega
    have hp := @List.findIdx_getElem _ (fun row : Record => decide (entity.get idField = row.get idField)) d hlt1
    simp only [decide_eq_true_eq] at hp
    exact h _ (List.getElem_mem _) hp

/-- C18, as stated, fails when a listener cancels the before-create notice:
the update for the unknown identity 5 is announced as a creation, and the
cache stays empty. -/
theorem C18_counterexample :
    (LDM.construct sitesOptions).data = some [] ∧
    getIndex "locationID" [] scenarioUpdate = none ∧
    (LDMonNewMessage (LDM.construct sitesOptions) scenarioUpdate fun _ => true).state.calls =
      (LDM.construct sitesOptions).calls ++ [.emit (.beforeCreate scenarioCreation)] ∧
    (LDMonNewMessage (LDM.construct sitesOptions) scenarioUpdate fun _ => true).state.data =
      some [] := by
  decide

/-- C18, amended: for a cache without the identity of a streamed record tagged
as an update, `LDMonNewMessage` ends in the same state, and returns, as for the
same record tagged as a creation; the one call it makes is the before-create
notice for the record tagged as a creation, so no before-update notice is
emitted; unless a listener cancels that notice the record tagged as a creation
is inserted and the cache holds a record with all its members (the record
itself, at the end, when the identity field is not `crud`); if a listener
cancels, the cache is left as it was. -/
theorem C18_update_of_unknown_identity_is_a_creation (s : LDM) (o : LDMOptions)
    (d : List Record) (entity : Record) (cancels : Notice → Bool)
    (hopts : s.options = some o) (hdata : s.data = some d)
    (hcrud : entity.get "crud" = some CRUD_UPDATE)
    (hnew : ∀ row ∈ d, entity.get o.idField ≠ row.get o.idField) :
    (LDMonNewMessage s entity cancels).state =
      (LDMonNewMessage s (entity.set "crud" CRUD_CREATE) cancels).state ∧
    (LDMonNewMessage s entity cancels).thrown = none ∧
    (LDMonNewMessage s (entity.set "crud" CRUD_CREATE) cancels).thrown = none ∧
    (LDMonNewMessage s entity cancels).state.calls =
      s.calls ++ [.emit (.beforeCreate (entity.set "crud" CRUD_CREATE))] ∧
    (cancels (.beforeCreate (entity.set "crud" CRUD_CREATE)) = false →
      (LDMonNewMessage s entity cancels).state.data =
        some (insertRows o.idField d [entity.set "crud" CRUD_CREATE]) ∧
      (∃ c ∈ insertRows o.idField d [entity.set "crud" CRUD_CREATE],
        ∀ k v, (entity.set "crud" CRUD_CREATE).get k = some v → c.get k = some v) ∧
      (o.idField ≠ "crud" →
        (LDMonNewMessage s entity cancels).state.data =
          some (d ++ [entity.set "crud" CRUD_CREATE]))) ∧
    (cancels (.beforeCreate (entity.set "crud" CRUD_CREATE)) = true →
      (LDMonNewMessage s entity cancels).state.data = some d) := by
  have hidx : getIndex o.idField d entity = none := (getIndex_none _ _ _).2 hnew
  have hset : (entity.set "crud" CRUD_CREATE).get "crud" = some CRUD_CREATE := by
    rw [Record.get_set]; simp
  have hne : ¬ (some CRUD_CREATE = some CRUD_UPDATE) := by decide
  have hcu := fun t => LDMcallUpdate_fields t
  have hL : LDMonNewMessage s entity cancels =
      if cancels (.beforeCreate (entity.set "crud" CRUD_CREATE)) = true then
        { state := { s with
            changes := s.changes ++ [entity.set "crud" CRUD_CREATE]
            calls := s.calls ++ [.emit (.beforeCreate (entity.set "crud" CRUD_CREATE))] },
          thrown := none }
      else
        { state :=
            { LDMcallUpdate { s with
                changes := s.changes ++ [entity.set "crud" CRUD_CREATE]
                calls := s.calls ++ [.emit (.beforeCreate (entity.set "crud" CRUD_CREATE))] } with
              data := some (insertRows o.idField d [entity.set "crud" CRUD_CREATE]) },
          thrown := none } := by
    unfold LDMonNewMessage
    rw [hdata, hopts]
    simp only [hcrud, hidx, Option.isSome_none, Bool.false_eq_true, and_false, if_false,
      true_or, if_true]
  have hR : LDMonNewMessage s (entity.set "crud" CRUD_CREATE) cancels =
      if cancels (.beforeCreate (entity.set "crud" CRUD_CREATE)) = true then
        { state := { s with
            changes := s.changes ++ [entity.set "crud" CRUD_CREATE]
            calls := s.calls ++ [.emit (.beforeCreate (entity.set "crud" CRUD_CREATE))] },
          thrown := none }
      else
        { state :=
            { LDMcallUpdate { s with
                changes := s.changes ++ [entity.set "crud" CRUD_CREATE]
                calls := s.calls ++ [.emit (.beforeCreate (entity.set "crud" CRUD_CREATE))] } with
              data := some (insertRows o.idField d [entity.set "crud" CRUD_CREATE]) },
          thrown := none } := by
    unfold LDMonNewMessage
    rw [hdata, hopts]
    simp only [hset, hne, false_and, if_false, or_true, if_true]
  rw [hR, hL]
  by_cases hc : cancels (.beforeCreate (entity.set "crud" CRUD_CREATE)) = true
  · simp only [hc, if_true, true_and, Bool.true_eq_false, false_implies, hdata, implies_true,
      and_self]
  · have hcf : cancels (.beforeCreate (entity.set "crud" CRUD_CREATE)) = false := by
      simpa using hc
    simp only [hcf, Bool.false_eq_true, if_false, true_and, false_implies, and_true,
      (hcu _).2.2.2.2, true_implies]
    refine ⟨?_, ?_⟩
    · obtain ⟨c, hc1, -, hc2⟩ := insertRow_carries o.idField d (entity.set "crud" CRUD_CREATE)
      exact ⟨c, hc1, hc2⟩
    · intro hid
      have hsame : (entity.set "crud" CRUD_CREATE).get o.idField = entity.get o.idField := by
        rw [Record.get_set, if_neg (Ne.symm hid)]
      rcases insertRow_cases o.idField d (entity.set "crud" CRUD_CREATE) with
        ⟨h, -⟩ | ⟨a, x, b, h1, h2, -, -⟩
      · exact congrArg some h
      · exact absurd (hsame ▸ h2.symm) (hnew x (by rw [h1]; simp))

/-- Witness of C18: the update of the scenario reaches a manager whose cache
holds a record of identity 6 only. -/
theorem C18_update_of_unknown_identity_is_a_creation_witness :
    (LDMonNewMessage { LDM.construct sitesOptions with data := some [scenarioOther] }
        scenarioUpdate fun _ => false).state =
      (LDMonNewMessage { LDM.construct sitesOptions with data := some [scenarioOther] }
        scenarioCreation fun _ => false).state ∧
    (LDMonNewMessage { LDM.construct sitesOptions with data := some [scenarioOther] }
        scenarioUpdate fun _ => false).state.data = some [scenarioOther, scenarioCreation] :=
  have h := C18_update_of_unknown_identity_is_a_creation
    { LDM.construct sitesOptions with data := some [scenarioOther] }
    { sitesOptions with onUpdate := some noop, onSuccess := some noop, onFailure := some noop }
    [scenarioOther] scenarioUpdate (fun _ => false) rfl rfl (by decide) (by decide)
  ⟨h.1, ((h.2.2.2.2.1 rfl).2.2 (by decide))⟩

/-- C19: a streamed record tagged as a deletion whose identity is not in the
cache is handled without an exception, without a notice or any other call,
and without setting the timer of the update callback; the cache is the one
before the message.  The record is appended to `changes`, and nothing else of
the manager changes. -/
theorem C19_delete_of_unknown_identity_changes_nothing (s : LDM) (o : LDMOptions)
    (d : List Record) (entity : Record) (cancels : Notice → Bool)
    (hopts : s.options = some o) (hdata : s.data = some d)
    (hcrud : entity.get "crud" = some CRUD_DELETE)
    (hnew : ∀ row ∈ d, entity.get o.idField ≠ row.get o.idField) :
    (LDMonNewMessage s entity cancels).thrown = none ∧
    (LDMonNewMessage s entity cancels).state.data = some d ∧
    (LDMonNewMessage s entity cancels).state.calls = s.calls ∧
    (LDMonNewMessage s entity cancels).state.updateTimer = s.updateTimer ∧
    (LDMonNewMessage s entity cancels).state = { s with changes := s.changes ++ [entity] } := by
  have hidx : getIndex o.idField d entity = none := (getIndex_none _ _ _).2 hnew
  have h1 : ¬ (some CRUD_DELETE = some CRUD_UPDATE) := by decide
  have h2 : ¬ (some CRUD_DELETE = some CRUD_CREATE) := by decide
  have hL : LDMonNewMessage s entity cancels =
      { state := { s with changes := s.changes ++ [entity] }, thrown := none } := by
    unfold LDMonNewMessage
    rw [hdata, hopts]
    simp only [hcrud, h1, h2, false_and, or_self, if_false, if_true, hidx]
  rw [hL]
  exact ⟨rfl, hdata, rfl, rfl, rfl⟩

/-- Witness of C19: the deletion of identity 7 reaches a manager whose cache
holds a record of identity 6 only. -/
theorem C19_delete_of_unknown_identity_changes_nothing_witness :
    (LDMonNewMessage { LDM.construct sitesOptions with data := some [scenarioOther] }
        scenarioDeletion fun _ => false).state.data = some [scenarioOther] ∧
    (LDMonNewMessage { LDM.construct sitesOptions with data := some [scenarioOther] }
        scenarioDeletion fun _ => false).state.calls = (LDM.construct sitesOptions).calls :=
  have h := C19_delete_of_unknown_identity_changes_nothing
    { LDM.construct sitesOptions with data := some [scenarioOther] }
    { sitesOptions with onUpdate := some noop, onSuccess := some noop, onFailure := some noop }
    [scenarioOther] scenarioDeletion (fun _ => false) rfl rfl (by decide) (by decide)
  ⟨h.2.1, h.2.2.1⟩

/-- C20: when every notice a streamed message leads to is cancelled by a
listener, the cache after the message is the cache before it, and the timer of
the update callback is not set; this holds for a record tagged as an update,
as a creation or as a deletion, and for any other record. -/
theorem C20_cancelled_notice_leaves_the_cache_unchanged (s : LDM) (entity : Record)
    (cancels : Notice → Bool)
    (hcancel : ∀ n, (LDMonNewMessage s entity cancels).state.calls = s.calls ++ [.emit n] →
      cancels n = true) :
    (LDMonNewMessage s entity cancels).state.data = s.data ∧
    (LDMonNewMessage s entity cancels).state.updateTimer = s.updateTimer := by
  have hcu := fun t => LDMcallUpdate_fields t
  revert hcancel
  unfold LDMonNewMessage
  split
  · rename_i data opts hd ho
    dsimp only
    repeat' split
    all_goals first
      | exact fun _ => ⟨rfl, rfl⟩
      | exact fun _ => ⟨hd.symm ▸ rfl, rfl⟩
      | (intro hcancel
         rename_i hnot
         exact absurd (hcancel _ (hcu _).2.2.2.2) hnot)
  · dsimp only
    repeat' split
    all_goals exact fun _ => ⟨rfl, rfl⟩

/-- Witness of C20: an update, a creation and a deletion of the record of
identity 5 reach a manager whose cache holds that record, and a listener
cancels every notice. -/
theorem C20_cancelled_notice_leaves_the_cache_unchanged_witness :
    (LDMonNewMessage { LDM.construct sitesOptions with data := some [scenarioRow] }
        scenarioUpdate fun _ => true).state.calls =
      (LDM.construct sitesOptions).calls ++
        [.emit (.beforeUpdate scenarioRow scenarioUpdate)] ∧
    (LDMonNewMessage { LDM.construct sitesOptions with data := some [scenarioRow] }
        scenarioUpdate fun _ => true).state.data = some [scenarioRow] :=
  ⟨by decide,
    (C20_cancelled_notice_leaves_the_cache_unchanged
      { LDM.construct sitesOptions with data := some [scenarioRow] }
      scenarioUpdate (fun _ => true) (fun _ _ => rfl)).1⟩

/-! ## LiveDataManager: claims C21 and C22 -/

/-- The function `getIndex` finds a position when a record of the cache has
the identity of `entity`. -/
theorem getIndex_some (idField : String) (d : List Record) (entity : Record)
    (h : ∃ row ∈ d, entity.get idField = row.get idField) :
    (getIndex idField d entity).isSome = true := by
  cases hg : getIndex idField d entity with
  | some i => rfl
  | none =>
    obtain ⟨row, hrow, heq⟩ := h
    exact absurd heq ((getIndex_none idField d entity).1 hg row hrow)

/-- C21: a streamed update whose identity is in the cache and whose
before-update notice is not cancelled is handled without an exception, and the
cache afterwards is the cache before with one record `x` of that identity (the
last one, which is the only one when identities are pairwise distinct)
replaced, at its position, by the merge of the update into `x`: the merged
record has the update's value for every member the update carries and the
value `x` had for every other member; the records before and after it are
unchanged. -/
theorem C21_update_merges_field_by_field (s : LDM) (o : LDMOptions) (d : List Record)
    (entity : Record) (cancels : Notice → Bool)
    (hopts : s.options = some o) (hdata : s.data = some d)
    (hcrud : entity.get "crud" = some CRUD_UPDATE)
    (hknown : ∃ row ∈ d, entity.get o.idField = row.get o.idField)
    (hnot : ∀ before, cancels (.beforeUpdate before entity) = false) :
    (LDMonNewMessage s entity cancels).thrown = none ∧
    ∃ a x b, d = a ++ x :: b ∧ x.get o.idField = entity.get o.idField ∧
      (∀ y ∈ b, y.get o.idField ≠ entity.get o.idField) ∧
      ((d.map fun r => r.get o.idField).Nodup →
        ∀ y ∈ a, y.get o.idField ≠ entity.get o.idField) ∧
      (LDMonNewMessage s entity cancels).state.data = some (a ++ mergeInto x entity :: b) ∧
      (∀ k v, entity.get k = some v → (mergeInto x entity).get k = some v) ∧
      (∀ k, entity.get k = none → (mergeInto x entity).get k = x.get k) := by
  have hidx := getIndex_some o.idField d entity hknown
  have hL : LDMonNewMessage s entity cancels =
      { state :=
          { LDMcallUpdate
              { s with
                changes := s.changes ++ [entity]
                calls := s.calls ++ [.emit (.beforeUpdate
                  (((getIndex o.idField d entity).bind fun i => d[i]?).getD []) entity)] } with
            data := some (insertRows o.idField d [entity]) },
        thrown := none } := by
    unfold LDMonNewMessage
    rw [hdata, hopts]
    simp only [hcrud, hidx, and_self, if_true, hnot, Bool.false_eq_true, if_false]
  rw [hL]
  refine ⟨rfl, ?_⟩
  rcases insertRow_cases o.idField d entity with ⟨-, h2⟩ | ⟨a, x, b, h1, h2, h3, h4⟩
  · obtain ⟨row, hrow, heq⟩ := hknown
    exact absurd heq.symm (h2 row hrow)
  · refine ⟨a, x, b, h1, h2, h3, ?_, ?_, ?_, ?_⟩
    · intro hnd y hy hid
      rw [h1, List.map_append, List.map_cons, List.nodup_append] at hnd
      exact hnd.2.2 (List.mem_map.2 ⟨y, hy, hid⟩) (by rw [h2]; exact List.mem_cons_self _ _)
    · exact congrArg some h4
    · intro k v hk
      rw [mergeInto_get, hk]
    · intro k hk
      rw [mergeInto_get, hk]

/-- Witness of C21: the update of the scenario reaches a cache that holds the
records of identity 6 and 5. -/
theorem C21_update_merges_field_by_field_witness :
    (LDMonNewMessage { LDM.construct sitesOptions with data := some [scenarioOther, scenarioRow] }
        scenarioUpdate fun _ => false).state.data =
      some [scenarioOther,
        [("locationID", .int 5), ("name", .str "A"), ("crud", CRUD_UPDATE)]] ∧
    ∃ a x b, [scenarioOther, scenarioRow] = a ++ x :: b ∧
      (LDMonNewMessage { LDM.construct sitesOptions with data := some [scenarioOther, scenarioRow] }
        scenarioUpdate fun _ => false).state.data = some (a ++ mergeInto x scenarioUpdate :: b) :=
  have h := C21_update_merges_field_by_field
    { LDM.construct sitesOptions with data := some [scenarioOther, scenarioRow] }
    { sitesOptions with onUpdate := some noop, onSuccess := some noop, onFailure := some noop }
    [scenarioOther, scenarioRow] scenarioUpdate (fun _ => false) rfl rfl (by decide)
    ⟨scenarioRow, by decide, by decide⟩ (fun _ => rfl)
  ⟨by decide,
    match h.2 with
    | ⟨a, x, b, h1, _, _, _, h5, _, _⟩ => ⟨a, x, b, h1, h5⟩⟩

/-- Inserting rows keeps the identities of the array pairwise distinct. -/
theorem insertRows_nodup (idField : String) (l nd : List Record)
    (h : (l.map fun r => r.get idField).Nodup) :
    ((insertRows idField l nd).map fun r => r.get idField).Nodup := by
  induction nd with
  | nil => exact h
  | cons row rest ih => exact insertRow_nodup idField _ row ih

/-- A streamed message keeps the identities of the cache pairwise distinct. -/
theorem onNewMessage_distinct (idField : String) (s : LDM) (entity : Record)
    (cancels : Notice → Bool) (h : DistinctIds idField s) :
    DistinctIds idField (LDMonNewMessage s entity cancels).state := by
  obtain ⟨h1, h2⟩ := h
  have hcu : ∀ (t : LDM) (d1 : List Record), t.options = s.options →
      (d1.map fun r => r.get idField).Nodup →
      DistinctIds idField { LDMcallUpdate t with data := some d1 } := by
    intro t d1 ha hd
    refine ⟨fun o ho => h1 o ?_, fun d hd1 => ?_⟩
    · rw [← ha, ← (LDMcallUpdate_fields t).2.2.1]
      exact ho
    · cases hd1
      exact hd
  unfold LDMonNewMessage
  split
  · rename_i data opts hd ho
    have hid : opts.idField = idField := h1 opts ho
    have hnd := h2 data hd
    dsimp only
    repeat' split
    all_goals first
      | exact ⟨h1, h2⟩
      | exact hcu _ _ rfl (hid ▸ insertRows_nodup opts.idField data _ (hid.symm ▸ hnd))
      | exact hcu _ _ rfl (hnd.sublist ((List.eraseIdx_sublist data _).map _))
  · dsimp only
    repeat' split
    all_goals exact ⟨h1, h2⟩

/-- Every event that brings no duplicate identity from outside keeps the
identities of the cache pairwise distinct. -/
theorem handle_distinct (idField : String) (s : LDM) (e : LDMEvent)
    (he : e.distinctIds idField) (h : DistinctIds idField s) :
    DistinctIds idField (s.handle e).state := by
  cases e with
  | message entity cancels => exact onNewMessage_distinct idField s entity cancels h
  | reset params newTopics =>
    obtain ⟨h1, h2⟩ := h
    simp only [LDM.handle]
    unfold LDM.reset LDMrequestEverything
    split
    · rename_i d o hd ho
      refine ⟨fun o1 ho1 => ?_, fun d1 hd1 => ?_⟩
      · cases ho1
        exact h1 o ho
      · cases hd1
        exact List.nodup_nil
    · exact ⟨h1, h2⟩
  | die =>
    obtain ⟨h1, h2⟩ := h
    simp only [LDM.handle]
    unfold LDM.die
    repeat' split
    all_goals first
      | exact ⟨h1, h2⟩
      | exact ⟨fun o ho => (by cases ho), fun d hd => (by cases hd)⟩
  | updateTimer =>
    obtain ⟨h1, h2⟩ := h
    simp only [LDM.handle]
    unfold LDMupdateTimerFires
    repeat' split
    all_goals exact ⟨h1, h2⟩
  | bulkFailure rc errCode =>
    obtain ⟨h1, h2⟩ := h
    simp only [LDM.handle]
    unfold bulkOnFailure
    repeat' split
    all_goals exact ⟨h1, h2⟩
  | bulkSuccess rc msg =>
    obtain ⟨h1, h2⟩ := h
    simp only [LDM.handle]
    unfold bulkOnSuccess
    split
    · exact ⟨h1, h2⟩
    · split
      · split
        · rename_i rows opts hrows hopts
          have hid : opts.idField = idField := h1 opts hopts
          have hf := LDMcallUpdate_fields s
          cases hdata : s.data with
          | none => simpa [LDMinsertWithoutDuplication, hdata] using ⟨h1, h2⟩
          | some d =>
            cases d with
            | nil =>
              simp only [LDMinsertWithoutDuplication, hdata]
              refine ⟨fun o ho => h1 o (by rw [← hf.2.2.1]; exact ho), fun d1 hd1 => ?_⟩
              simp only at hd1
              subst hd1
              exact he d1 hrows
            | cons row rest =>
              cases rows with
              | none => simpa [LDMinsertWithoutDuplication, hdata] using ⟨h1, h2⟩
              | some bulk =>
                simp only [LDMinsertWithoutDuplication, hdata]
                refine ⟨fun o ho => h1 o (by rw [← hf.2.2.1]; exact ho), fun d1 hd1 => ?_⟩
                simp only [Option.some.injEq] at hd1
                subst hd1
                rw [hid]
                exact insertRows_nodup idField bulk _ (he bulk hrows)
        · exact ⟨h1, h2⟩
      · repeat' split
        all_goals exact ⟨h1, h2⟩

theorem after_distinct (idField : String) (events : List LDMEvent) (s : LDM)
    (he : ∀ e ∈ events, e.distinctIds idField) (h : DistinctIds idField s) :
    DistinctIds idField (s.after events) := by
  induction events generalizing s with
  | nil => exact h
  | cons e rest ih =>
    exact ih (s.handle e).state (fun e1 h1 => he e1 (List.mem_cons_of_mem _ h1))
      (handle_distinct idField s e (he e (List.mem_cons_self _ _)) h)

/-- C22 on the failing input: the array of a bulk read becomes the cache as
it is, so a bulk result with two records of identity 5 leaves both in the
cache. -/
theorem C22_counterexample :
    ((LDM.construct sitesOptions).after
        [.bulkSuccess 1
          { state := some "OK", data := some (some duplicateBulk), additional := none }]).data =
      some duplicateBulk ∧
    (duplicateBulk.map fun r => r.get "locationID") = [some (.int 5), some (.int 5)] := by
  decide

/-- C22 on the code: on state `OK` the array of the bulk read becomes the
cache after the streamed cache was merged into it, and it is not searched for
records of one identity: for a manager just constructed the call returns and
the cache is the array, so an array in which two records share an identity
leaves a cache in which they do.  No other event brings such records: while
every array delivered has pairwise distinct identities, the identities of the
cache stay pairwise distinct through every sequence of streamed messages,
bulk completions, firings of the update timer and calls of `reset` and
`die`. -/
theorem C22_bulk_array_becomes_the_cache_unchecked (options : LDMOptions)
    (bulk : List Record) (additional : Option String) (events : List LDMEvent) :
    (bulkOnSuccess (LDM.construct options) 1
      { state := some "OK", data := some (some bulk), additional := additional }).thrown
        = none ∧
    (bulkOnSuccess (LDM.construct options) 1
      { state := some "OK", data := some (some bulk), additional := additional }).state.data
        = some bulk ∧
    (¬ (bulk.map fun r => r.get options.idField).Nodup →
      ∃ d, ((LDM.construct options).after
          [.bulkSuccess 1
            { state := some "OK", data := some (some bulk), additional := additional }]).data
          = some d ∧
        ¬ (d.map fun r => r.get options.idField).Nodup) ∧
    ((∀ e ∈ events, e.distinctIds options.idField) →
      ∀ d, ((LDM.construct options).after events).data = some d →
        (d.map fun r => r.get options.idField).Nodup) := by
  have hok := bulkOnSuccess_ok
    { options with
      onUpdate := some (options.onUpdate.getD noop)
      onSuccess := some (options.onSuccess.getD noop)
      onFailure := some (options.onFailure.getD noop) }
    (LDM.construct options) [] bulk additional rfl rfl rfl
  have hdata : (bulkOnSuccess (LDM.construct options) 1
      { state := some "OK", data := some (some bulk), additional := additional }).state.data
        = some bulk := by
    have := hok.2
    simpa [insertRows] using this
  have h0 : DistinctIds options.idField (LDM.construct options) := by
    refine ⟨fun o ho => ?_, fun d hd => ?_⟩
    · simp only [LDM.construct, LDMrequestEverything] at ho
      cases ho
      rfl
    · simp only [LDM.construct, LDMrequestEverything] at hd
      cases hd
      exact List.nodup_nil
  refine ⟨hok.1, hdata, fun hdup => ⟨bulk, hdata, hdup⟩,
    fun hev => (after_distinct options.idField events _ hev h0).2⟩

/-! ## LiveDataManager: claims C23 and C24 -/

/-- A `die()` that returns leaves the manager slain, without options and
without cache. -/
theorem die_returns (s : LDM) (h : s.die.thrown = none) :
    s.die.state.slain = true ∧ s.die.state.options = none ∧ s.die.state.data = none := by
  unfold LDM.die at h ⊢
  split
  · rename_i hs
    rw [if_pos hs] at h
    cases h
  · rename_i hs
    rw [if_neg hs] at h
    split
    · rename_i ho
      rw [ho] at h
      cases h
    · exact ⟨rfl, rfl, rfl⟩

/-- C23: the operations called after a `die()` that returned all throw, but
only a `create` whose free identifier `options` is bound to an object with a
`createAPI` throws the error of `LDMsanityCheck`; `update`, `delete` and
`reset` throw a `TypeError` (they read a member of `this.options` or
`this.data`, which are `undefined`), `create` throws a `ReferenceError` where
`options` is unbound, and `die` throws its own error for a second call.  Every
one of them leaves the manager as it was. -/
theorem C23_operations_after_die_miss_the_teardown_error (s : LDM) (newData params : Token)
    (onSuccess onFailure : Option Token) (newTopics : Option (List String))
    (hdie : s.die.thrown = none) :
    (s.die.state.update newData onSuccess onFailure).thrown = some .typeError ∧
    (s.die.state.delete newData onSuccess onFailure).thrown = some .typeError ∧
    (s.die.state.reset params newTopics).thrown = some .typeError ∧
    (s.die.state.create .unbound newData onSuccess onFailure).thrown =
      some (.referenceError "options") ∧
    s.die.state.die.thrown =
      some (.error "LiveDataManager.die(): Called multiple times. I can only get so dead.") ∧
    (∀ scope, (s.die.state.create scope newData onSuccess onFailure).thrown =
        some (teardownError "create") ↔ ∃ api, scope = .object api ∧ falsy api = false) ∧
    (s.die.state.update newData onSuccess onFailure).state = s.die.state ∧
    (s.die.state.delete newData onSuccess onFailure).state = s.die.state ∧
    (s.die.state.reset params newTopics).state = s.die.state ∧
    (∀ scope, (s.die.state.create scope newData onSuccess onFailure).state = s.die.state) ∧
    s.die.state.die.state = s.die.state := by
  obtain ⟨h1, h2, h3⟩ := die_returns s hdie
  generalize s.die.state = t at h1 h2 h3
  refine ⟨?_, ?_, ?_, rfl, ?_, ?_, ?_, ?_, ?_, ?_, ?_⟩
  · simp [LDM.update, h2]
  · simp [LDM.delete, h2]
  · simp [LDM.reset, h3]
  · simp [LDM.die, h1]
  · intro scope
    cases scope with
    | unbound => simp [LDM.create, teardownError]
    | notAnObject => simp [LDM.create, teardownError]
    | object api =>
      by_cases hf : falsy api = true
      · simp only [LDM.create, hf, if_true, teardownError, Option.some.injEq, JSError.error.injEq,
          FreeOptions.object.injEq, exists_eq_left', Bool.true_eq_false, iff_false]
        decide
      · simp [LDM.create, hf, LDMsanityCheck, h1]
  · simp [LDM.update, h2]
  · simp [LDM.delete, h2]
  · simp [LDM.reset, h3]
  · intro scope
    cases scope with
    | unbound => rfl
    | notAnObject => rfl
    | object api =>
      by_cases hf : falsy api = true
      · simp [LDM.create, hf]
      · simp [LDM.create, hf, LDMsanityCheck, h1]
  · simp [LDM.die, h1]

/-- Witness of C23: the manager of the scenario after `die()`. -/
theorem C23_operations_after_die_miss_the_teardown_error_witness :
    (LDM.construct sitesOptions).die.thrown = none ∧
    ((LDM.construct sitesOptions).die.state.update 0 none none).thrown = some .typeError ∧
    ((LDM.construct sitesOptions).die.state.create .unbound 0 none none).thrown =
      some (.referenceError "options") :=
  have h := C23_operations_after_die_miss_the_teardown_error (LDM.construct sitesOptions) 0 0
    none none none (by decide)
  ⟨by decide, h.1, h.2.2.2.1⟩

/-- The request submitted by `update` and `delete` on a manager that has its
options. -/
theorem submit_fields (s : LDM) (o : LDMOptions) (resource : Option String) (newData : Token)
    (onSuccess onFailure : Option Token) :
    (s.submit o resource newData onSuccess onFailure).calls =
      s.calls ++ [.request resource newData o.critical (callbackOr onSuccess o.onSuccess)
        (callbackOr onFailure o.onFailure)] ∧
    (s.submit o resource newData onSuccess onFailure).data = s.data ∧
    (s.submit o resource newData onSuccess onFailure).options = s.options ∧
    (s.submit o resource newData onSuccess onFailure).changes = s.changes :=
  ⟨rfl, rfl, rfl, rfl⟩

/-- C24: on a manager that has not been torn down, `update` and `delete`
throw their configuration error exactly when the endpoint is missing (or the
empty text), and otherwise return after exactly one call of `request`, with
the endpoint as resource and the data supplied as params; `create` does
neither: where its free identifier `options` is unbound it throws a
`ReferenceError` whether `createAPI` is configured or not, and submits
nothing. -/
theorem C24_update_and_delete_check_their_endpoint_create_throws (s : LDM) (o : LDMOptions)
    (newData : Token) (onSuccess onFailure : Option Token)
    (halive : s.slain = false) (hopts : s.options = some o) :
    ((s.update newData onSuccess onFailure).thrown =
        some (.error "LiveDataManager.update(): You have not defined an update API.") ↔
      falsy o.updateAPI = true) ∧
    (falsy o.updateAPI = false →
      (s.update newData onSuccess onFailure).thrown = none ∧
      (s.update newData onSuccess onFailure).state.calls =
        s.calls ++ [.request o.updateAPI newData o.critical (callbackOr onSuccess o.onSuccess)
          (callbackOr onFailure o.onFailure)]) ∧
    ((s.delete newData onSuccess onFailure).thrown =
        some (.error "LiveDataManager.delete(): You have not defined a delete API.") ↔
      falsy o.deleteAPI = true) ∧
    (falsy o.deleteAPI = false →
      (s.delete newData onSuccess onFailure).thrown = none ∧
      (s.delete newData onSuccess onFailure).state.calls =
        s.calls ++ [.request o.deleteAPI newData o.critical (callbackOr onSuccess o.onSuccess)
          (callbackOr onFailure o.onFailure)]) ∧
    (s.create .unbound newData onSuccess onFailure).thrown = some (.referenceError "options") ∧
    (s.create .unbound newData onSuccess onFailure).state = s ∧
    (∀ api, falsy api = false →
      (s.create (.object api) newData onSuccess onFailure).thrown = none ∧
      (s.create (.object api) newData onSuccess onFailure).state.calls =
        s.calls ++ [.request o.createAPI newData o.critical (callbackOr onSuccess o.onSuccess)
          (callbackOr onFailure o.onFailure)]) := by
  refine ⟨?_, ?_, ?_, ?_, rfl, rfl, ?_⟩
  · by_cases hf : falsy o.updateAPI = true
    · simp [LDM.update, hopts, hf]
    · simp [LDM.update, hopts, hf, LDMsanityCheck]
  · intro hf
    simp [LDM.update, hopts, hf, LDMsanityCheck, LDM.submit]
  · by_cases hf : falsy o.deleteAPI = true
    · simp [LDM.delete, hopts, hf]
    · simp [LDM.delete, hopts, hf, LDMsanityCheck]
  · intro hf
    simp [LDM.delete, hopts, hf, LDMsanityCheck, LDM.submit]
  · intro api hf
    simp [LDM.create, hopts, hf, LDMsanityCheck, halive, LDM.submit]

/-- Witness of C24: the manager of the scenario with the endpoints of the
collection of locations. -/
theorem C24_update_and_delete_check_their_endpoint_create_throws_witness :
    (({ LDM.construct locationsOptions with calls := [] }).update 7 none none).state.calls =
      [.request (some "/API/setup/updateLocation") 7 none noop noop] ∧
    (({ LDM.construct locationsOptions with calls := [] }).create .unbound 7 none none).thrown =
      some (.referenceError "options") :=
  have h := C24_update_and_delete_check_their_endpoint_create_throws
    { LDM.construct locationsOptions with calls := [] }
    { locationsOptions with
      onUpdate := some noop, onSuccess := some noop, onFailure := some noop }
    7 none none rfl rfl
  ⟨(h.2.1 (by decide)).2, h.2.2.2.2.1⟩

/-! ## Push handlers: claims C25 to C28 -/

/-- The registry `removeHandler` leaves is a part of the registry it found. -/
theorem removeHandler_sublist (handlers : List PushHandler) (handler : Token) (topic : String) :
    (removeHandler handlers handler topic).2.Sublist handlers :=
  List.filter_sublist _

/-- An entry is in the registry `removeHandler` leaves exactly when it was in
the registry and is not the pair of the topic and the handler. -/
theorem mem_removeHandler (handlers : List PushHandler) (handler : Token) (topic : String)
    (e : PushHandler) :
    e ∈ (removeHandler handlers handler topic).2 ↔
      e ∈ handlers ∧ ¬ (e.topic = topic ∧ e.handler = handler) := by
  simp only [removeHandler, List.mem_filter, Bool.not_eq_true', Bool.and_eq_false_iff,
    decide_eq_false_iff_not, not_and_or]

/-- The value `keep` of `removeHandler`. -/
theorem removeHandler_keep (handlers : List PushHandler) (handler : Token) (topic : String) :
    (removeHandler handlers handler topic).1 = true ↔
      ∃ e ∈ handlers, e.topic = topic ∧ e.handler ≠ handler := by
  simp [removeHandler]

/-- The loop over an array of topics leaves a part of the registry, and in it
every entry whose handler is another one or whose topic is not in the array. -/
theorem unregisterEach_frame (handler : Token) :
    ∀ (fuel k : Nat) (topics : List String) (handlers : List PushHandler),
      (unregisterEach handler fuel k topics handlers).2.Sublist handlers ∧
      ∀ e ∈ handlers, (e.handler ≠ handler ∨ e.topic ∉ topics) →
        e ∈ (unregisterEach handler fuel k topics handlers).2 := by
  intro fuel
  induction fuel with
  | zero => intro k topics handlers; exact ⟨List.Sublist.refl _, fun e he _ => he⟩
  | succ fuel ih =>
    intro k topics handlers
    unfold unregisterEach
    cases hk : topics[k]? with
    | none => exact ih (k + 1) topics handlers
    | some myTopic =>
      have hmem : myTopic ∈ topics := by
        obtain ⟨hlt, heq⟩ := List.getElem?_eq_some.1 hk
        exact heq ▸ List.getElem_mem hlt
      have hstay : ∀ e ∈ handlers, (e.handler ≠ handler ∨ e.topic ∉ topics) →
          e ∈ (removeHandler handlers handler myTopic).2 := by
        intro e he hor
        rw [mem_removeHandler]
        refine ⟨he, ?_⟩
        rintro ⟨h1, h2⟩
        rcases hor with h3 | h3
        · exact h3 h2
        · exact h3 (h1 ▸ hmem)
      simp only
      split
      · obtain ⟨h1, h2⟩ := ih (k + 1) (topics.eraseIdx k) (removeHandler handlers handler myTopic).2
        refine ⟨h1.trans (removeHandler_sublist _ _ _), fun e he hor => ?_⟩
        refine h2 e (hstay e he hor) ?_
        rcases hor with h3 | h3
        · exact Or.inl h3
        · exact Or.inr fun h4 => h3 ((List.eraseIdx_sublist topics k).subset h4)
      · obtain ⟨h1, h2⟩ := ih (k + 1) topics (removeHandler handlers handler myTopic).2
        exact ⟨h1.trans (removeHandler_sublist _ _ _), fun e he hor => h2 e (hstay e he hor) hor⟩

/-- The registry after `unregisterPushHandler` is a part of the registry
before. -/
theorem unregister_sublist (self : Client) (topics : Topics) (handler : Token) :
    (self.unregisterPushHandler topics handler).webSocketPushHandlers.Sublist
      self.webSocketPushHandlers := by
  unfold Client.unregisterPushHandler Client.sendUnsub
  cases topics with
  | one topic =>
    simp only
    repeat' split
    all_goals exact removeHandler_sublist _ _ _
  | many list =>
    simp only
    repeat' split
    all_goals first
      | exact List.Sublist.refl _
      | exact (unregisterEach_frame handler _ _ _ _).1

/-- The registry after `registerPushHandler`: as it was, or with the pair of
the topic and the handler, which was not in it, added at the end. -/
theorem register_registry (self : Client) (globalA : Option Nat) (topic : Topics)
    (handler : Token) :
    (self.registerPushHandler globalA topic handler).state.webSocketPushHandlers =
        self.webSocketPushHandlers ∨
    ∃ t, topic = .one t ∧ ({ topic := t, handler := handler } : PushHandler) ∉
        self.webSocketPushHandlers ∧
      (self.registerPushHandler globalA topic handler).state.webSocketPushHandlers =
        self.webSocketPushHandlers ++ [{ topic := t, handler := handler }] := by
  cases topic with
  | many list =>
    left
    unfold Client.registerPushHandler
    simp only
    repeat' split
    all_goals rfl
  | one t =>
    by_cases hany : (self.webSocketPushHandlers.any fun e =>
        decide (e.handler = handler) && decide (t = e.topic)) = true
    · left
      simp only [Client.registerPushHandler, hany, if_true]
    · right
      refine ⟨t, rfl, ?_, ?_⟩
      · intro hmem
        apply hany
        rw [List.any_eq_true]
        exact ⟨_, hmem, by simp⟩
      · simp only [Client.registerPushHandler, hany, if_false, Bool.false_eq_true]
        repeat' split
        all_goals rfl

/-- A call on the registry keeps the pairs of the registry pairwise
distinct. -/
theorem registry_nodup (self : Client) (op : RegistryOp)
    (h : self.webSocketPushHandlers.Nodup) : (self.registry op).webSocketPushHandlers.Nodup := by
  cases op with
  | register globalA topic handler =>
    rcases register_registry self globalA topic handler with h1 | ⟨t, -, h2, h3⟩
    · simp only [Client.registry]
      rw [h1]
      exact h
    · simp only [Client.registry]
      rw [h3]
      exact List.Nodup.append h (List.nodup_singleton _) (by simpa using h2)
  | unregister topics handler =>
    exact h.sublist (unregister_sublist self topics handler)

theorem registryRun_nodup (ops : List RegistryOp) (self : Client)
    (h : self.webSocketPushHandlers.Nodup) :
    (self.registryRun ops).webSocketPushHandlers.Nodup := by
  induction ops generalizing self with
  | nil => exact h
  | cons op rest ih => exact ih (self.registry op) (registry_nodup self op h)

/-- C25: `registerPushHandler` for a topic and a handler whose pair is in the
registry returns and leaves the registry, the messages written to the socket
and the job queue as they are; and when the pairs of the registry are
pairwise distinct, they are so after every sequence of calls of
`registerPushHandler` and `unregisterPushHandler`, for a topic or for an
array of topics. -/
theorem C25_registered_pair_is_not_registered_again (self : Client) (globalA : Option Nat)
    (topic : String) (handler : Token) (ops : List RegistryOp)
    (hnodup : self.webSocketPushHandlers.Nodup) :
    (({ topic := topic, handler := handler } : PushHandler) ∈ self.webSocketPushHandlers →
      (self.registerPushHandler globalA (.one topic) handler).thrown = none ∧
      (self.registerPushHandler globalA (.one topic) handler).state.webSocketPushHandlers =
        self.webSocketPushHandlers ∧
      (self.registerPushHandler globalA (.one topic) handler).state.wire = self.wire ∧
      (self.registerPushHandler globalA (.one topic) handler).state.jobContexts =
        self.jobContexts ∧
      (self.registerPushHandler globalA (.one topic) handler).state.primaryWebSocketState =
        self.primaryWebSocketState) ∧
    (self.registryRun ops).webSocketPushHandlers.Nodup := by
  refine ⟨fun hmem => ?_, registryRun_nodup ops self hnodup⟩
  have hany : (self.webSocketPushHandlers.any fun e =>
      decide (e.handler = handler) && decide (topic = e.topic)) = true := by
    rw [List.any_eq_true]
    exact ⟨_, hmem, by simp⟩
  simp only [Client.registerPushHandler, hany, if_true, and_self]

/-- Witness of C25: on a client that is authenticated and whose socket is
open, a pair is registered twice, unregistered and registered again. -/
theorem C25_registered_pair_is_not_registered_again_witness :
    (sharedClient.registerPushHandler none (.one "B") 1).state.webSocketPushHandlers =
      sharedRegistry ∧
    (sharedClient.registerPushHandler none (.one "B") 1).state.wire = [] ∧
    (sharedClient.registryRun
        [.register none (.one "C") 3, .register none (.one "C") 3,
          .unregister (.one "A") 2, .register none (.many ["A", "B"]) 1,
          .unregister (.many ["B", "C"]) 3,
          .register none (.one "C") 3]).webSocketPushHandlers.Nodup :=
  have h := C25_registered_pair_is_not_registered_again sharedClient none "B" 1
    [.register none (.one "C") 3, .register none (.one "C") 3,
      .unregister (.one "A") 2, .register none (.many ["A", "B"]) 1,
      .unregister (.many ["B", "C"]) 3, .register none (.one "C") 3] (by decide)
  ⟨(h.1 (by decide)).2.1, (h.1 (by decide)).2.2.1, h.2⟩

/-- C26: `registerPushHandler` called with an array of topics never returns:
it throws a `ReferenceError` for `a` where no global `a` exists, a
`TypeError` when the registry has no entry at position `a` or that entry has
the handler, and a `ReferenceError` for `thisTopic` otherwise; the client, and
with it the registry, is left as it was, so no pair is added. -/
theorem C26_registering_an_array_of_topics_always_throws (self : Client)
    (globalA : Option Nat) (topics : List String) (handler : Token) :
    ((self.registerPushHandler globalA (.many topics) handler).thrown =
        some (.referenceError "a") ∨
      (self.registerPushHandler globalA (.many topics) handler).thrown = some .typeError ∨
      (self.registerPushHandler globalA (.many topics) handler).thrown =
        some (.referenceError "thisTopic")) ∧
    (globalA = none →
      (self.registerPushHandler globalA (.many topics) handler).thrown =
        some (.referenceError "a")) ∧
    (self.registerPushHandler globalA (.many topics) handler).state = self ∧
    (Client.new.registerPushHandler none (.many ["SRV/sites"]) 1).thrown =
      some (.referenceError "a") ∧
    (Client.new.registerPushHandler none (.many ["SRV/sites"]) 1).state.webSocketPushHandlers
      = [] := by
  refine ⟨?_, ?_, ?_, rfl, rfl⟩
  · unfold Client.registerPushHandler
    simp only
    repeat' split
    all_goals simp
  · intro h
    subst h
    rfl
  · unfold Client.registerPushHandler
    simp only
    repeat' split
    all_goals rfl

/-- C27: for a single topic `unregisterPushHandler` leaves exactly the
entries that are not the pair of that topic and the handler, in their order;
for an array of topics it leaves a part of the registry that holds every
entry with another handler or with a topic outside the array, but it can
leave a pair it was asked to remove: with `A` registered for the handlers 1
and 2 and `B` for the handler 1, the call for `[A, B]` and the handler 1
removes the pair of `A` and skips `B`, whose pair stays. -/
theorem C27_unregister_of_an_array_skips_a_topic (self : Client) (topic : String)
    (list : List String) (handler : Token) :
    (self.unregisterPushHandler (.one topic) handler).webSocketPushHandlers =
      self.webSocketPushHandlers.filter
        (fun e => !(decide (e.topic = topic) && decide (e.handler = handler))) ∧
    (∀ e, e ∈ (self.unregisterPushHandler (.one topic) handler).webSocketPushHandlers ↔
      e ∈ self.webSocketPushHandlers ∧ ¬ (e.topic = topic ∧ e.handler = handler)) ∧
    (self.unregisterPushHandler (.many list) handler).webSocketPushHandlers.Sublist
      self.webSocketPushHandlers ∧
    (∀ e ∈ self.webSocketPushHandlers, (e.handler ≠ handler ∨ e.topic ∉ list) →
      e ∈ (self.unregisterPushHandler (.many list) handler).webSocketPushHandlers) ∧
    (sharedClient.unregisterPushHandler (.many ["A", "B"]) 1).webSocketPushHandlers =
      [{ topic := "A", handler := 2 }, { topic := "B", handler := 1 }] := by
  have hone : (self.unregisterPushHandler (.one topic) handler).webSocketPushHandlers =
      (removeHandler self.webSocketPushHandlers handler topic).2 := by
    unfold Client.unregisterPushHandler Client.sendUnsub
    simp only
    repeat' split
    all_goals rfl
  refine ⟨hone, ?_, unregister_sublist self _ handler, ?_, by decide⟩
  · intro e
    rw [hone]
    exact mem_removeHandler _ _ _ e
  · intro e he hor
    unfold Client.unregisterPushHandler Client.sendUnsub
    simp only
    repeat' split
    all_goals first
      | exact he
      | exact (unregisterEach_frame handler _ _ _ _).2 e he hor

/-- C28: for a single topic an `UNSUB` message is written only when no entry
of the registry has that topic afterwards; for an array of topics the message
can name a topic that still has a handler: with `A` registered for the
handlers 1 and 2 and `B` for the handler 1, the call for `[A, B]` and the
handler 1 on an open socket writes `UNSUB` for `[B]` while the pair of `B` and
the handler 1 is still registered. -/
theorem C28_unsub_of_an_array_names_a_topic_still_in_use (self : Client) (topic : String)
    (handler : Token) :
    ((self.unregisterPushHandler (.one topic) handler).wire = self.wire ∨
      ((self.unregisterPushHandler (.one topic) handler).wire = self.wire ++ [.unsub [topic]] ∧
        ∀ e ∈ (self.unregisterPushHandler (.one topic) handler).webSocketPushHandlers,
          e.topic ≠ topic)) ∧
    (sharedClient.unregisterPushHandler (.many ["A", "B"]) 1).wire = [.unsub ["B"]] ∧
    ({ topic := "B", handler := 1 } : PushHandler) ∈
      (sharedClient.unregisterPushHandler (.many ["A", "B"]) 1).webSocketPushHandlers := by
  refine ⟨?_, by decide, by decide⟩
  by_cases hkeep : (removeHandler self.webSocketPushHandlers handler topic).1 = true
  · left
    simp only [Client.unregisterPushHandler, hkeep, if_true]
  · by_cases hsock : self.primaryWebSocket.isSome = true ∧ self.primaryWebSocketState = .OPEN
    · right
      simp only [Client.unregisterPushHandler, hkeep, Bool.false_eq_true, if_false,
        Client.sendUnsub, hsock, and_self, if_true, true_and]
      intro e he htopic
      rw [mem_removeHandler] at he
      apply hkeep
      rw [removeHandler_keep]
      exact ⟨e, he.1, htopic, fun hh => he.2 ⟨htopic, hh⟩⟩
    · left
      simp only [Client.unregisterPushHandler, hkeep, Bool.false_eq_true, if_false,
        Client.sendUnsub, hsock, if_false]

/-! ## Inbound messages and held requests: claims C29 and C30 -/

/-- C29, as stated, fails: a `RES` without `data` for the pending request 1
leads to the error event and then resolves and removes the request; a `PUB`
without `data` leads to the error event and then to the calls of the push
handlers of its topic; and the notice `Not logged in` is dropped without an
error event. -/
theorem C29_counterexample :
    unrecognisedFormat responseWithoutData = true ∧
    (onMessage moduleGlobals { Client.new with sentWebSocketRequests := [criticalRequest] }
        (some responseWithoutData)).state.sentWebSocketRequests = [] ∧
    (onMessage moduleGlobals { Client.new with sentWebSocketRequests := [criticalRequest] }
        (some responseWithoutData)).state.calls =
      [.emitError "Received message in unrecognised format.",
        .onSuccess criticalContext none, .complete 0] ∧
    unrecognisedFormat publicationWithoutData = true ∧
    (onMessage moduleGlobals sharedClient (some publicationWithoutData)).state.calls =
      [.emitError "Received message in unrecognised format.", .push 2 none, .push 1 none] ∧
    unrecognisedFormat notLoggedIn = true ∧
    (onMessage moduleGlobals Client.new (some notLoggedIn)).state.calls = [] := by
  decide

/-- C29, amended: take an inbound message without `type`, or with a type
other than `PONG` and without `data`.  If it is the notice `Not logged in`, it
is dropped without an error event (and with the log `wut?` when the client is
authenticated).  Otherwise the error event is emitted first and the message is
then handled by its type: a `RES` as any `RES` (a pending request with its id
is resolved and removed), a `PUB` by calling the push handlers of its topic,
and any other message by a log only, so that no pending request is resolved or
removed and no push handler called. -/
theorem C29_unrecognised_format_is_reported_and_still_dispatched (g : Globals) (self : Client)
    (msg : Message) (hformat : unrecognisedFormat msg = true) :
    (notLoggedInNotice msg = true →
      (onMessage g self (some msg)).thrown = none ∧
      (onMessage g self (some msg)).state =
        if self.authenticated = true then { self with calls := self.calls ++ [.log "wut?"] }
        else self) ∧
    (notLoggedInNotice msg = false →
      (msg.type = some "RES" →
        onMessage g self (some msg) =
          onResponse g
            { self with
              calls := self.calls ++ [.emitError "Received message in unrecognised format."] }
            msg) ∧
      (msg.type = some "PUB" →
        (onMessage g self (some msg)).thrown = none ∧
        (onMessage g self (some msg)).state.sentWebSocketRequests =
          self.sentWebSocketRequests ∧
        (onMessage g self (some msg)).state.calls =
          self.calls ++ [.emitError "Received message in unrecognised format."] ++
            (self.webSocketPushHandlers.reverse.filter
              fun h => decide (some h.topic = msg.topic)).map
              fun h => Call.push h.handler msg.data) ∧
      (msg.type ≠ some "RES" → msg.type ≠ some "PUB" →
        (onMessage g self (some msg)).thrown = none ∧
        (onMessage g self (some msg)).state.sentWebSocketRequests =
          self.sentWebSocketRequests ∧
        (onMessage g self (some msg)).state.calls =
          self.calls ++ [.emitError "Received message in unrecognised format.",
            .log "Message type not recognised:"])) := by
  constructor
  · intro hnotice
    unfold onMessage
    simp only [hformat, hnotice, and_self, if_true, true_and]
  · intro hnotice
    have hkept : ¬ (unrecognisedFormat msg = true ∧ notLoggedInNotice msg = true) := by
      simp [hnotice]
    refine ⟨?_, ?_, ?_⟩
    · intro htype
      rw [onMessage_res g self msg htype hkept]
      simp only [formatCalls, hformat, if_true]
    · intro htype
      have hres : ¬ ((some "PUB" : Option String) = some "RES") := by decide
      unfold onMessage
      simp only [if_neg hkept]
      simp only [hformat, if_true, htype, if_neg hres, onPublication, true_and, and_self]
    · intro hres hpub
      have hpong : msg.type ≠ some "PONG" := by
        intro hp
        unfold unrecognisedFormat at hformat
        rw [hp] at hformat
        simp at hformat
      unfold onMessage
      simp only [if_neg hkept]
      simp only [hformat, if_true, if_neg hres, if_neg hpub, if_neg hpong,
        List.append_assoc, List.singleton_append, and_self]

/-- Witness of C29: a message without `type` reaches a client with a pending
request and a registry. -/
theorem C29_unrecognised_format_is_reported_and_still_dispatched_witness :
    (onMessage moduleGlobals
        { sharedClient with sentWebSocketRequests := [criticalRequest] }
        (some { responseWithoutData with type := none })).state.sentWebSocketRequests =
      [criticalRequest] ∧
    (onMessage moduleGlobals
        { sharedClient with sentWebSocketRequests := [criticalRequest] }
        (some { responseWithoutData with type := none })).state.calls =
      [.emitError "Received message in unrecognised format.",
        .log "Message type not recognised:"] :=
  have h := C29_unrecognised_format_is_reported_and_still_dispatched moduleGlobals
    { sharedClient with sentWebSocketRequests := [criticalRequest] }
    { responseWithoutData with type := none } (by decide)
  ⟨((h.2 (by decide)).2.2 (by decide) (by decide)).2.1,
    ((h.2 (by decide)).2.2 (by decide) (by decide)).2.2⟩

/-- The job `enqueue` adds, and the flag `started` it keeps. -/
theorem enqueue_jobs (s : JobQueue) (job context : Token) :
    (s.enqueue job context).jobs =
      s.jobs ++ [{ context := context, run := job, completed := false }] ∧
    (s.enqueue job context).started = s.started := by
  unfold JobQueue.enqueue
  split
  · rw [JobQueue.JQ_beginJob, (JobQueue.beginLoop_frame _ _).2.2.1,
      (JobQueue.beginLoop_frame _ _).2.2.2.2.2.1]
    exact ⟨rfl, rfl⟩
  · exact ⟨rfl, rfl⟩

/-- `start` on a queue that was not started returns and keeps the jobs. -/
theorem start_jobs (s : JobQueue) (h : s.started = false) :
    ∃ q, s.start = .ok q ∧ q.jobs = s.jobs := by
  unfold JobQueue.start
  rw [if_neg (by simp [h])]
  simp only
  split
  · exact ⟨_, rfl, by rw [JobQueue.JQ_beginJob, (JobQueue.beginLoop_frame _ _).2.2.1]⟩
  · split
    · exact ⟨_, rfl, rfl⟩
    · exact ⟨_, rfl, rfl⟩

/-- What `request` leaves of the client that `route` made, when the queue is
started by `request` only. -/
theorem request_of_route (self : Client) (context : Context)
    (hqueue : self.queueStarted = false → self.myJobQueue.started = false)
    (hroute : (self.route (defaultCritical context)).1.queueStarted = self.queueStarted ∧
      (self.route (defaultCritical context)).1.myJobQueue.started = self.myJobQueue.started) :
    (self.request context).thrown = none ∧
    (self.request context).client.queueStarted = true ∧
    (self.request context).client.pendingWebSocketRequests =
      (self.route (defaultCritical context)).1.pendingWebSocketRequests ∧
    (self.request context).client.jobContexts =
      (self.route (defaultCritical context)).1.jobContexts ∧
    (self.request context).client.primaryWebSocket =
      (self.route (defaultCritical context)).1.primaryWebSocket ∧
    (self.request context).client.myJobQueue.jobs =
      (self.route (defaultCritical context)).1.myJobQueue.jobs := by
  unfold Client.request
  simp only
  by_cases hq : (self.route (defaultCritical context)).1.queueStarted = false
  · rw [if_pos hq]
    have hstarted : (self.route (defaultCritical context)).1.myJobQueue.started = false := by
      rw [hroute.2]
      exact hqueue (hroute.1 ▸ hq)
    have hlimit : (self.route (defaultCritical context)).1.myJobQueue.setLimit (.num 3) =
        .ok { (self.route (defaultCritical context)).1.myJobQueue with concurrentLimit := 3 } := by
      unfold JobQueue.setLimit
      simp only
      rw [if_neg (by norm_num)]
    obtain ⟨q, hq1, hq2⟩ := start_jobs
      { (self.route (defaultCritical context)).1.myJobQueue with concurrentLimit := 3 } hstarted
    simp only [hlimit, hq1, true_and]
    exact hq2
  · rw [if_neg hq]
    exact ⟨rfl, by simpa using hq, rfl, rfl, rfl, rfl⟩

/-- The default of `critical` leaves `useHTTP` as it is. -/
theorem defaultCritical_useHTTP (context : Context) :
    (defaultCritical context).useHTTP = context.useHTTP := by
  unfold defaultCritical
  split <;> rfl

/-- A request for the socket submitted while there is no socket is appended to
the list of held requests. -/
theorem request_without_socket (self : Client) (context : Context)
    (hsocket : self.primaryWebSocket = none) (hws : context.useHTTP = false)
    (hqueue : self.queueStarted = false → self.myJobQueue.started = false) :
    (self.request context).thrown = none ∧
    (self.request context).client.queueStarted = true ∧
    (self.request context).client.pendingWebSocketRequests =
      self.pendingWebSocketRequests ++ [defaultCritical context] ∧
    (self.request context).client.primaryWebSocket = none ∧
    ∀ c, (JobKind.COREmakeWsRequest, c) ∈ (self.request context).client.jobContexts →
      (JobKind.COREmakeWsRequest, c) ∈ self.jobContexts := by
  have hr : self.route (defaultCritical context) =
      (if self.primaryWebSocketState = .CLOSED then
          ({ self with
            pendingWebSocketRequests :=
              self.pendingWebSocketRequests ++ [defaultCritical context] }
            ).COREopenPrimaryWebSocket
        else
          { self with
            pendingWebSocketRequests :=
              self.pendingWebSocketRequests ++ [defaultCritical context] },
        defaultCritical context) := by
    unfold Client.route
    rw [if_neg (by simp [defaultCritical_useHTTP, hws]), hsocket]
  have hfields : (self.route (defaultCritical context)).1.queueStarted = self.queueStarted ∧
      (self.route (defaultCritical context)).1.myJobQueue.started = self.myJobQueue.started ∧
      (self.route (defaultCritical context)).1.pendingWebSocketRequests =
        self.pendingWebSocketRequests ++ [defaultCritical context] ∧
      (self.route (defaultCritical context)).1.primaryWebSocket = none ∧
      ∀ c, (JobKind.COREmakeWsRequest, c) ∈ (self.route (defaultCritical context)).1.jobContexts →
        (JobKind.COREmakeWsRequest, c) ∈ self.jobContexts := by
    rw [hr]
    simp only
    split
    · refine ⟨rfl, (enqueue_jobs _ _ _).2, rfl, hsocket, ?_⟩
      intro c hc
      simpa [Client.COREopenPrimaryWebSocket, Client.enqueueJob] using hc
    · exact ⟨rfl, rfl, rfl, hsocket, fun c hc => hc⟩
  obtain ⟨h1, h2, h3, h4, h5, -⟩ := request_of_route self context hqueue ⟨hfields.1, hfields.2.1⟩
  exact ⟨h1, h2, h3.trans hfields.2.2.1, h5.trans hfields.2.2.2.1,
    fun c hc => hfields.2.2.2.2 c (h4 ▸ hc)⟩

/-- A request for the socket submitted while the socket is open is enqueued as
a job that sends it. -/
theorem request_with_socket (self : Client) (context : Context)
    (hsocket : self.primaryWebSocket = some true) (hws : context.useHTTP = false)
    (hqueue : self.queueStarted = false → self.myJobQueue.started = false) :
    (self.request context).thrown = none ∧
    (self.request context).client.queueStarted = true ∧
    (self.request context).client.pendingWebSocketRequests = self.pendingWebSocketRequests ∧
    (self.request context).client.primaryWebSocket = some true ∧
    (self.request context).client.jobContexts =
      self.jobContexts ++
        [(JobKind.COREmakeWsRequest, some { defaultCritical context with self := true })] ∧
    (self.request context).client.myJobQueue.jobs =
      self.myJobQueue.jobs ++
        [{ context := self.jobContexts.length, run := JobKind.COREmakeWsRequest.token,
           completed := false }] := by
  have hr : self.route (defaultCritical context) =
      (self.enqueueJob .COREmakeWsRequest (some { defaultCritical context with self := true }),
        { defaultCritical context with self := true }) := by
    unfold Client.route
    rw [if_neg (by simp [defaultCritical_useHTTP, hws]), hsocket]
  have he := enqueue_jobs self.myJobQueue JobKind.COREmakeWsRequest.token self.jobContexts.length
  obtain ⟨h1, h2, h3, h4, h5, h6⟩ := request_of_route self context hqueue
    (by rw [hr]; exact ⟨rfl, he.2⟩)
  rw [hr] at h3 h4 h5 h6
  exact ⟨h1, h2, h3, h5.trans hsocket, h4, h6.trans he.1⟩

/-- The default of `critical` is set once. -/
theorem defaultCritical_idem (context : Context) :
    defaultCritical (defaultCritical context) = defaultCritical context := by
  unfold defaultCritical
  cases h : context.critical with
  | none => simp
  | some b => simp [h]

/-- Requests for the socket submitted one after the other while there is no
socket are appended to the held list in that order, and none is enqueued as a
job that sends it. -/
theorem requestAll_without_socket (contexts : List Context) :
    ∀ self : Client, self.primaryWebSocket = none →
      (∀ c ∈ contexts, c.useHTTP = false) →
      (self.queueStarted = false → self.myJobQueue.started = false) →
      (self.requestAll contexts).pendingWebSocketRequests =
        self.pendingWebSocketRequests ++ contexts.map defaultCritical ∧
      (self.requestAll contexts).primaryWebSocket = none ∧
      ((self.requestAll contexts).queueStarted = false →
        (self.requestAll contexts).myJobQueue.started = false) ∧
      ∀ c, (JobKind.COREmakeWsRequest, c) ∈ (self.requestAll contexts).jobContexts →
        (JobKind.COREmakeWsRequest, c) ∈ self.jobContexts := by
  induction contexts with
  | nil => intro self hsocket _ hqueue; exact ⟨by simp [Client.requestAll], hsocket, hqueue,
      fun c hc => hc⟩
  | cons context rest ih =>
    intro self hsocket hws hqueue
    obtain ⟨-, h2, h3, h4, h5⟩ := request_without_socket self context hsocket
      (hws context (List.mem_cons_self _ _)) hqueue
    obtain ⟨i1, i2, i3, i4⟩ := ih (self.request context).client h4
      (fun c hc => hws c (List.mem_cons_of_mem _ hc)) (fun hf => by rw [h2] at hf; cases hf)
    refine ⟨?_, i2, i3, fun c hc => h5 c (i4 c hc)⟩
    change ((self.request context).client.requestAll rest).pendingWebSocketRequests = _
    rw [i1, h3]
    simp

/-- The requests flushed while the socket is open are enqueued, in their
order, as jobs that send them. -/
theorem flush_with_socket (contexts : List Context) :
    ∀ self : Client, self.primaryWebSocket = some true →
      (∀ c ∈ contexts, c.useHTTP = false) →
      (self.queueStarted = false → self.myJobQueue.started = false) →
      (self.flush contexts).thrown = none ∧
      (self.flush contexts).state.jobContexts =
        self.jobContexts ++ contexts.map (fun c =>
          (JobKind.COREmakeWsRequest, some { defaultCritical c with self := true })) ∧
      (self.flush contexts).state.myJobQueue.jobs =
        self.myJobQueue.jobs ++ (List.range contexts.length).map fun i =>
          { context := self.jobContexts.length + i, run := JobKind.COREmakeWsRequest.token,
            completed := false } := by
  induction contexts with
  | nil => intro self _ _ _; exact ⟨rfl, by simp [Client.flush], by simp [Client.flush]⟩
  | cons context rest ih =>
    intro self hsocket hws hqueue
    obtain ⟨h1, h2, -, h4, h5, h6⟩ := request_with_socket self context hsocket
      (hws context (List.mem_cons_self _ _)) hqueue
    obtain ⟨i1, i2, i3⟩ := ih (self.request context).client h4
      (fun c hc => hws c (List.mem_cons_of_mem _ hc)) (fun hf => by rw [h2] at hf; cases hf)
    have hflush : self.flush (context :: rest) = (self.request context).client.flush rest := by
      rw [Client.flush]
      simp only [h1]
    rw [hflush]
    refine ⟨i1, ?_, ?_⟩
    · rw [i2, h5]
      simp
    · rw [i3, h6, h5, List.length_cons, List.range_succ_eq_map]
      simp [Nat.add_assoc, Nat.add_comm 1]

/-- When the socket opens, `onOpen` returns, the held requests are enqueued in
their order as jobs that send them, and the held list is empty. -/
theorem onOpen_flushes (held : Client)
    (hall : ∀ c ∈ held.pendingWebSocketRequests, c.useHTTP = false)
    (hqueue : held.queueStarted = false → held.myJobQueue.started = false) :
    (held.onOpen true).thrown = none ∧
    (held.onOpen true).state.pendingWebSocketRequests = [] ∧
    (held.onOpen true).state.jobContexts =
      held.jobContexts ++ held.pendingWebSocketRequests.map (fun c =>
        (JobKind.COREmakeWsRequest, some { defaultCritical c with self := true })) ∧
    (held.onOpen true).state.myJobQueue.jobs =
      held.myJobQueue.jobs ++ (List.range held.pendingWebSocketRequests.length).map fun i =>
        { context := held.jobContexts.length + i, run := JobKind.COREmakeWsRequest.token,
          completed := false } := by
  obtain ⟨f1, f2, f3⟩ := flush_with_socket held.pendingWebSocketRequests
    { held with
      calls := held.calls ++ [.emitEvent "connectionRestore"]
        ++ held.webSocketPushHandlers.map fun h => Call.log ("Subscribing to " ++ h.topic)
      primaryWebSocket := some true
      primaryWebSocketState := .OPEN
      reconnectAttempts := 0
      wire := held.wire ++ held.webSocketPushHandlers.map fun h => WireMsg.sub h.topic }
    rfl hall hqueue
  dsimp only at f1 f2 f3
  unfold Client.onOpen
  dsimp only
  rw [f1]
  exact ⟨rfl, rfl, f2, f3⟩

/-- C30: requests for the socket (`useHTTP` not set) submitted one after the
other while no socket exists are appended to the list of held requests in the
order of the calls, and none of them is enqueued for sending; when the socket
then opens, `onOpen` returns, the held requests, those held before included,
are enqueued as jobs that send them, in the order of the list, each once, and
the list is empty. -/
theorem C30_held_requests_are_flushed_in_order (self : Client) (contexts : List Context)
    (hsocket : self.primaryWebSocket = none)
    (hws : ∀ c ∈ contexts, c.useHTTP = false)
    (hheld : ∀ c ∈ self.pendingWebSocketRequests, c.useHTTP = false)
    (hqueue : self.queueStarted = false → self.myJobQueue.started = false) :
    (self.requestAll contexts).pendingWebSocketRequests =
      self.pendingWebSocketRequests ++ contexts.map defaultCritical ∧
    (∀ c, (JobKind.COREmakeWsRequest, c) ∈ (self.requestAll contexts).jobContexts →
      (JobKind.COREmakeWsRequest, c) ∈ self.jobContexts) ∧
    ((self.requestAll contexts).onOpen true).thrown = none ∧
    ((self.requestAll contexts).onOpen true).state.pendingWebSocketRequests = [] ∧
    ((self.requestAll contexts).onOpen true).state.jobContexts =
      (self.requestAll contexts).jobContexts ++
        (self.pendingWebSocketRequests ++ contexts).map (fun c =>
          (JobKind.COREmakeWsRequest, some { defaultCritical c with self := true })) ∧
    ((self.requestAll contexts).onOpen true).state.myJobQueue.jobs =
      (self.requestAll contexts).myJobQueue.jobs ++
        (List.range (self.pendingWebSocketRequests.length + contexts.length)).map fun i =>
          { context := (self.requestAll contexts).jobContexts.length + i,
            run := JobKind.COREmakeWsRequest.token, completed := false } := by
  obtain ⟨h1, -, h3, h4⟩ := requestAll_without_socket contexts self hsocket hws hqueue
  have hall : ∀ c ∈ (self.requestAll contexts).pendingWebSocketRequests, c.useHTTP = false := by
    intro c hc
    rw [h1] at hc
    rcases List.mem_append.1 hc with h | h
    · exact hheld c h
    · obtain ⟨c0, hc0, rfl⟩ := List.mem_map.1 h
      rw [defaultCritical_useHTTP]
      exact hws c0 hc0
  obtain ⟨o1, o2, o3, o4⟩ := onOpen_flushes (self.requestAll contexts) hall h3
  refine ⟨h1, h4, o1, o2, ?_, ?_⟩
  · rw [o3, h1]
    simp only [List.map_append, List.map_map, Function.comp_def, defaultCritical_idem]
  · rw [o4, h1]
    simp only [List.length_append, List.length_map]

/-- Witness of C30: two requests are submitted on a new client, which has no
socket; then the socket opens. -/
theorem C30_held_requests_are_flushed_in_order_witness :
    (Client.new.requestAll [plainContext, criticalContext]).pendingWebSocketRequests =
      [plainContext, criticalContext] ∧
    ((Client.new.requestAll [plainContext, criticalContext]).onOpen true).state.jobContexts =
      [(.COREmakeWebSocketConnection, none),
        (.COREmakeWsRequest, some plainContext),
        (.COREmakeWsRequest, some criticalContext)] ∧
    ((Client.new.requestAll [plainContext, criticalContext]).onOpen
      true).state.pendingWebSocketRequests = [] :=
  have h := C30_held_requests_are_flushed_in_order Client.new [plainContext, criticalContext]
    rfl (by decide) (by decide) (fun _ => rfl)
  ⟨h.1, h.2.2.2.2.1.trans (by decide), h.2.2.2.1⟩

/-! ## Connection manager and job queue: claims C31 to C33 -/

/-- C31: the handler of the socket's event `close` clears the socket; in state
`CLOSING` it sets the state to `CLOSED` and leaves the job queue and the list
of enqueued contexts as they are; in every other state it sets the state to
`RECONN` and enqueues exactly one job, a connection attempt, at the end of the
job queue. -/
theorem C31_close_reconnects_unless_closing (self : Client) :
    (self.onClose).primaryWebSocket = none ∧
    (self.primaryWebSocketState = .CLOSING →
      (self.onClose).primaryWebSocketState = .CLOSED ∧
      (self.onClose).jobContexts = self.jobContexts ∧
      (self.onClose).myJobQueue = self.myJobQueue) ∧
    (self.primaryWebSocketState ≠ .CLOSING →
      (self.onClose).primaryWebSocketState = .RECONN ∧
      (self.onClose).jobContexts =
        self.jobContexts ++ [(JobKind.COREmakeWebSocketConnection, none)] ∧
      (self.onClose).myJobQueue =
        self.myJobQueue.enqueue JobKind.COREmakeWebSocketConnection.token
          self.jobContexts.length ∧
      (self.onClose).myJobQueue.jobs =
        self.myJobQueue.jobs ++
          [{ context := self.jobContexts.length,
             run := JobKind.COREmakeWebSocketConnection.token, completed := false }]) ∧
    (sharedClient.onClose).primaryWebSocketState = .RECONN ∧
    (sharedClient.onClose).jobContexts = [(JobKind.COREmakeWebSocketConnection, none)] ∧
    (({ sharedClient with primaryWebSocketState := .CLOSING } : Client).onClose
      ).primaryWebSocketState = .CLOSED ∧
    (({ sharedClient with primaryWebSocketState := .CLOSING } : Client).onClose
      ).jobContexts = [] := by
  refine ⟨?_, ?_, ?_, by decide, by decide, by decide, by decide⟩
  · unfold Client.onClose
    split <;> rfl
  · intro h
    simp only [Client.onClose, h, if_true, and_self]
  · intro h
    simp only [Client.onClose, if_neg h, Client.enqueueJob, true_and]
    exact (enqueue_jobs _ _ _).1

/-- Rounding to the nearest whole number never passes a whole number above. -/
theorem roundHalfEven_le (q : ℚ) (a : ℤ) (h : q ≤ a) : roundHalfEven q ≤ a := by
  have hfl : ⌊q⌋ ≤ a := (Int.floor_le_floor h).trans (le_of_eq (Int.floor_intCast a))
  have hlt : q < (⌊q⌋ : ℚ) + 1 := Int.lt_floor_add_one q
  have hstep : (0 : ℚ) < q - ⌊q⌋ → ⌊q⌋ + 1 ≤ a := by
    intro hpos
    have : ((⌊q⌋ : ℤ) : ℚ) < a := by linarith
    have : ⌊q⌋ < a := by exact_mod_cast this
    omega
  unfold roundHalfEven
  split
  · exact hfl
  · rename_i h1
    have hpos : (0 : ℚ) < q - ⌊q⌋ := by
      have : (1 : ℚ) / 2 ≤ q - ⌊q⌋ := not_lt.1 h1
      linarith
    split
    · exact hstep hpos
    · split
      · exact hfl
      · exact hstep hpos

/-- Rounding to the nearest whole number never passes a whole number below. -/
theorem le_roundHalfEven (q : ℚ) (a : ℤ) (h : (a : ℚ) ≤ q) : a ≤ roundHalfEven q := by
  have hfl : a ≤ ⌊q⌋ := Int.le_floor.2 h
  unfold roundHalfEven
  repeat' split
  all_goals omega

/-- Rounding to the nearest whole number moves by a half at most. -/
theorem roundHalfEven_near (q : ℚ) : |(roundHalfEven q : ℚ) - q| ≤ 1 / 2 := by
  have h1 : ((⌊q⌋ : ℤ) : ℚ) ≤ q := Int.floor_le q
  have h2 : q < (⌊q⌋ : ℚ) + 1 := Int.lt_floor_add_one q
  rw [abs_le]
  unfold roundHalfEven
  split
  · constructor <;> linarith
  · rename_i h3
    have h3 : (1 : ℚ) / 2 ≤ q - ⌊q⌋ := not_lt.1 h3
    split
    · push_cast
      constructor <;> linarith
    · rename_i h4
      have h4 : q - ⌊q⌋ ≤ (1 : ℚ) / 2 := not_lt.1 h4
      split
      · constructor <;> linarith
      · push_cast
        constructor <;> linarith

/-- The whole number reached when the fraction is below a half. -/
theorem roundHalfEven_down (q : ℚ) (z : ℤ) (h1 : (z : ℚ) ≤ q) (h2 : q - z < 1 / 2) :
    roundHalfEven q = z := by
  have hfl : ⌊q⌋ = z := Int.floor_eq_iff.2 ⟨h1, by linarith⟩
  unfold roundHalfEven
  rw [hfl, if_pos h2]

/-- The whole number reached when the fraction is above a half. -/
theorem roundHalfEven_up (q : ℚ) (z : ℤ) (h1 : (1 : ℚ) / 2 < q - z) (h2 : q < (z : ℚ) + 1) :
    roundHalfEven q = z + 1 := by
  have hfl : ⌊q⌋ = z := Int.floor_eq_iff.2 ⟨by linarith, h2⟩
  unfold roundHalfEven
  rw [hfl, if_neg (not_lt.2 h1.le), if_pos h1]

/-- The exponent of a number below `2 ^ (k + 1)`. -/
theorem binade_le (x : ℚ) (k : ℤ) (hk : 0 ≤ k) (h : x < 2 ^ (k + 1)) : binade x ≤ k := by
  unfold binade
  apply max_le _ (by omega)
  rcases le_or_lt x 0 with h0 | h0
  · rw [Int.log_of_right_le_zero 2 h0]
    exact hk
  · have := (Int.lt_zpow_iff_log_lt (b := 2) (by norm_num) h0).1 (by simpa using h)
    omega

/-- The exponent of a number from `2 ^ e` up to `2 ^ (e + 1)`. -/
theorem binade_eq (x : ℚ) (e : ℤ) (he : -1022 ≤ e) (h1 : 2 ^ e ≤ x) (h2 : x < 2 ^ (e + 1)) :
    binade x = e := by
  have h0 : 0 < x := lt_of_lt_of_le (by positivity) h1
  have hlt := (Int.lt_zpow_iff_log_lt (b := 2) (by norm_num) h0).1 (by simpa using h2)
  have hle := (Int.zpow_le_iff_le_log (b := 2) (by norm_num) h0).1 (by simpa using h1)
  unfold binade
  rw [max_eq_left (by omega)]
  omega

/-- The double of a number that is not negative. -/
theorem toDouble_of_nonneg (x : ℚ) (h : 0 ≤ x) :
    toDouble x = (roundHalfEven (x / 2 ^ (binade x - 52)) : ℚ) * 2 ^ (binade x - 52) := by
  unfold toDouble
  rw [if_neg (not_lt.2 h)]

/-- A multiple `a * 2 ^ t` of a power of two that is no finer than the doubles
around `x` is a multiple of their distance. -/
theorem grid_multiple (a t e : ℤ) (h : e ≤ t) :
    (a : ℚ) * 2 ^ t = ((a * 2 ^ (t - e).toNat : ℤ) : ℚ) * 2 ^ e := by
  have ht : t = ((t - e).toNat : ℤ) + e := by omega
  conv_lhs => rw [ht]
  rw [zpow_add₀ (by norm_num : (2 : ℚ) ≠ 0), zpow_natCast]
  push_cast
  ring

/-- Rounding to a double never passes a double above. -/
theorem toDouble_le (x : ℚ) (a t : ℤ) (hx : 0 ≤ x) (hgrid : binade x - 52 ≤ t)
    (h : x ≤ a * 2 ^ t) : toDouble x ≤ a * 2 ^ t := by
  have hu : (0 : ℚ) < 2 ^ (binade x - 52) := by positivity
  rw [toDouble_of_nonneg x hx, grid_multiple a t _ hgrid] at *
  apply mul_le_mul_of_nonneg_right _ hu.le
  have hq : x / 2 ^ (binade x - 52) ≤ ((a * 2 ^ (t - (binade x - 52)).toNat : ℤ) : ℚ) := by
    rw [div_le_iff₀ hu]
    exact h
  exact_mod_cast roundHalfEven_le _ _ hq

/-- Rounding to a double never passes a double below. -/
theorem le_toDouble (x : ℚ) (a t : ℤ) (hx : 0 ≤ x) (hgrid : binade x - 52 ≤ t)
    (h : (a : ℚ) * 2 ^ t ≤ x) : (a : ℚ) * 2 ^ t ≤ toDouble x := by
  have hu : (0 : ℚ) < 2 ^ (binade x - 52) := by positivity
  rw [toDouble_of_nonneg x hx, grid_multiple a t _ hgrid] at *
  apply mul_le_mul_of_nonneg_right _ hu.le
  have hq : ((a * 2 ^ (t - (binade x - 52)).toNat : ℤ) : ℚ) ≤ x / 2 ^ (binade x - 52) := by
    rw [le_div_iff₀ hu]
    exact h
  exact_mod_cast le_roundHalfEven _ _ hq

/-- Rounding to a double moves by half the distance of the doubles at most. -/
theorem toDouble_near (x : ℚ) (k : ℤ) (hx : 0 ≤ x) (hk : 0 ≤ k) (h : x < 2 ^ (k + 1)) :
    |toDouble x - x| ≤ 2 ^ (k - 53) := by
  have hu : (0 : ℚ) < 2 ^ (binade x - 52) := by positivity
  have hb := binade_le x k hk h
  have hle : (2 : ℚ) ^ (binade x - 52) ≤ 2 ^ (k - 52) :=
    zpow_le_zpow_right₀ (by norm_num) (by omega)
  have hhalf : (2 : ℚ) ^ (k - 52) = 2 * 2 ^ (k - 53) := by
    have : k - 52 = 1 + (k - 53) := by omega
    rw [this, zpow_add₀ (by norm_num : (2 : ℚ) ≠ 0)]
    norm_num
  have hnear := roundHalfEven_near (x / 2 ^ (binade x - 52))
  have heq : toDouble x - x =
      ((roundHalfEven (x / 2 ^ (binade x - 52)) : ℚ) - x / 2 ^ (binade x - 52)) *
        2 ^ (binade x - 52) := by
    rw [toDouble_of_nonneg x hx]
    field_simp
  rw [heq, abs_mul, abs_of_pos hu]
  calc |(roundHalfEven (x / 2 ^ (binade x - 52)) : ℚ) - x / 2 ^ (binade x - 52)| *
        2 ^ (binade x - 52)
      ≤ 1 / 2 * 2 ^ (binade x - 52) := mul_le_mul_of_nonneg_right hnear hu.le
    _ ≤ 1 / 2 * 2 ^ (k - 52) := by linarith
    _ = 2 ^ (k - 53) := by rw [hhalf]; ring

/-- Rounding to a double never passes a whole number above, while the doubles
around `x` are no coarser than the whole numbers. -/
theorem toDouble_le_int (x : ℚ) (a : ℤ) (hx : 0 ≤ x) (hb : binade x ≤ 52) (h : x ≤ a) :
    toDouble x ≤ a := by
  have := toDouble_le x a 0 hx (by omega) (by simpa using h)
  simpa using this

/-- Rounding to a double never passes a whole number below, while the doubles
around `x` are no coarser than the whole numbers. -/
theorem int_le_toDouble (x : ℚ) (a : ℤ) (hx : 0 ≤ x) (hb : binade x ≤ 52) (h : (a : ℚ) ≤ x) :
    (a : ℚ) ≤ toDouble x := by
  have := le_toDouble x a 0 hx (by omega) (by simpa using h)
  simpa using this

/-- The double of a number whose exponent and rounded multiple are known. -/
theorem toDouble_eq (x : ℚ) (e z : ℤ) (he : -1022 ≤ e) (h1 : 2 ^ e ≤ x) (h2 : x < 2 ^ (e + 1))
    (hz : roundHalfEven (x / 2 ^ (e - 52)) = z) : toDouble x = z * 2 ^ (e - 52) := by
  have h0 : 0 ≤ x := le_trans (by positivity) h1
  rw [toDouble_of_nonneg x h0, binade_eq x e he h1 h2, hz]

/-- The product `1000 * n` as a double is at least 10000 from `n = 10` on. -/
theorem toDouble_thousands_ge (n : Nat) (hn : 10 ≤ n) :
    (10000 : ℚ) ≤ toDouble (1000 * (n : ℚ)) := by
  have hn1 : (10 : ℚ) ≤ n := by exact_mod_cast hn
  have hx : (0 : ℚ) ≤ 1000 * (n : ℚ) := by positivity
  have hpos : (0 : ℚ) < 1000 * (n : ℚ) := by linarith
  rcases le_or_lt (binade (1000 * (n : ℚ))) 52 with hb | hb
  · have := int_le_toDouble (1000 * (n : ℚ)) 10000 hx hb (by push_cast; linarith)
    exact_mod_cast this
  · have hlog : binade (1000 * (n : ℚ)) = Int.log 2 (1000 * (n : ℚ)) := by
      unfold binade at hb ⊢
      apply max_eq_left
      by_contra hlt
      rw [max_eq_right (by omega)] at hb
      omega
    have hpow : (2 : ℚ) ^ binade (1000 * (n : ℚ)) ≤ 1000 * (n : ℚ) := by
      rw [hlog]
      simpa using Int.zpow_log_le_self (b := 2) (r := 1000 * (n : ℚ)) (by norm_num) hpos
    have hsplit : (2 : ℚ) ^ binade (1000 * (n : ℚ)) =
        ((2 ^ 52 : ℤ) : ℚ) * 2 ^ (binade (1000 * (n : ℚ)) - 52) := by
      have : binade (1000 * (n : ℚ)) = 52 + (binade (1000 * (n : ℚ)) - 52) := by omega
      conv_lhs => rw [this]
      rw [zpow_add₀ (by norm_num : (2 : ℚ) ≠ 0)]
      norm_num
    have hge := le_toDouble (1000 * (n : ℚ)) (2 ^ 52) (binade (1000 * (n : ℚ)) - 52) hx
      (le_refl _) (hsplit ▸ hpow)
    have hone : (1 : ℚ) ≤ 2 ^ (binade (1000 * (n : ℚ)) - 52) :=
      one_le_zpow₀ (by norm_num) (by omega)
    have hbig : (10000 : ℚ) ≤ ((2 ^ 52 : ℤ) : ℚ) * 2 ^ (binade (1000 * (n : ℚ)) - 52) := by
      have h52 : (10000 : ℚ) ≤ ((2 ^ 52 : ℤ) : ℚ) := by norm_num
      nlinarith
    linarith

/-- The part of the delay without `Math.random()`, computed in doubles, is the
exact `min(1000 n, 10000)`. -/
theorem toDouble_thousands (n : Nat) :
    min (toDouble (1000 * (n : ℚ))) 10000 = min (1000 * (n : ℚ)) 10000 := by
  rcases Nat.lt_or_ge n 10 with hn | hn
  · have hn1 : (n : ℚ) ≤ 9 := by exact_mod_cast Nat.lt_succ_iff.1 hn
    have hx : (0 : ℚ) ≤ 1000 * (n : ℚ) := by positivity
    have hb : binade (1000 * (n : ℚ)) ≤ 52 := by
      have := binade_le (1000 * (n : ℚ)) 13 (by norm_num) (by norm_num; linarith)
      omega
    have h1 := toDouble_le_int (1000 * (n : ℚ)) (1000 * n) hx hb (by push_cast; exact le_refl _)
    have h2 := int_le_toDouble (1000 * (n : ℚ)) (1000 * n) hx hb (by push_cast; exact le_refl _)
    push_cast at h1 h2
    rw [le_antisymm h1 h2]
  · have hn1 : (10 : ℚ) ≤ n := by exact_mod_cast hn
    rw [min_eq_right (toDouble_thousands_ge n hn), min_eq_right (by linarith)]

/-- The double of the product of a value of `Math.random()` and 2000. -/
theorem toDouble_jitter (r : ℚ) (hr0 : 0 ≤ r) (hr1 : r < 1) :
    0 ≤ toDouble (r * 2000) ∧ toDouble (r * 2000) ≤ 2000 ∧
    |toDouble (r * 2000) - 2000 * r| ≤ 2 ^ (-43 : ℤ) := by
  have hx : (0 : ℚ) ≤ r * 2000 := by positivity
  have hlt : r * 2000 < 2 ^ ((10 : ℤ) + 1) := by norm_num; linarith
  have hb : binade (r * 2000) ≤ 52 := by
    have := binade_le (r * 2000) 10 (by norm_num) hlt
    omega
  have h1 := int_le_toDouble (r * 2000) 0 hx hb (by simpa using hx)
  have h2 := toDouble_le_int (r * 2000) 2000 hx hb (by push_cast; linarith)
  have h3 := toDouble_near (r * 2000) 10 hx (by norm_num) hlt
  refine ⟨by simpa using h1, by simpa using h2, ?_⟩
  rw [mul_comm 2000 r]
  simpa using h3

/-- The double of a sum between 1000 and 12000. -/
theorem toDouble_sum (s : ℚ) (h1 : 1000 ≤ s) (h2 : s ≤ 12000) :
    1000 ≤ toDouble s ∧ toDouble s ≤ 12000 ∧ |toDouble s - s| ≤ 2 ^ (-40 : ℤ) := by
  have hx : (0 : ℚ) ≤ s := by linarith
  have hlt : s < 2 ^ ((13 : ℤ) + 1) := by norm_num; linarith
  have hb : binade s ≤ 52 := by
    have := binade_le s 13 (by norm_num) hlt
    omega
  have h3 := int_le_toDouble s 1000 hx hb (by push_cast; linarith)
  have h4 := toDouble_le_int s 12000 hx hb (by push_cast; linarith)
  have h5 := toDouble_near s 13 hx (by norm_num) hlt
  exact ⟨by simpa using h3, by simpa using h4, by simpa using h5⟩

/-- C32, as stated, fails in the arithmetic of JavaScript numbers: for the
tenth attempt and `Math.random() = 1 - 2^-52` the product with 2000 is the
double `2000 - 2^-41`, and its sum with 10000 rounds to the double 12000, so
the delay is 12 seconds, not below. -/
theorem C32_counterexample :
    (0 : ℚ) ≤ 1 - 1 / 2 ^ 52 ∧ (1 : ℚ) - 1 / 2 ^ 52 < 1 ∧
    toDouble ((1 - 1 / 2 ^ 52) * 2000) = 2000 - 1 / 2 ^ 41 ∧
    probeDelay 10 (1 - 1 / 2 ^ 52) = 12000 := by
  have hj : toDouble ((1 - 1 / 2 ^ 52) * 2000) = 2000 - 1 / 2 ^ 41 := by
    rw [toDouble_eq ((1 - 1 / 2 ^ 52) * 2000) 10 8796093022207998 (by norm_num) (by norm_num)
      (by norm_num)
      (roundHalfEven_down _ _ (by norm_num) (by norm_num))]
    norm_num
  have hd : min (toDouble (1000 * ((10 : ℕ) : ℚ))) 10000 = 10000 := by
    rw [toDouble_thousands]
    norm_num
  refine ⟨by norm_num, by norm_num, hj, ?_⟩
  unfold probeDelay
  rw [hd, hj]
  rw [toDouble_eq (10000 + (2000 - 1 / 2 ^ 41)) 13 (6597069766655999 + 1) (by norm_num)
    (by norm_num) (by norm_num)
    (roundHalfEven_up _ _ (by norm_num) (by norm_num))]
  norm_num

/-- C32, amended: for the attempt number `n ≥ 1` and a value `r` of
`Math.random()` with `0 ≤ r < 1`, the delay of the probe is
`min(1000 n, 10000) + 2000 r` milliseconds computed in doubles: the part
without `r` is exact, does not decrease when `n` grows, is 10000 from the
tenth attempt on and never more; the delay is the double of the sum of that
part and the double of `2000 r`, differs from the exact value by `2^-39` at
most, is at least 1000 and at most 12000; `pingCycle` raises the attempt
number by one before it computes the delay, so the number is at least 1. -/
theorem C32_probe_delay_is_capped_with_jitter (n m : Nat) (r : ℚ) (self : Client)
    (hn : 1 ≤ n) (hnm : n ≤ m) (hr0 : 0 ≤ r) (hr1 : r < 1) :
    min (toDouble (1000 * (n : ℚ))) 10000 = min (1000 * (n : ℚ)) 10000 ∧
    probeDelay n r = toDouble (min (1000 * (n : ℚ)) 10000 + toDouble (r * 2000)) ∧
    |probeDelay n r - (min (1000 * (n : ℚ)) 10000 + 2000 * r)| ≤ 2 ^ (-39 : ℤ) ∧
    min (1000 * (n : ℚ)) 10000 ≤ min (1000 * (m : ℚ)) 10000 ∧
    min (1000 * (n : ℚ)) 10000 ≤ 10000 ∧
    (10 ≤ n → min (1000 * (n : ℚ)) 10000 = 10000) ∧
    1000 ≤ probeDelay n r ∧
    probeDelay n r ≤ 12000 ∧
    (self.pingCycle r).2 = probeDelay (self.reconnectAttempts + 1) r ∧
    (self.pingCycle r).1.reconnectAttempts = self.reconnectAttempts + 1 ∧
    1 ≤ (self.pingCycle r).1.reconnectAttempts := by
  have hn1 : (1 : ℚ) ≤ n := by exact_mod_cast hn
  have hnm1 : (n : ℚ) ≤ m := by exact_mod_cast hnm
  have hcap : min (1000 * (n : ℚ)) 10000 ≤ 10000 := min_le_right _ _
  have hlow : (1000 : ℚ) ≤ min (1000 * (n : ℚ)) 10000 := by
    apply le_min
    · linarith
    · norm_num
  obtain ⟨j0, j1, j2⟩ := toDouble_jitter r hr0 hr1
  have hp : probeDelay n r =
      toDouble (min (1000 * (n : ℚ)) 10000 + toDouble (r * 2000)) := by
    unfold probeDelay
    rw [toDouble_thousands]
  obtain ⟨s1, s2, s3⟩ := toDouble_sum (min (1000 * (n : ℚ)) 10000 + toDouble (r * 2000))
    (by linarith) (by linarith)
  refine ⟨toDouble_thousands n, hp, ?_, min_le_min (by linarith) (le_refl _), hcap, ?_,
    hp ▸ s1, hp ▸ s2, rfl, rfl, Nat.le_add_left _ _⟩
  · rw [hp]
    have htri : |toDouble (min (1000 * (n : ℚ)) 10000 + toDouble (r * 2000)) -
        (min (1000 * (n : ℚ)) 10000 + 2000 * r)| ≤
        |toDouble (min (1000 * (n : ℚ)) 10000 + toDouble (r * 2000)) -
          (min (1000 * (n : ℚ)) 10000 + toDouble (r * 2000))| +
        |toDouble (r * 2000) - 2000 * r| := by
      have := abs_add (toDouble (min (1000 * (n : ℚ)) 10000 + toDouble (r * 2000)) -
          (min (1000 * (n : ℚ)) 10000 + toDouble (r * 2000)))
        (toDouble (r * 2000) - 2000 * r)
      convert this using 2
      ring
    have hsum : (2 : ℚ) ^ (-40 : ℤ) + 2 ^ (-43 : ℤ) ≤ 2 ^ (-39 : ℤ) := by norm_num
    linarith
  · intro h10
    have : (10 : ℚ) ≤ n := by exact_mod_cast h10
    exact min_eq_right (by linarith)

/-- Witness of C32: the third attempt with `r = 1/2`, and the twelfth. -/
theorem C32_probe_delay_is_capped_with_jitter_witness :
    1000 ≤ probeDelay 3 (1 / 2) ∧ probeDelay 3 (1 / 2) ≤ 12000 ∧
    |probeDelay 3 (1 / 2) - (min (1000 * ((3 : ℕ) : ℚ)) 10000 + 2000 * (1 / 2))|
      ≤ 2 ^ (-39 : ℤ) ∧
    min (1000 * ((3 : ℕ) : ℚ)) 10000 ≤ min (1000 * ((12 : ℕ) : ℚ)) 10000 :=
  have h := C32_probe_delay_is_capped_with_jitter 3 12 (1 / 2) Client.new (by decide)
    (by decide) (by norm_num) (by norm_num)
  ⟨h.2.2.2.2.2.2.1, h.2.2.2.2.2.2.2.1, h.2.2.1, h.2.2.2.1⟩

namespace JobQueue

/-- The scheduling loop keeps `activeJobs` within a whole-number limit and
within `queueLength`. -/
theorem beginLoop_le (L : ℕ) (fuel : Nat) (s : JobQueue) (hlimit : s.concurrentLimit = L)
    (h1 : s.activeJobs ≤ L) (h2 : s.activeJobs ≤ s.queueLength) :
    (beginLoop fuel s).activeJobs ≤ L ∧
    (beginLoop fuel s).activeJobs ≤ (beginLoop fuel s).queueLength := by
  induction fuel generalizing s with
  | zero => exact ⟨h1, h2⟩
  | succ k ih =>
    unfold beginLoop
    split
    · rename_i hc
      have hlt : (s.activeJobs : ℚ) < (L : ℚ) := hlimit ▸ hc.2.2.1
      have hlt1 : s.activeJobs < (L : Int) := by exact_mod_cast hlt
      have hlt2 : s.activeJobs < s.queueLength := hc.2.2.2
      exact ih _ hlimit (show s.activeJobs + 1 ≤ (L : Int) by omega)
        (show s.activeJobs + 1 ≤ s.queueLength by omega)
    · exact ⟨h1, h2⟩

/-- After the scheduling loop on a started queue that is not aborted and has
the whole-number limit `L`, `activeJobs` is the smaller of `L` and
`queueLength`. -/
theorem beginJob_busy (L : ℕ) (s : JobQueue) (hstarted : s.started = true)
    (haborted : s.aborted = false) (hlimit : s.concurrentLimit = L)
    (h1 : s.activeJobs ≤ L) (h2 : s.activeJobs ≤ s.queueLength) :
    (JQ_beginJob s).started = true ∧ (JQ_beginJob s).aborted = false ∧
    (JQ_beginJob s).concurrentLimit = L ∧
    (JQ_beginJob s).activeJobs = min (L : Int) (JQ_beginJob s).queueLength := by
  have hf := beginLoop_frame (s.queueLength - s.activeJobs).toNat s
  have hx := JQ_beginJob_exits s
  have hle := beginLoop_le L (s.queueLength - s.activeJobs).toNat s hlimit h1 h2
  have hs : (JQ_beginJob s).started = true := by
    rw [JQ_beginJob, hf.2.2.2.2.2.1]; exact hstarted
  have ha : (JQ_beginJob s).aborted = false := by
    rw [JQ_beginJob, hf.2.2.2.2.2.2.1]; exact haborted
  have hl : (JQ_beginJob s).concurrentLimit = L := by
    rw [JQ_beginJob, hf.2.2.2.2.1]; exact hlimit
  refine ⟨hs, ha, hl, ?_⟩
  have hnot : ¬ ((JQ_beginJob s).activeJobs < (L : Int) ∧
      (JQ_beginJob s).activeJobs < (JQ_beginJob s).queueLength) := by
    rintro ⟨h3, h4⟩
    apply hx
    refine ⟨hs, ha, ?_, h4⟩
    rw [hl]
    exact_mod_cast h3
  have h5 : (JQ_beginJob s).activeJobs ≤ L := hle.1
  have h6 : (JQ_beginJob s).activeJobs ≤ (JQ_beginJob s).queueLength := hle.2
  omega

/-- An event that is no `setLimit` and no abort keeps a started queue with the
whole-number limit `L` in a state where `activeJobs` is the smaller of `L` and
`queueLength`. -/
theorem step_busy (L : ℕ) (s s1 : JobQueue) (op : JQOp) (hop : keepsLimit op = true)
    (h : s.started = true ∧ s.aborted = false ∧ s.concurrentLimit = L ∧
      s.activeJobs = min (L : Int) s.queueLength)
    (hstep : s.step op = .ok s1) :
    s1.started = true ∧ s1.aborted = false ∧ s1.concurrentLimit = L ∧
      s1.activeJobs = min (L : Int) s1.queueLength := by
  obtain ⟨h1, h2, h3, h4⟩ := h
  rcases step_ok_cases s s1 op hstep with
    ⟨job, context, -, ⟨hs, rfl⟩ | ⟨-, rfl⟩⟩ | ⟨q, rfl, hq, rfl⟩ |
    ⟨-, hs, -⟩ | ⟨v, -, rfl⟩ | ⟨v, -, rfl⟩ |
    ⟨j, rest, -, -, rfl⟩ |
    ⟨j, job, -, -, -, -, ⟨hz1, hz2, -, rfl⟩ | ⟨hz1, hz2, -, rfl⟩ | ⟨-, rfl⟩⟩ | ⟨about, rfl, -, rfl⟩
  · rw [h1] at hs; cases hs
  · refine beginJob_busy L _ h1 h2 h3 ?_ ?_
    · show s.activeJobs ≤ (L : Int)
      omega
    · show s.activeJobs ≤ s.queueLength + 1
      omega
  · cases hop
  · rw [h1] at hs; cases hs
  · exact ⟨h1, h2, h3, h4⟩
  · exact ⟨h1, h2, h3, h4⟩
  · exact ⟨h1, h2, h3, h4⟩
  · refine ⟨h1, h2, h3, ?_⟩
    show (s.finished j job).activeJobs = min (L : Int) (s.finished j job).queueLength
    rw [hz1, hz2]
    omega
  · refine ⟨h1, h2, h3, ?_⟩
    rw [hz1, hz2]
    omega
  · refine beginJob_busy L _ h1 h2 h3 ?_ ?_
    · show s.activeJobs - 1 ≤ (L : Int)
      omega
    · show s.activeJobs - 1 ≤ s.queueLength - 1
      omega
  · cases hop

/-- C33: take a queue that is not started and not aborted and whose limit is
the whole number `L`.  `start()` returns, and after it and after every
sequence of later events without `setLimit` and without a call of an abort
function (calls of `enqueue`, timers firing, completion functions called),
`activeJobs` is the smaller of `L` and `queueLength`. -/
theorem C33_started_queue_keeps_every_slot_busy (L : ℕ) (before later : List JQOp)
    (hstarted : (new.run before).started = false)
    (haborted : (new.run before).aborted = false)
    (hlimit : (new.run before).concurrentLimit = L)
    (hlater : ∀ op ∈ later, keepsLimit op = true) :
    ∃ s1, (new.run before).step .start = .ok s1 ∧
      (s1.run later).activeJobs = min (L : Int) (s1.run later).queueLength ∧
      (s1.run later).queueLength = (s1.run later).queue.length := by
  have hinv := run_inv before
  have hun := run_unstarted before hstarted
  generalize new.run before = s at *
  obtain ⟨-, -, -, -, hact⟩ := hun
  have hlen : (0 : Int) ≤ s.queueLength := by
    rw [hinv.len]
    exact Int.natCast_nonneg _
  have hstart : ∃ s1, s.step .start = .ok s1 ∧ Inv s1 ∧
      (s1.started = true ∧ s1.aborted = false ∧ s1.concurrentLimit = L ∧
        s1.activeJobs = min (L : Int) s1.queueLength) := by
    cases hstep : s.step .start with
    | error e =>
      simp only [step, start, hstarted, Bool.false_eq_true, if_false] at hstep
      split at hstep
      · cases hstep
      · split at hstep <;> cases hstep
    | ok s1 =>
      refine ⟨s1, rfl, step_inv s s1 .start hinv hstep, ?_⟩
      rcases step_ok_cases s s1 .start hstep with
        ⟨_, _, h, _⟩ | ⟨_, h, _⟩ |
        ⟨-, -, ⟨-, rfl⟩ | ⟨hq, -, rfl⟩ | ⟨hq, -, rfl⟩⟩ | ⟨_, h, _⟩ | ⟨_, h, _⟩ |
        ⟨_, _, h, _⟩ | ⟨_, _, h, _⟩ | ⟨_, h, _⟩
      · cases h
      · cases h
      · refine beginJob_busy L _ rfl haborted hlimit ?_ ?_
        · show s.activeJobs ≤ (L : Int)
          omega
        · show s.activeJobs ≤ s.queueLength
          omega
      · refine ⟨rfl, haborted, hlimit, ?_⟩
        show s.activeJobs = min (L : Int) s.queueLength
        omega
      · refine ⟨rfl, haborted, hlimit, ?_⟩
        show s.activeJobs = min (L : Int) s.queueLength
        omega
      · cases h
      · cases h
      · cases h
      · cases h
      · cases h
  obtain ⟨s1, hs1, hinv1, hbusy⟩ := hstart
  refine ⟨s1, hs1, ?_, ?_⟩
  · exact (run_of_next
      (fun t => t.started = true ∧ t.aborted = false ∧ t.concurrentLimit = L ∧
        t.activeJobs = min (L : Int) t.queueLength)
      (fun op => keepsLimit op = true)
      (fun t op hop ht => next_of_step _ t op ht (fun t1 ht1 => step_busy L t t1 op hop ht ht1))
      later s1 hlater hbusy).2.2.2
  · exact (run_of_next Inv (fun _ => True)
      (fun t op _ ht => next_of_step Inv t op ht (fun t1 ht1 => step_inv t t1 op ht ht1))
      later s1 (fun _ _ => trivial) hinv1).len

/-- Witness of C33: limit 2, three jobs enqueued before `start()`, then the
first job runs and completes. -/
theorem C33_started_queue_keeps_every_slot_busy_witness :
    ∃ s1, (new.run [.setLimit (.num 2), .enqueue 7 1, .enqueue 7 2, .enqueue 7 3]).step .start
        = .ok s1 ∧
      (s1.run [.tick, .complete 0]).activeJobs =
        min ((2 : ℕ) : Int) (s1.run [.tick, .complete 0]).queueLength ∧
      (s1.run [.tick, .complete 0]).queueLength = (s1.run [.tick, .complete 0]).queue.length :=
  C33_started_queue_keeps_every_slot_busy 2
    [.setLimit (.num 2), .enqueue 7 1, .enqueue 7 2, .enqueue 7 3] [.tick, .complete 0]
    (by decide) (by decide) (by decide) (by decide)

end JobQueue

end MMG2
